import Mathlib

/-!
Verification development for the `wn_edit` editor
(`src/wn_edit/editor.py`).

The Python code manipulates a `LexicalResource` made of nested
dictionaries (`wn.lmf` TypedDict shapes) plus four lookup indexes held by
`WordnetEditor` (`_entry_by_id`, `_synset_by_id`, `_sense_by_id`,
`_entries_by_lemma`).  We embed the document and the indexes as a single
`EditorState` record and each Edit Engine operation as a pure function on
it, following the Python statement for statement.

Modelling conventions:

* Python dictionaries whose values are the very objects stored in the
  document (`_entry_by_id`, `_synset_by_id`, `_sense_by_id`) are embedded
  as their key lists (`List String`), with an object reference modelled by
  the object's `id` field.  This is faithful whenever each identifier
  denotes at most one object, which the well-formedness invariant `WF`
  below guarantees; in-place mutation of a shared object is embedded as an
  update of the document object with that identifier.
* `_entries_by_lemma` is embedded as an association list
  `List (String × List String)` (written form, entry ids in insertion
  order); key presence is observable in the code (`in` tests), so keys
  bound to the empty list are distinguished from absent keys, exactly as
  in a Python dict.
* Optional dictionary keys holding lists (`relations`, `senses`,
  `definitions`, `examples`) are embedded as plain list fields with `[]`
  for the absent key: every access in the code goes through
  `.get(k, [])` or inserts the key before appending, so key absence is
  not observable for them.
* `uuid.uuid4()`-generated identifiers are passed in as explicit
  arguments; theorems assume their freshness, which models the
  collision-resistant generation.
* Record fields that the modelled operations never read or write
  (pronunciations, tags, counts, metadata, ...) are omitted; they are
  carried through unchanged by every operation considered here.
-/

namespace WnEdit

/-- `{'writtenForm': ..., 'partOfSpeech': ...}` built by `make_lemma`. -/
structure Lem where
  writtenForm : String
  partOfSpeech : String
deriving DecidableEq

/-- `{'target': ..., 'relType': ...}` built by `make_relation`. -/
structure Rel where
  target : String
  relType : String
deriving DecidableEq

/-- A Sense dictionary as built by `make_sense` (fields read/written by
the modelled operations). -/
structure Sense where
  id : String
  synset : String
  relations : List Rel := []
deriving DecidableEq

/-- A LexicalEntry dictionary (fields read/written by the modelled
operations); `lem` embeds the `lemma` key (Lean keyword). -/
structure Entry where
  id : String
  lem : Lem
  senses : List Sense := []
deriving DecidableEq

/-- A Definition dictionary as built by `make_definition(text)`. -/
structure Defn where
  text : String
deriving DecidableEq

/-- An Example dictionary as built by `make_example(text)`. -/
structure Example where
  text : String
deriving DecidableEq

/-- A Synset dictionary as built by `make_synset` (fields read/written by
the modelled operations). -/
structure Synset where
  id : String
  partOfSpeech : String
  ili : String := ""
  definitions : List Defn := []
  examples : List Example := []
  relations : List Rel := []
deriving DecidableEq

/-- The fallback closed set of parts of speech defined in
`editor.py` (`PARTS_OF_SPEECH = {'n','v','a','r','s'}`), the closed set
named by the specification. -/
def PARTS_OF_SPEECH : List String := ["n", "v", "a", "r", "s"]

/-- Errors raised by the Edit Engine: `KeyError` for missing identifiers,
`ValueError`/`TypeError` from the field validators. -/
inductive EditErr where
  | notFound (id : String)
  | invalidArgument (msg : String)
deriving DecidableEq

/-! ### Dictionary helpers (Python `dict` on string keys) -/

/-- `d.get(k, [])` on the surface-form index. -/
def lookupD (ix : List (String × List String)) (k : String) : List String :=
  match ix.find? (fun p => p.1 = k) with
  | some p => p.2
  | none => []

/-- `k in d` on the surface-form index. -/
def containsKey (ix : List (String × List String)) (k : String) : Bool :=
  ix.any (fun p => p.1 = k)

/-- `if k not in d: d[k] = []` followed by `d[k].append(v)`
(`create_entry`, `_rebuild_indexes`). -/
def lemmaAppend (ix : List (String × List String)) (k v : String) :
    List (String × List String) :=
  if containsKey ix k then
    ix.map (fun p => if p.1 = k then (p.1, p.2 ++ [v]) else p)
  else
    ix ++ [(k, [v])]

/-- `if k in d: d[k] = [e for e in d[k] if e['id'] != eid]`
(`remove_synset`, `remove_entry`).  The key survives even when the
filtered list is empty, exactly as in Python. -/
def lemmaRemoveId (ix : List (String × List String)) (k eid : String) :
    List (String × List String) :=
  ix.map (fun p => if p.1 = k then (p.1, p.2.filter (fun i => i ≠ eid)) else p)

/-- `d[k] = v` on an id-keyed index, key part (the value is the document
object with identifier `k`). -/
def keyInsert (ix : List String) (k : String) : List String :=
  if k ∈ ix then ix else ix ++ [k]

/-! ### Editor state -/

/-- `WordnetEditor` state: the primary lexicon's `entries` and `synsets`
sequences plus the four lookup indexes. -/
structure EditorState where
  entries : List Entry
  synsets : List Synset
  entryIdx : List String
  synsetIdx : List String
  senseIdx : List String
  lemmaIdx : List (String × List String)
deriving DecidableEq

/-- All senses of the document in entry order (`for entry ...: for sense
in entry['senses']`). -/
def EditorState.allSenses (st : EditorState) : List Sense :=
  st.entries.flatMap Entry.senses

/-! ### Record constructors (`make_*` helpers) -/

/-- `make_definition(text)`. -/
def make_definition (text : String) : Defn := ⟨text⟩

/-- `make_example(text)`. -/
def make_example (text : String) : Example := ⟨text⟩

/-- `make_sense(id, synset)` as called by `add_word_to_synset` (no
optional arguments, hence no validation). -/
def make_sense (id synset : String) : Sense :=
  { id := id, synset := synset, relations := [] }

/-- `make_synset`: validates the part of speech (`validate_pos`), then
builds the dictionary with `'ili': ili or ''`. -/
def make_synset (id pos : String) (ili : Option String)
    (definitions : List Defn) (examples : List Example) :
    Except EditErr Synset :=
  if pos ∈ PARTS_OF_SPEECH then
    .ok { id := id, partOfSpeech := pos,
          ili := (match ili with
                  | some s => s
                  | none => ""),
          definitions := definitions, examples := examples, relations := [] }
  else
    .error (.invalidArgument "part of speech for synset")

/-- `make_relation(target, rel_type, validate=..., relation_kind=...)`:
returns the relation plus the advisory warnings emitted
(`warnings.warn` when `rel_type` is outside the closed vocabulary). -/
def make_relation (target relType : String) (validate : Bool)
    (vocab : List String) : Rel × List String :=
  (⟨target, relType⟩,
   if validate && !(vocab.contains relType) then
     ["Relation type " ++ relType ++ " is not a standard WN-LMF relation"]
   else [])

/-! ### In-place mutation of shared objects

In Python these operations mutate one dictionary aliased by the document
and the indexes; here they rewrite the document object carrying the given
identifier (the unique such object in well-formed states). -/

/-- Mutate the entry with identifier `eid`. -/
def updateEntry (st : EditorState) (eid : String) (f : Entry → Entry) :
    EditorState :=
  { st with entries := st.entries.map (fun e => if e.id = eid then f e else e) }

/-- Mutate the synset with identifier `sid`. -/
def updateSynset (st : EditorState) (sid : String) (f : Synset → Synset) :
    EditorState :=
  { st with synsets := st.synsets.map (fun s => if s.id = sid then f s else s) }

/-- Mutate the sense with identifier `sid` (wherever it sits in the
document). -/
def updateSense (st : EditorState) (sid : String) (f : Sense → Sense) :
    EditorState :=
  { st with entries := st.entries.map (fun e =>
      { e with senses := e.senses.map (fun s => if s.id = sid then f s else s) }) }

/-! ### Edit Engine operations

Fallible operations return `Option EditErr × EditorState`: the state
component is what the editor holds when the call returns or raises, so
"no partial mutation on error" is expressible (and falsifiable) in the
encoding. -/

/-- `create_entry(lemma, pos, entry_id)`: `make_lemma` validates the part
of speech, then the entry is appended and registered in the two
entry-scoped indexes.  `entryId` stands for the generated
`_generate_id` value (or the caller-supplied one). -/
def create_entry (st : EditorState) (lem pos : String) (entryId : String) :
    Except EditErr (EditorState × Entry) :=
  if pos ∈ PARTS_OF_SPEECH then
    let e : Entry := { id := entryId, lem := ⟨lem, pos⟩, senses := [] }
    .ok ({ st with
            entries := st.entries ++ [e],
            entryIdx := keyInsert st.entryIdx entryId,
            lemmaIdx := lemmaAppend st.lemmaIdx lem entryId }, e)
  else
    .error (.invalidArgument "part of speech for lemma")

/-- `find_entries(lemma, pos)`: surface-form index lookup, entry ids
resolved to their document objects, optional part-of-speech filter. -/
def find_entries (st : EditorState) (lem : String) (pos : Option String) :
    List Entry :=
  let es := (lookupD st.lemmaIdx lem).filterMap
    (fun i => st.entries.find? (fun e => e.id = i))
  match pos with
  | none => es
  | some p => es.filter (fun e => e.lem.partOfSpeech = p)

/-- The second half of `add_word_to_synset`: if no sense of `e` already
links to `synsetId`, append a new sense (identifier
`entry_id + "-" + synset_id`) and register it in the sense index. -/
def addSenseIfMissing (st : EditorState) (e : Entry) (synsetId : String) :
    EditorState :=
  if e.senses.any (fun s => s.synset = synsetId) then st
  else
    let senseId := e.id ++ "-" ++ synsetId
    let st1 := updateEntry st e.id
      (fun e1 => { e1 with senses := e1.senses ++ [make_sense senseId synsetId] })
    { st1 with senseIdx := keyInsert st1.senseIdx senseId }

/-- `pos = pos or synset['partOfSpeech']` in `add_word_to_synset`: a
`None` or empty part of speech falls back to the target synset's (the
synset object is the one the index aliases, i.e. the document synset
with that identifier). -/
def resolvePos (st : EditorState) (synsetId : String) (pos : Option String) :
    String :=
  let ssPos := match st.synsets.find? (fun s => s.id = synsetId) with
    | some ss => ss.partOfSpeech
    | none => ""
  match pos with
  | some q => if q = "" then ssPos else q
  | none => ssPos

/-- `add_word_to_synset(synset_id, lemma, pos)`: not-found check on the
synset index, `pos = pos or synset['partOfSpeech']`, entry reuse via
`find_entries` or creation via `create_entry` (with generated id
`newEntryId`), then sense creation if missing. -/
def add_word_to_synset (st : EditorState) (synsetId lem : String)
    (pos : Option String) (newEntryId : String) :
    Option EditErr × EditorState :=
  if !(st.synsetIdx.contains synsetId) then
    (some (.notFound synsetId), st)
  else
    match (find_entries st lem (some (resolvePos st synsetId pos))).head? with
    | some e => (none, addSenseIfMissing st e synsetId)
    | none =>
      match create_entry st lem (resolvePos st synsetId pos) newEntryId with
      | .error err => (some err, st)
      | .ok (st1, e) => (none, addSenseIfMissing st1 e synsetId)

/-- `create_synset(pos, definition, definitions, examples, words, ili,
synset_id)`: builds the synset (validating `pos`), appends it and its
index key, then runs `add_word_to_synset(synset_id, word, pos)` for each
word.  `synsetId` stands for the generated identifier and `entryIds`
supplies one generated entry identifier per word (used only on the
creation branch); errors cannot occur inside the loop because `pos` was
already validated and the synset key was just inserted. -/
def create_synset (st : EditorState) (pos : String)
    (definition : Option String) (definitions : List String)
    (examples : List String) (words : List String) (ili : Option String)
    (synsetId : String) (entryIds : List String) :
    Except EditErr (EditorState × Synset) :=
  let defs := (match definition with
               | some d => [make_definition d]
               | none => []) ++ definitions.map make_definition
  let exs := examples.map make_example
  match make_synset synsetId pos ili defs exs with
  | .error e => .error e
  | .ok synset =>
    let st1 := { st with
                  synsets := st.synsets ++ [synset],
                  synsetIdx := keyInsert st.synsetIdx synsetId }
    let st2 := (words.zip entryIds).foldl
      (fun s w => (add_word_to_synset s synsetId w.1 (some pos) w.2).2) st1
    .ok (st2, synset)

/-- `modify_synset(synset_id, definition, add_definitions, add_examples,
ili)`: not-found check first, then only the supplied fields are applied
to the synset in place. -/
def modify_synset (st : EditorState) (synsetId : String)
    (definition : Option String) (addDefinitions : List String)
    (addExamples : List String) (ili : Option String) :
    Option EditErr × EditorState :=
  if !(st.synsetIdx.contains synsetId) then
    (some (.notFound synsetId), st)
  else
    let st1 := match definition with
      | some d => updateSynset st synsetId
          (fun s => { s with definitions := [make_definition d] })
      | none => st
    let st2 := if addDefinitions.isEmpty then st1 else
      updateSynset st1 synsetId (fun s =>
        { s with definitions := s.definitions ++ addDefinitions.map make_definition })
    let st3 := if addExamples.isEmpty then st2 else
      updateSynset st2 synsetId (fun s =>
        { s with examples := s.examples ++ addExamples.map make_example })
    let st4 := match ili with
      | some v => updateSynset st3 synsetId (fun s => { s with ili := v })
      | none => st3
    (none, st4)

/-- `remove_synset(synset_id)`: not-found check, removal of the synset
from the sequence and its index, stripping of every sense targeting it
(popping each from the sense index), then pruning of every entry left
with zero senses (popping it from the entry index and filtering its
surface-form bucket). -/
def remove_synset (st : EditorState) (synsetId : String) :
    Option EditErr × EditorState :=
  if !(st.synsetIdx.contains synsetId) then
    (some (.notFound synsetId), st)
  else
    let synsets1 := st.synsets.filter (fun s => s.id ≠ synsetId)
    let synsetIdx1 := st.synsetIdx.erase synsetId
    let strippedIds := st.entries.flatMap
      (fun e => (e.senses.filter (fun s => s.synset = synsetId)).map Sense.id)
    let senseIdx1 := strippedIds.foldl (fun ix i => ix.erase i) st.senseIdx
    let entries1 := st.entries.map
      (fun e => { e with senses := e.senses.filter (fun s => s.synset ≠ synsetId) })
    let removed := entries1.filter (fun e => e.senses.isEmpty)
    let entryIdx1 := removed.foldl (fun ix e => ix.erase e.id) st.entryIdx
    let lemmaIdx1 := removed.foldl
      (fun ix e => lemmaRemoveId ix e.lem.writtenForm e.id) st.lemmaIdx
    (none,
     { entries := entries1.filter (fun e => !e.senses.isEmpty),
       synsets := synsets1,
       entryIdx := entryIdx1,
       synsetIdx := synsetIdx1,
       senseIdx := senseIdx1,
       lemmaIdx := lemmaIdx1 })

/-- `add_synset_relation(source_id, target_id, rel_type, validate)`:
not-found check on the source synset, then the relation is appended;
advisory warnings are returned alongside. -/
def add_synset_relation (vocab : List String) (st : EditorState)
    (sourceId targetId relType : String) (validate : Bool) :
    Option EditErr × List String × EditorState :=
  if !(st.synsetIdx.contains sourceId) then
    (some (.notFound sourceId), [], st)
  else
    let rw := make_relation targetId relType validate vocab
    (none, rw.2,
     updateSynset st sourceId (fun s => { s with relations := s.relations ++ [rw.1] }))

/-- `remove_entry(entry_id)`: not-found check, sense-index pops for the
entry's senses, removal from the entry sequence, the entry index and its
surface-form bucket. -/
def remove_entry (st : EditorState) (entryId : String) :
    Option EditErr × EditorState :=
  if !(st.entryIdx.contains entryId) then
    (some (.notFound entryId), st)
  else
    match st.entries.find? (fun e => e.id = entryId) with
    | none =>
      -- Unreachable in well-formed states (index key without document
      -- object); Python would mutate through the stale reference.
      (none, { st with
                entries := st.entries.filter (fun e => e.id ≠ entryId),
                entryIdx := st.entryIdx.erase entryId })
    | some entry =>
      let senseIdx1 := (entry.senses.map Sense.id).foldl
        (fun ix i => ix.erase i) st.senseIdx
      (none,
       { st with
          entries := st.entries.filter (fun e => e.id ≠ entryId),
          entryIdx := st.entryIdx.erase entryId,
          senseIdx := senseIdx1,
          lemmaIdx := lemmaRemoveId st.lemmaIdx entry.lem.writtenForm entryId })

/-- `add_sense_relation(source_sense_id, target_id, rel_type, validate)`:
not-found check on the sense index, then the relation is appended to the
sense in place; advisory warnings are returned alongside. -/
def add_sense_relation (vocab : List String) (st : EditorState)
    (sourceSenseId targetId relType : String) (validate : Bool) :
    Option EditErr × List String × EditorState :=
  if !(st.senseIdx.contains sourceSenseId) then
    (some (.notFound sourceSenseId), [], st)
  else
    let rw := make_relation targetId relType validate vocab
    (none, rw.2,
     updateSense st sourceSenseId (fun s => { s with relations := s.relations ++ [rw.1] }))

/-! ### Bulk-load assembly (`_load_from_database_bulk`, steps 4 and 5)

The grouped row sets produced by the bulk queries are parameters here
(function arguments standing for the `defaultdict` groupings); the
assembly loops are embedded directly.  Row payloads that the loops copy
through unchanged are omitted from the embedded dictionaries. -/

/-- One row of the `senses` bulk query joined per entry:
`(sense_id, synset_id, entry_rank)` (`metadata` omitted). -/
structure RawSense where
  id : String
  synset : String
  entryRank : Option Nat
deriving DecidableEq

/-- An assembled sense dictionary (fields relevant to the display-order
number; the pass-through groupings are omitted). -/
structure SenseDict where
  id : String
  synset : String
  n : Nat
deriving DecidableEq

/-- The display-order number computed in the sense loop of
`_load_from_database_bulk`:
`n = 0`, then `if entry_rank is not None and (index is not None or
entry_rank != i): n = entry_rank`, where `i` is the 1-based position of
the sense within its entry and `index` is the entry's index marker
(`entry_index.get(entry_id)`). -/
def senseN (entryRank : Option Nat) (index : Option String) (i : Nat) : Nat :=
  match entryRank with
  | none => 0
  | some r => if index.isSome || r != i then r else 0

/-- The sense-assembly loop `for i, ... in enumerate(raw_senses, 1)` of
`_load_from_database_bulk`, called with `i = 1` at the top. -/
def assembleSenseList (index : Option String) : Nat → List RawSense → List SenseDict
  | _, [] => []
  | i, raw :: rest =>
    { id := raw.id, synset := raw.synset, n := senseN raw.entryRank index i }
      :: assembleSenseList index (i + 1) rest

/-- One row of the synsets bulk query:
`(ss.id, ss.pos, COALESCE(i.id, ''), COALESCE(lf.name, ''))` — the
confirmed interlingual-index identifier arrives as `''` when null
(`metadata` omitted). -/
structure RawSynsetRow where
  id : String
  pos : String
  ili : String
  lexfile : String
deriving DecidableEq

/-- An assembled synset dictionary from step 5 of
`_load_from_database_bulk` (`metadata` omitted). -/
structure SynsetDict where
  id : String
  ili : String
  partOfSpeech : String
  definitions : List Defn
  relations : List Rel
  examples : List Example
  lexicalized : Bool
  lexfile : String
  members : List String
  iliDefinition : Option Defn
deriving DecidableEq

/-- The body of the synset loop in step 5 of `_load_from_database_bulk`:
if the synset has a proposed interlingual-index definition
(`proposed_ilis`) and its confirmed identifier is empty, the identifier
is set to the reserved placeholder `'in'`; the grouped definition,
relation, example, member and unlexicalized sets are parameters. -/
def assembleSynset (proposedIlis : String → Option String)
    (synsetDefs : String → List Defn) (synsetRels : String → List Rel)
    (synsetExamples : String → List Example) (unlexSynsets : String → Bool)
    (synsetMembers : String → List String) (row : RawSynsetRow) : SynsetDict :=
  let iliDef := (proposedIlis row.id).map Defn.mk
  let ili := if (proposedIlis row.id).isSome && row.ili == "" then "in" else row.ili
  { id := row.id,
    ili := ili,
    partOfSpeech := row.pos,
    definitions := synsetDefs row.id,
    relations := synsetRels row.id,
    examples := synsetExamples row.id,
    lexicalized := !(unlexSynsets row.id),
    lexfile := row.lexfile,
    members := synsetMembers row.id,
    iliDefinition := iliDef }

/-! ### Well-formedness: the indexes mirror the document

`_rebuild_indexes` establishes these conditions after a load; the claims
about the Edit Engine quantify over the states the editor actually holds,
which satisfy them. -/

/-- Identifiers are unique: no two entries, synsets, or senses of the
document share an `id`. -/
def UniqueIds (st : EditorState) : Prop :=
  (st.entries.map Entry.id).Nodup ∧
  (st.synsets.map Synset.id).Nodup ∧
  (st.allSenses.map Sense.id).Nodup

/-- The four indexes exactly mirror the document: each id-keyed index
holds exactly the identifiers of the corresponding document objects, and
each surface-form bucket holds exactly the ids of the entries bearing
that written form as lemma, in document (= insertion) order; every borne
form is a key. -/
def IndexesMirror (st : EditorState) : Prop :=
  st.entryIdx.Nodup ∧
  (∀ i ∈ st.entryIdx, i ∈ st.entries.map Entry.id) ∧
  (∀ e ∈ st.entries, e.id ∈ st.entryIdx) ∧
  st.synsetIdx.Nodup ∧
  (∀ i ∈ st.synsetIdx, i ∈ st.synsets.map Synset.id) ∧
  (∀ s ∈ st.synsets, s.id ∈ st.synsetIdx) ∧
  st.senseIdx.Nodup ∧
  (∀ i ∈ st.senseIdx, i ∈ st.allSenses.map Sense.id) ∧
  (∀ s ∈ st.allSenses, s.id ∈ st.senseIdx) ∧
  (st.lemmaIdx.map Prod.fst).Nodup ∧
  (∀ p ∈ st.lemmaIdx,
    p.2 = (st.entries.filter (fun e => e.lem.writtenForm = p.1)).map Entry.id) ∧
  (∀ e ∈ st.entries, e.lem.writtenForm ∈ st.lemmaIdx.map Prod.fst)

/-- Well-formed editor state. -/
def WF (st : EditorState) : Prop :=
  UniqueIds st ∧ IndexesMirror st

instance (st : EditorState) : Decidable (UniqueIds st) := by
  unfold UniqueIds; infer_instance

instance (st : EditorState) : Decidable (IndexesMirror st) := by
  unfold IndexesMirror; infer_instance

instance (st : EditorState) : Decidable (WF st) := by
  unfold WF; infer_instance

/-! ### Edit Engine operation sequences

A reified call to one of the eight Edit Engine mutating operations, with
its arguments (generated identifiers included, per the conventions
above). -/

inductive Op where
  | createSynsetOp (pos : String) (definition : Option String)
      (definitions : List String) (examples : List String)
      (words : List String) (ili : Option String)
      (synsetId : String) (entryIds : List String)
  | modifySynsetOp (synsetId : String) (definition : Option String)
      (addDefinitions : List String) (addExamples : List String)
      (ili : Option String)
  | removeSynsetOp (synsetId : String)
  | addSynsetRelationOp (vocab : List String)
      (sourceId targetId relType : String) (validate : Bool)
  | createEntryOp (lem pos entryId : String)
  | addWordToSynsetOp (synsetId lem : String) (pos : Option String)
      (newEntryId : String)
  | removeEntryOp (entryId : String)
  | addSenseRelationOp (vocab : List String)
      (senseId targetId relType : String) (validate : Bool)

/-- The state the editor holds after the call returns or raises (a
raising call leaves the state as it was). -/
def applyOp (st : EditorState) : Op → EditorState
  | .createSynsetOp pos d ds exs ws ili sid eids =>
      match create_synset st pos d ds exs ws ili sid eids with
      | .ok p => p.1
      | .error _ => st
  | .modifySynsetOp sid d ds exs ili => (modify_synset st sid d ds exs ili).2
  | .removeSynsetOp sid => (remove_synset st sid).2
  | .addSynsetRelationOp vocab src tgt rty v =>
      (add_synset_relation vocab st src tgt rty v).2.2
  | .createEntryOp lem pos eid =>
      match create_entry st lem pos eid with
      | .ok p => p.1
      | .error _ => st
  | .addWordToSynsetOp sid lem pos eid => (add_word_to_synset st sid lem pos eid).2
  | .removeEntryOp eid => (remove_entry st eid).2
  | .addSenseRelationOp vocab sid tgt rty v =>
      (add_sense_relation vocab st sid tgt rty v).2.2

/-- Freshness of the identifiers an operation generates, relative to the
state it runs in: this models the collision resistance of
`_generate_id` (uuid4) and of the derived sense identifiers
`entry_id + "-" + synset_id`. -/
def OpOK (st : EditorState) : Op → Prop
  | .createSynsetOp _ _ _ _ _ _ sid eids =>
      sid ∉ st.synsets.map Synset.id ∧
      (∀ e ∈ st.entries, ∀ s ∈ e.senses, s.synset ≠ sid) ∧
      eids.Nodup ∧
      (∀ eid ∈ eids, eid ∉ st.entries.map Entry.id) ∧
      (∀ eid ∈ eids, eid ++ "-" ++ sid ∉ st.senseIdx) ∧
      (∀ e ∈ st.entries, e.id ++ "-" ++ sid ∉ st.senseIdx)
  | .createEntryOp _ _ eid => eid ∉ st.entries.map Entry.id
  | .addWordToSynsetOp sid _ _ eid =>
      eid ∉ st.entries.map Entry.id ∧
      eid ++ "-" ++ sid ∉ st.senseIdx ∧
      (∀ e ∈ st.entries, (∀ s ∈ e.senses, s.synset ≠ sid) →
        e.id ++ "-" ++ sid ∉ st.senseIdx)
  | _ => True

/-- The in-place update `entry['senses'].append(make_sense(...))`
performed by `add_word_to_synset` on the entry it settled on. -/
def entryAddSense (sid : String) (e : Entry) : Entry :=
  { e with senses := e.senses ++ [make_sense (e.id ++ "-" ++ sid) sid] }

/-- Loop invariant for the word loop of `create_synset`, relative to the
state `base` right after the synset itself was appended: `M` holds the
identifiers of pre-existing entries that received a new sense for `sid`,
`news` the entries created by the loop (each carrying exactly its one
new sense), and `stc` the current state. -/
def CreateTrace (base : EditorState) (sid p : String) (M : List String)
    (news : List Entry) (stc : EditorState) : Prop :=
  stc.synsets = base.synsets ∧
  stc.synsetIdx = base.synsetIdx ∧
  stc.entries = base.entries.map
    (fun e => if e.id ∈ M then entryAddSense sid e else e) ++ news ∧
  stc.entryIdx = base.entryIdx ++ news.map Entry.id ∧
  M.Nodup ∧
  (∀ i ∈ M, i ∈ base.entries.map Entry.id) ∧
  (news.map Entry.id).Nodup ∧
  (∀ ne ∈ news, ne.id ∉ base.entries.map Entry.id) ∧
  (∀ ne ∈ news, ne.lem.partOfSpeech = p ∧
    ne.senses = [make_sense (ne.id ++ "-" ++ sid) sid]) ∧
  (∃ addedIds : List String,
    stc.senseIdx = base.senseIdx ++ addedIds ∧
    addedIds.Nodup ∧
    (∀ a ∈ addedIds, a ∉ base.senseIdx) ∧
    (∀ a, a ∈ addedIds ↔ ((∃ i ∈ M, a = i ++ "-" ++ sid) ∨
      (∃ ne ∈ news, a = ne.id ++ "-" ++ sid)))) ∧
  (∀ f, lookupD stc.lemmaIdx f = lookupD base.lemmaIdx f ++
    (news.filter (fun ne => ne.lem.writtenForm = f)).map Entry.id) ∧
  (stc.lemmaIdx.map Prod.fst).Nodup ∧
  (∀ k ∈ base.lemmaIdx.map Prod.fst, k ∈ stc.lemmaIdx.map Prod.fst) ∧
  (∀ ne ∈ news, ne.lem.writtenForm ∈ stc.lemmaIdx.map Prod.fst)

/-- Run a sequence of Edit Engine calls. -/
def applyOps (st : EditorState) : List Op → EditorState
  | [] => st
  | op :: ops => applyOps (applyOp st op) ops

/-- Every generated identifier along the sequence is fresh for the state
its call runs in. -/
def OpsOK (st : EditorState) : List Op → Prop
  | [] => True
  | op :: ops => OpOK st op ∧ OpsOK (applyOp st op) ops

instance (st : EditorState) (op : Op) : Decidable (OpOK st op) := by
  unfold OpOK; cases op <;> infer_instance

instance (st : EditorState) (ops : List Op) : Decidable (OpsOK st ops) := by
  induction ops generalizing st with
  | nil => exact .isTrue trivial
  | cons op ops ih => unfold OpsOK; exact @instDecidableAnd _ _ _ (ih _)

/-! ## Theorems -/

/-! ### Association-list and erase-fold lemmas -/

theorem lookupD_nil (f : String) : lookupD [] f = [] := rfl

theorem lookupD_cons (p : String × List String)
    (rest : List (String × List String)) (f : String) :
    lookupD (p :: rest) f = if p.1 = f then p.2 else lookupD rest f := by
  by_cases hp : p.1 = f
  · simp [lookupD, List.find?_cons, hp]
  · simp [lookupD, List.find?_cons, hp]

theorem lookupD_lemmaRemoveId (ix : List (String × List String)) (k eid f : String) :
    lookupD (lemmaRemoveId ix k eid) f =
      if f = k then (lookupD ix f).filter (fun i => i ≠ eid) else lookupD ix f := by
  induction ix with
  | nil => by_cases h : f = k <;> simp [lemmaRemoveId, lookupD_nil, h]
  | cons p rest ih =>
    by_cases hpk : p.1 = k
    · have hq : lemmaRemoveId (p :: rest) k eid
          = (p.1, p.2.filter (fun i => i ≠ eid)) :: lemmaRemoveId rest k eid := by
        simp [lemmaRemoveId, hpk]
      rw [hq, lookupD_cons, lookupD_cons]
      by_cases hpf : p.1 = f
      · have hfk : f = k := by rw [← hpf, hpk]
        simp [hpf, hfk]
      · simp [hpf, ih]
    · have hq : lemmaRemoveId (p :: rest) k eid = p :: lemmaRemoveId rest k eid := by
        simp [lemmaRemoveId, hpk]
      rw [hq, lookupD_cons, lookupD_cons]
      by_cases hpf : p.1 = f
      · have hfk : ¬ f = k := by rw [← hpf]; exact hpk
        simp [hpf, hfk]
      · simp [hpf, ih]

theorem lemmaRemoveId_keys (ix : List (String × List String)) (k eid : String) :
    (lemmaRemoveId ix k eid).map Prod.fst = ix.map Prod.fst := by
  unfold lemmaRemoveId
  rw [List.map_map]
  apply List.map_congr_left
  intro p _
  by_cases hp : p.1 = k <;> simp [hp]

theorem containsKey_iff (ix : List (String × List String)) (k : String) :
    containsKey ix k = true ↔ k ∈ ix.map Prod.fst := by
  simp [containsKey, List.any_eq_true, List.mem_map]

theorem lookupD_of_key_not_mem (ix : List (String × List String)) (k : String)
    (h : k ∉ ix.map Prod.fst) : lookupD ix k = [] := by
  induction ix with
  | nil => rfl
  | cons p rest ih =>
    simp only [List.map_cons, List.mem_cons, not_or] at h
    rw [lookupD_cons, if_neg (fun hpk => h.1 hpk.symm)]
    exact ih h.2

theorem lookupD_append_single (ix : List (String × List String)) (k v : String)
    (hk : k ∉ ix.map Prod.fst) : lookupD (ix ++ [(k, [v])]) k = [v] := by
  induction ix with
  | nil => simp [lookupD_cons]
  | cons p rest ih =>
    simp only [List.map_cons, List.mem_cons, not_or] at hk
    rw [List.cons_append, lookupD_cons, if_neg (fun hpk => hk.1 hpk.symm)]
    exact ih hk.2

theorem lookupD_append_single_other (ix : List (String × List String))
    (k v f : String) (h : f ≠ k) :
    lookupD (ix ++ [(k, [v])]) f = lookupD ix f := by
  induction ix with
  | nil =>
    rw [List.nil_append, lookupD_cons, lookupD_nil, if_neg (fun hh => h hh.symm)]
  | cons p rest ih =>
    rw [List.cons_append, lookupD_cons, lookupD_cons]
    by_cases hpf : p.1 = f
    · simp [hpf]
    · simp only [if_neg hpf]
      exact ih

theorem lookupD_lemmaAppend_self (ix : List (String × List String)) (k v : String) :
    lookupD (lemmaAppend ix k v) k = lookupD ix k ++ [v] := by
  unfold lemmaAppend
  by_cases hc : containsKey ix k = true
  · rw [if_pos hc]
    induction ix with
    | nil => simp [containsKey] at hc
    | cons p rest ih =>
      by_cases hpk : p.1 = k
      · simp only [List.map_cons, if_pos hpk]
        rw [lookupD_cons, lookupD_cons]
        simp [hpk]
      · simp only [List.map_cons, if_neg hpk]
        rw [lookupD_cons, lookupD_cons, if_neg hpk, if_neg hpk]
        apply ih
        simpa [containsKey, List.any_cons, hpk] using hc
  · rw [if_neg hc]
    have hk : k ∉ ix.map Prod.fst := fun hm => hc ((containsKey_iff ix k).mpr hm)
    rw [lookupD_of_key_not_mem ix k hk, lookupD_append_single ix k v hk]
    rfl

theorem lookupD_lemmaAppend_other (ix : List (String × List String)) (k v f : String)
    (h : f ≠ k) : lookupD (lemmaAppend ix k v) f = lookupD ix f := by
  unfold lemmaAppend
  by_cases hc : containsKey ix k = true
  · rw [if_pos hc]
    clear hc
    induction ix with
    | nil => rfl
    | cons p rest ih =>
      by_cases hpk : p.1 = k
      · simp only [List.map_cons, if_pos hpk]
        rw [lookupD_cons, lookupD_cons]
        have : ¬ p.1 = f := by rw [hpk]; exact fun hh => h hh.symm
        rw [if_neg this, if_neg this]
        exact ih
      · simp only [List.map_cons, if_neg hpk]
        rw [lookupD_cons, lookupD_cons]
        by_cases hpf : p.1 = f
        · simp [hpf]
        · simp only [if_neg hpf]
          exact ih
  · rw [if_neg hc]
    exact lookupD_append_single_other ix k v f h

theorem lemmaAppend_keys (ix : List (String × List String)) (k v : String) :
    (lemmaAppend ix k v).map Prod.fst =
      if containsKey ix k then ix.map Prod.fst else ix.map Prod.fst ++ [k] := by
  unfold lemmaAppend
  by_cases hc : containsKey ix k = true
  · rw [if_pos hc, if_pos hc, List.map_map]
    apply List.map_congr_left
    intro p _
    by_cases hp : p.1 = k <;> simp [hp]
  · rw [if_neg hc, if_neg hc, List.map_append]
    rfl

theorem mem_keyInsert (ix : List String) (k a : String) :
    a ∈ keyInsert ix k ↔ a ∈ ix ∨ a = k := by
  unfold keyInsert
  by_cases h : k ∈ ix
  · rw [if_pos h]
    constructor
    · exact Or.inl
    · rintro (ha | rfl)
      · exact ha
      · exact h
  · rw [if_neg h]
    simp

theorem keyInsert_of_not_mem (ix : List String) (k : String) (h : k ∉ ix) :
    keyInsert ix k = ix ++ [k] := if_neg h

theorem keyInsert_nodup (ix : List String) (k : String) (h : ix.Nodup) :
    (keyInsert ix k).Nodup := by
  unfold keyInsert
  by_cases hk : k ∈ ix
  · rwa [if_pos hk]
  · rw [if_neg hk]
    simp [List.nodup_append, h, hk]

theorem foldl_erase_subset (ys : List String) :
    ∀ (l : List String) (a : String),
      a ∈ ys.foldl (fun ix i => ix.erase i) l → a ∈ l := by
  induction ys with
  | nil => intro l a h; exact h
  | cons y rest ih =>
    intro l a h
    exact List.erase_subset y l (ih (l.erase y) a h)

theorem mem_foldl_erase (ys : List String) :
    ∀ (l : List String) (a : String), a ∈ l → a ∉ ys →
      a ∈ ys.foldl (fun ix i => ix.erase i) l := by
  induction ys with
  | nil => intro l a h _; exact h
  | cons y rest ih =>
    intro l a h hny
    simp only [List.mem_cons, not_or] at hny
    exact ih (l.erase y) a ((List.mem_erase_of_ne hny.1).mpr h) hny.2

theorem nodup_foldl_erase (ys : List String) :
    ∀ (l : List String), l.Nodup → (ys.foldl (fun ix i => ix.erase i) l).Nodup := by
  induction ys with
  | nil => intro l h; exact h
  | cons y rest ih => intro l h; exact ih (l.erase y) (h.erase y)

theorem not_mem_foldl_erase (ys : List String) :
    ∀ (l : List String) (a : String), l.Nodup → a ∈ ys →
      a ∉ ys.foldl (fun ix i => ix.erase i) l := by
  induction ys with
  | nil => intro l a _ h; exact absurd h (List.not_mem_nil a)
  | cons y rest ih =>
    intro l a hnd hy
    rcases List.mem_cons.mp hy with rfl | hy2
    · intro hmem
      exact hnd.not_mem_erase (foldl_erase_subset rest (l.erase a) a hmem)
    · exact ih (l.erase y) a (hnd.erase y) hy2

theorem append_diff_self (added : List String) :
    ∀ (base : List String), (base ++ added).Nodup →
      (base ++ added).diff added = base := by
  induction added with
  | nil => intro base _; simp
  | cons a rest ih =>
    intro base hnd
    have hab : a ∉ base := fun hm =>
      (List.disjoint_of_nodup_append hnd) hm (List.mem_cons_self a rest)
    rw [List.diff_cons, List.erase_append_right _ hab, List.erase_cons_head]
    exact ih base (List.Nodup.sublist (by simp) hnd)

theorem foldl_erase_perm_append (base added ys : List String)
    (hperm : ys.Perm added) (hnd : (base ++ added).Nodup) :
    ys.foldl (fun ix i => ix.erase i) (base ++ added) = base := by
  have h1 : ys.foldl (fun ix i => ix.erase i) (base ++ added)
      = (base ++ added).diff ys := (List.diff_eq_foldl _ _).symm
  rw [h1, List.Perm.diff_left (base ++ added) hperm]
  exact append_diff_self added base hnd

theorem lookupD_foldl_lemmaRemoveId (rs : List Entry) :
    ∀ (ix : List (String × List String)) (f : String),
      lookupD (rs.foldl (fun ix r => lemmaRemoveId ix r.lem.writtenForm r.id) ix) f
        = (lookupD ix f).filter
            (fun i => !((rs.filter
                (fun r => r.lem.writtenForm = f)).map Entry.id).contains i) := by
  induction rs with
  | nil =>
    intro ix f
    simp
  | cons r rest ih =>
    intro ix f
    rw [List.foldl_cons, ih, lookupD_lemmaRemoveId]
    by_cases hf : f = r.lem.writtenForm
    · rw [if_pos hf, List.filter_filter]
      apply List.filter_congr
      intro i _
      have hr : r.lem.writtenForm = f := hf.symm
      have hb : (i == r.id) = decide (i = r.id) := by
        by_cases hir : i = r.id <;> simp [hir]
      simp [List.filter_cons, hr, Bool.and_comm, hb]
    · rw [if_neg hf]
      apply List.filter_congr
      intro i _
      have hr : ¬ r.lem.writtenForm = f := fun hh => hf hh.symm
      simp [List.filter_cons, hr]

/-! ### Operation dispatch lemmas (identifier present/absent) -/

theorem modify_synset_absent (st : EditorState) (sid : String)
    (d : Option String) (ds exs : List String) (ili : Option String)
    (h : sid ∉ st.synsetIdx) :
    modify_synset st sid d ds exs ili = (some (.notFound sid), st) := by
  unfold modify_synset
  rw [if_pos (by simp [List.elem_iff, h])]

theorem modify_synset_present_none (st : EditorState) (sid : String)
    (d : Option String) (ds exs : List String) (ili : Option String)
    (h : sid ∈ st.synsetIdx) :
    (modify_synset st sid d ds exs ili).1 = none := by
  unfold modify_synset
  rw [if_neg (by simp [List.elem_iff, h])]

theorem remove_synset_absent (st : EditorState) (sid : String)
    (h : sid ∉ st.synsetIdx) :
    remove_synset st sid = (some (.notFound sid), st) := by
  unfold remove_synset
  rw [if_pos (by simp [List.elem_iff, h])]

theorem remove_synset_present_none (st : EditorState) (sid : String)
    (h : sid ∈ st.synsetIdx) :
    (remove_synset st sid).1 = none := by
  unfold remove_synset
  rw [if_neg (by simp [List.elem_iff, h])]

theorem remove_synset_present_eq (st : EditorState) (sid : String)
    (h : sid ∈ st.synsetIdx) :
    (remove_synset st sid).2 =
      { entries := (st.entries.map (fun e =>
            { e with senses := e.senses.filter (fun s => s.synset ≠ sid) })).filter
            (fun e => !e.senses.isEmpty),
        synsets := st.synsets.filter (fun s => s.id ≠ sid),
        entryIdx := ((st.entries.map (fun e =>
            { e with senses := e.senses.filter (fun s => s.synset ≠ sid) })).filter
            (fun e => e.senses.isEmpty)).foldl
            (fun ix e => ix.erase e.id) st.entryIdx,
        synsetIdx := st.synsetIdx.erase sid,
        senseIdx := (st.entries.flatMap (fun e =>
            (e.senses.filter (fun s => s.synset = sid)).map Sense.id)).foldl
            (fun ix i => ix.erase i) st.senseIdx,
        lemmaIdx := ((st.entries.map (fun e =>
            { e with senses := e.senses.filter (fun s => s.synset ≠ sid) })).filter
            (fun e => e.senses.isEmpty)).foldl
            (fun ix e => lemmaRemoveId ix e.lem.writtenForm e.id) st.lemmaIdx } := by
  unfold remove_synset
  rw [if_neg (by simp [List.elem_iff, h])]

theorem remove_synset_synsets_eq (st : EditorState) (sid : String)
    (h : sid ∈ st.synsetIdx) :
    (remove_synset st sid).2.synsets = st.synsets.filter (fun s => s.id ≠ sid) := by
  rw [remove_synset_present_eq st sid h]

theorem remove_synset_synsetIdx_eq (st : EditorState) (sid : String)
    (h : sid ∈ st.synsetIdx) :
    (remove_synset st sid).2.synsetIdx = st.synsetIdx.erase sid := by
  rw [remove_synset_present_eq st sid h]

theorem remove_synset_entries_eq (st : EditorState) (sid : String)
    (h : sid ∈ st.synsetIdx) :
    (remove_synset st sid).2.entries =
      (st.entries.map (fun e =>
        { e with senses := e.senses.filter (fun s => s.synset ≠ sid) })).filter
        (fun e => !e.senses.isEmpty) := by
  rw [remove_synset_present_eq st sid h]

theorem remove_synset_entryIdx_eq (st : EditorState) (sid : String)
    (h : sid ∈ st.synsetIdx) :
    (remove_synset st sid).2.entryIdx =
      ((st.entries.map (fun e =>
        { e with senses := e.senses.filter (fun s => s.synset ≠ sid) })).filter
        (fun e => e.senses.isEmpty)).foldl
        (fun ix e => ix.erase e.id) st.entryIdx := by
  rw [remove_synset_present_eq st sid h]

theorem remove_synset_senseIdx_eq (st : EditorState) (sid : String)
    (h : sid ∈ st.synsetIdx) :
    (remove_synset st sid).2.senseIdx =
      (st.entries.flatMap (fun e =>
        (e.senses.filter (fun s => s.synset = sid)).map Sense.id)).foldl
        (fun ix i => ix.erase i) st.senseIdx := by
  rw [remove_synset_present_eq st sid h]

theorem remove_synset_lemmaIdx_eq (st : EditorState) (sid : String)
    (h : sid ∈ st.synsetIdx) :
    (remove_synset st sid).2.lemmaIdx =
      ((st.entries.map (fun e =>
        { e with senses := e.senses.filter (fun s => s.synset ≠ sid) })).filter
        (fun e => e.senses.isEmpty)).foldl
        (fun ix e => lemmaRemoveId ix e.lem.writtenForm e.id) st.lemmaIdx := by
  rw [remove_synset_present_eq st sid h]

theorem foldl_erase_entries (rs : List Entry) (ix : List String) :
    rs.foldl (fun ix e => ix.erase e.id) ix
      = (rs.map Entry.id).foldl (fun ix i => ix.erase i) ix := by
  rw [List.foldl_map]

/-- Shared cascade fact: any entry whose stripped sense list is empty is
pruned by `remove_synset` from the entry sequence, the entry index and
its surface-form bucket. -/
theorem remove_synset_prune (st : EditorState) (sid : String) (hwf : WF st)
    (h : sid ∈ st.synsetIdx) (e : Entry) (he : e ∈ st.entries)
    (hstrip : e.senses.filter (fun s => s.synset ≠ sid) = []) :
    (∀ e1 ∈ (remove_synset st sid).2.entries, e1.id ≠ e.id) ∧
    e.id ∉ (remove_synset st sid).2.entryIdx ∧
    e.id ∉ lookupD (remove_synset st sid).2.lemmaIdx e.lem.writtenForm := by
  obtain ⟨⟨hndE, hndS, hndSe⟩, hndEI, hEmem, hEcov, hndSI, hSmem, hScov,
    hndSeI, hSeMem, hSeCov, hndL, hLval, hLcov⟩ := hwf
  rw [remove_synset_entries_eq st sid h, remove_synset_entryIdx_eq st sid h,
      remove_synset_lemmaIdx_eq st sid h]
  have hmapmem : ({ e with senses := e.senses.filter (fun s => s.synset ≠ sid) } : Entry)
      ∈ st.entries.map (fun e =>
        { e with senses := e.senses.filter (fun s => s.synset ≠ sid) }) :=
    List.mem_map_of_mem _ he
  have hremoved : ({ e with senses := e.senses.filter (fun s => s.synset ≠ sid) } : Entry)
      ∈ (st.entries.map (fun e =>
          { e with senses := e.senses.filter (fun s => s.synset ≠ sid) })).filter
          (fun e => e.senses.isEmpty) := by
    refine List.mem_filter.mpr ⟨hmapmem, ?_⟩
    show (e.senses.filter (fun s => s.synset ≠ sid)).isEmpty = true
    rw [hstrip]
    rfl
  refine ⟨?_, ?_, ?_⟩
  · intro e1 he1 hid
    obtain ⟨he1m, he1ne⟩ := List.mem_filter.mp he1
    obtain ⟨e0, he0, he0eq⟩ := List.mem_map.mp he1m
    have he0id : e0.id = e.id := by
      have h2 : ({ e0 with senses := e0.senses.filter (fun s => s.synset ≠ sid) } : Entry).id
          = e.id := by rw [he0eq]; exact hid
      exact h2
    have he0e : e0 = e := List.inj_on_of_nodup_map hndE he0 he he0id
    have hsen : e1.senses = [] := by
      rw [← he0eq, he0e]
      exact hstrip
    rw [hsen] at he1ne
    simp at he1ne
  · rw [foldl_erase_entries]
    apply not_mem_foldl_erase _ _ _ hndEI
    exact List.mem_map.mpr
      ⟨{ e with senses := e.senses.filter (fun s => s.synset ≠ sid) }, hremoved, rfl⟩
  · rw [lookupD_foldl_lemmaRemoveId]
    intro hmem
    have hpred := (List.mem_filter.mp hmem).2
    have hin : e.id ∈ (((st.entries.map (fun e =>
        { e with senses := e.senses.filter (fun s => s.synset ≠ sid) })).filter
        (fun e => e.senses.isEmpty)).filter
        (fun r => r.lem.writtenForm = e.lem.writtenForm)).map Entry.id := by
      exact List.mem_map.mpr
        ⟨{ e with senses := e.senses.filter (fun s => s.synset ≠ sid) },
         List.mem_filter.mpr ⟨hremoved, by simp⟩, rfl⟩
    have hcon : ((((st.entries.map (fun e =>
        { e with senses := e.senses.filter (fun s => s.synset ≠ sid) })).filter
        (fun e => e.senses.isEmpty)).filter
        (fun r => r.lem.writtenForm = e.lem.writtenForm)).map Entry.id).contains e.id
        = true := List.elem_iff.mpr hin
    rw [hcon] at hpred
    simp at hpred

/-- C1: `remove_synset` on an identifier present in the synset index
removes that synset from the synsets sequence and the synset index
(leaving every other synset and index key), strips from every entry
every sense targeting it and removes exactly those senses from the sense
index, and prunes precisely the entries left with zero senses, removing
each pruned entry from the entries sequence, the entry index, and its
surface-form bucket (all other entries keep their index entries). -/
theorem c1_remove_synset_cascade (st : EditorState) (sid : String)
    (hwf : WF st) (h : sid ∈ st.synsetIdx) :
    (remove_synset st sid).1 = none ∧
    (∀ s : Synset, s ∈ (remove_synset st sid).2.synsets ↔
      (s ∈ st.synsets ∧ s.id ≠ sid)) ∧
    sid ∉ (remove_synset st sid).2.synsetIdx ∧
    (∀ i ∈ st.synsetIdx, i ≠ sid → i ∈ (remove_synset st sid).2.synsetIdx) ∧
    (∀ e1 : Entry, e1 ∈ (remove_synset st sid).2.entries ↔
      (∃ e ∈ st.entries,
        e1 = { e with senses := e.senses.filter (fun s => s.synset ≠ sid) } ∧
        e1.senses ≠ [])) ∧
    (∀ e ∈ st.entries, ∀ s ∈ e.senses, s.synset = sid →
      s.id ∉ (remove_synset st sid).2.senseIdx) ∧
    (∀ e ∈ st.entries, ∀ s ∈ e.senses, s.synset ≠ sid →
      s.id ∈ (remove_synset st sid).2.senseIdx) ∧
    (∀ e ∈ st.entries, e.senses.filter (fun s => s.synset ≠ sid) = [] →
      (∀ e1 ∈ (remove_synset st sid).2.entries, e1.id ≠ e.id) ∧
      e.id ∉ (remove_synset st sid).2.entryIdx ∧
      e.id ∉ lookupD (remove_synset st sid).2.lemmaIdx e.lem.writtenForm) ∧
    (∀ e ∈ st.entries, e.senses.filter (fun s => s.synset ≠ sid) ≠ [] →
      e.id ∈ (remove_synset st sid).2.entryIdx) := by
  have hprune := fun e he hs => remove_synset_prune st sid hwf h e he hs
  obtain ⟨⟨hndE, hndS, hndSe⟩, hndEI, hEmem, hEcov, hndSI, hSmem, hScov,
    hndSeI, hSeMem, hSeCov, hndL, hLval, hLcov⟩ := hwf
  have h1 : (remove_synset st sid).1 = none := remove_synset_present_none st sid h
  refine ⟨h1, ?_, ?_, ?_, ?_, ?_, ?_, hprune, ?_⟩
  · intro s
    rw [remove_synset_synsets_eq st sid h]
    simp [List.mem_filter]
  · rw [remove_synset_synsetIdx_eq st sid h]
    exact hndSI.not_mem_erase
  · intro i hi hne
    rw [remove_synset_synsetIdx_eq st sid h]
    exact (List.mem_erase_of_ne hne).mpr hi
  · intro e1
    rw [remove_synset_entries_eq st sid h]
    constructor
    · intro he1
      obtain ⟨he1m, he1ne⟩ := List.mem_filter.mp he1
      obtain ⟨e0, he0, he0eq⟩ := List.mem_map.mp he1m
      refine ⟨e0, he0, he0eq.symm, ?_⟩
      simpa [List.isEmpty_iff] using he1ne
    · rintro ⟨e0, he0, rfl, hne⟩
      refine List.mem_filter.mpr ⟨List.mem_map_of_mem _ he0, ?_⟩
      simpa [List.isEmpty_iff] using hne
  · intro e he s hs hsyn
    rw [remove_synset_senseIdx_eq st sid h]
    apply not_mem_foldl_erase _ _ _ hndSeI
    exact List.mem_flatMap.mpr
      ⟨e, he, List.mem_map_of_mem Sense.id
        (List.mem_filter.mpr ⟨hs, by simp [hsyn]⟩)⟩
  · intro e he s hs hsyn
    rw [remove_synset_senseIdx_eq st sid h]
    apply mem_foldl_erase
    · exact hSeCov s (List.mem_flatMap.mpr ⟨e, he, hs⟩)
    · intro hmem
      obtain ⟨e1, he1, hsm⟩ := List.mem_flatMap.mp hmem
      obtain ⟨s1, hs1, hs1id⟩ := List.mem_map.mp hsm
      obtain ⟨hs1m, hs1syn⟩ := List.mem_filter.mp hs1
      have hseq : s1 = s := by
        apply List.inj_on_of_nodup_map hndSe
        · exact List.mem_flatMap.mpr ⟨e1, he1, hs1m⟩
        · exact List.mem_flatMap.mpr ⟨e, he, hs⟩
        · exact hs1id
      apply hsyn
      rw [← hseq]
      simpa using hs1syn
  · intro e he hne
    rw [remove_synset_entryIdx_eq st sid h, foldl_erase_entries]
    apply mem_foldl_erase
    · exact hEcov e he
    · intro hmem
      obtain ⟨e1, he1, he1id⟩ := List.mem_map.mp hmem
      obtain ⟨he1m, he1e⟩ := List.mem_filter.mp he1
      obtain ⟨e0, he0, he0eq⟩ := List.mem_map.mp he1m
      have he0id : e0.id = e.id := by rw [← he1id, ← he0eq]
      have he0e : e0 = e := List.inj_on_of_nodup_map hndE he0 he he0id
      apply hne
      have hsen : e1.senses = e.senses.filter (fun s => s.synset ≠ sid) := by
        rw [← he0eq, he0e]
      rw [← hsen]
      simpa [List.isEmpty_iff] using he1e

/-- C1 instance: removing synset S1 from a two-entry document succeeds,
deletes S1 from the synset index, and pops the stripped sense s1 from
the sense index. -/
theorem c1_remove_synset_cascade_witness :
    (remove_synset
      { entries := [{ id := "e1", lem := { writtenForm := "dog", partOfSpeech := "n" },
                      senses := [{ id := "s1", synset := "S1" }] },
                    { id := "e2", lem := { writtenForm := "cat", partOfSpeech := "n" },
                      senses := [{ id := "s2", synset := "S1" },
                                 { id := "s3", synset := "S2" }] }],
        synsets := [{ id := "S1", partOfSpeech := "n" },
                    { id := "S2", partOfSpeech := "n" }],
        entryIdx := ["e1", "e2"], synsetIdx := ["S1", "S2"],
        senseIdx := ["s1", "s2", "s3"],
        lemmaIdx := [("dog", ["e1"]), ("cat", ["e2"])] } "S1").1 = none ∧
    "S1" ∉ (remove_synset
      { entries := [{ id := "e1", lem := { writtenForm := "dog", partOfSpeech := "n" },
                      senses := [{ id := "s1", synset := "S1" }] },
                    { id := "e2", lem := { writtenForm := "cat", partOfSpeech := "n" },
                      senses := [{ id := "s2", synset := "S1" },
                                 { id := "s3", synset := "S2" }] }],
        synsets := [{ id := "S1", partOfSpeech := "n" },
                    { id := "S2", partOfSpeech := "n" }],
        entryIdx := ["e1", "e2"], synsetIdx := ["S1", "S2"],
        senseIdx := ["s1", "s2", "s3"],
        lemmaIdx := [("dog", ["e1"]), ("cat", ["e2"])] } "S1").2.synsetIdx ∧
    "s1" ∉ (remove_synset
      { entries := [{ id := "e1", lem := { writtenForm := "dog", partOfSpeech := "n" },
                      senses := [{ id := "s1", synset := "S1" }] },
                    { id := "e2", lem := { writtenForm := "cat", partOfSpeech := "n" },
                      senses := [{ id := "s2", synset := "S1" },
                                 { id := "s3", synset := "S2" }] }],
        synsets := [{ id := "S1", partOfSpeech := "n" },
                    { id := "S2", partOfSpeech := "n" }],
        entryIdx := ["e1", "e2"], synsetIdx := ["S1", "S2"],
        senseIdx := ["s1", "s2", "s3"],
        lemmaIdx := [("dog", ["e1"]), ("cat", ["e2"])] } "S1").2.senseIdx := by
  obtain ⟨h1, h2, h3, h4, h5, h6, h7, h8, h9⟩ := c1_remove_synset_cascade
    { entries := [{ id := "e1", lem := { writtenForm := "dog", partOfSpeech := "n" },
                    senses := [{ id := "s1", synset := "S1" }] },
                  { id := "e2", lem := { writtenForm := "cat", partOfSpeech := "n" },
                    senses := [{ id := "s2", synset := "S1" },
                               { id := "s3", synset := "S2" }] }],
      synsets := [{ id := "S1", partOfSpeech := "n" },
                  { id := "S2", partOfSpeech := "n" }],
      entryIdx := ["e1", "e2"], synsetIdx := ["S1", "S2"],
      senseIdx := ["s1", "s2", "s3"],
      lemmaIdx := [("dog", ["e1"]), ("cat", ["e2"])] } "S1" (by decide) (by decide)
  refine ⟨h1, h3, ?_⟩
  exact h6 { id := "e1", lem := { writtenForm := "dog", partOfSpeech := "n" },
             senses := [{ id := "s1", synset := "S1" }] } (by decide)
    { id := "s1", synset := "S1" } (by decide) rfl

/-- C10: `remove_synset` also prunes entries that already had zero
senses before the call — an entry with an empty sense list is removed
from the entries sequence, the entry index, and its surface-form bucket
by the next `remove_synset` on any synset present in the index. -/
theorem c10_prunes_preexisting_empty_entries (st : EditorState) (sid : String)
    (hwf : WF st) (h : sid ∈ st.synsetIdx) (e : Entry) (he : e ∈ st.entries)
    (hempty : e.senses = []) :
    (∀ e1 ∈ (remove_synset st sid).2.entries, e1.id ≠ e.id) ∧
    e.id ∉ (remove_synset st sid).2.entryIdx ∧
    e.id ∉ lookupD (remove_synset st sid).2.lemmaIdx e.lem.writtenForm := by
  apply remove_synset_prune st sid hwf h e he
  rw [hempty]
  rfl

/-- C10 instance: an entry created with no senses (as by `create_entry`)
is pruned by removing an unrelated synset. -/
theorem c10_prunes_preexisting_empty_entries_witness :
    "e9" ∉ (remove_synset
      { entries := [{ id := "e1", lem := { writtenForm := "dog", partOfSpeech := "n" },
                      senses := [{ id := "s1", synset := "S1" }] },
                    { id := "e9", lem := { writtenForm := "empty", partOfSpeech := "n" },
                      senses := [] }],
        synsets := [{ id := "S1", partOfSpeech := "n" }],
        entryIdx := ["e1", "e9"], synsetIdx := ["S1"],
        senseIdx := ["s1"],
        lemmaIdx := [("dog", ["e1"]), ("empty", ["e9"])] } "S1").2.entryIdx := by
  exact (c10_prunes_preexisting_empty_entries
    { entries := [{ id := "e1", lem := { writtenForm := "dog", partOfSpeech := "n" },
                    senses := [{ id := "s1", synset := "S1" }] },
                  { id := "e9", lem := { writtenForm := "empty", partOfSpeech := "n" },
                    senses := [] }],
      synsets := [{ id := "S1", partOfSpeech := "n" }],
      entryIdx := ["e1", "e9"], synsetIdx := ["S1"],
      senseIdx := ["s1"],
      lemmaIdx := [("dog", ["e1"]), ("empty", ["e9"])] } "S1" (by decide) (by decide)
    { id := "e9", lem := { writtenForm := "empty", partOfSpeech := "n" }, senses := [] }
    (by decide) rfl).2.1

theorem add_synset_relation_absent (vocab : List String) (st : EditorState)
    (src tgt rty : String) (v : Bool) (h : src ∉ st.synsetIdx) :
    add_synset_relation vocab st src tgt rty v = (some (.notFound src), [], st) := by
  unfold add_synset_relation
  rw [if_pos (by simp [List.elem_iff, h])]

theorem add_synset_relation_present_none (vocab : List String) (st : EditorState)
    (src tgt rty : String) (v : Bool) (h : src ∈ st.synsetIdx) :
    (add_synset_relation vocab st src tgt rty v).1 = none := by
  unfold add_synset_relation
  rw [if_neg (by simp [List.elem_iff, h])]

theorem add_word_to_synset_absent (st : EditorState) (sid lem : String)
    (pos : Option String) (eid : String) (h : sid ∉ st.synsetIdx) :
    add_word_to_synset st sid lem pos eid = (some (.notFound sid), st) := by
  unfold add_word_to_synset
  rw [if_pos (by simp [List.elem_iff, h])]

theorem add_word_to_synset_present_cases (st : EditorState) (sid lem : String)
    (pos : Option String) (eid : String) (h : sid ∈ st.synsetIdx) :
    (add_word_to_synset st sid lem pos eid).1 = none ∨
    ((add_word_to_synset st sid lem pos eid).1
        = some (.invalidArgument "part of speech for lemma") ∧
     (add_word_to_synset st sid lem pos eid).2 = st) := by
  simp only [add_word_to_synset]
  rw [if_neg (by simp [List.elem_iff, h])]
  split
  · exact Or.inl rfl
  · split
    · rename_i err heq2
      simp only [create_entry] at heq2
      split at heq2
      · exact absurd heq2 (by simp)
      · cases heq2
        exact Or.inr ⟨rfl, rfl⟩
    · exact Or.inl rfl

theorem remove_entry_absent (st : EditorState) (eid : String)
    (h : eid ∉ st.entryIdx) :
    remove_entry st eid = (some (.notFound eid), st) := by
  unfold remove_entry
  rw [if_pos (by simp [List.elem_iff, h])]

theorem remove_entry_present_none (st : EditorState) (eid : String)
    (h : eid ∈ st.entryIdx) :
    (remove_entry st eid).1 = none := by
  unfold remove_entry
  rw [if_neg (by simp [List.elem_iff, h])]
  cases st.entries.find? (fun e => e.id = eid) <;> rfl

theorem add_sense_relation_absent (vocab : List String) (st : EditorState)
    (src tgt rty : String) (v : Bool) (h : src ∉ st.senseIdx) :
    add_sense_relation vocab st src tgt rty v = (some (.notFound src), [], st) := by
  unfold add_sense_relation
  rw [if_pos (by simp [List.elem_iff, h])]

theorem add_sense_relation_present_none (vocab : List String) (st : EditorState)
    (src tgt rty : String) (v : Bool) (h : src ∈ st.senseIdx) :
    (add_sense_relation vocab st src tgt rty v).1 = none := by
  unfold add_sense_relation
  rw [if_neg (by simp [List.elem_iff, h])]

/-! ### `add_word_to_synset` machinery -/

theorem resolvePos_congr (st1 st2 : EditorState) (h : st1.synsets = st2.synsets)
    (sid : String) (pos : Option String) :
    resolvePos st1 sid pos = resolvePos st2 sid pos := by
  unfold resolvePos
  rw [h]

theorem find?_id_map (l : List Entry) (g : Entry → Entry)
    (hg : ∀ e, (g e).id = e.id) (i : String) :
    (l.map g).find? (fun e => e.id = i) = (l.find? (fun e => e.id = i)).map g := by
  induction l with
  | nil => rfl
  | cons a l ih =>
    rw [List.map_cons, List.find?_cons, List.find?_cons]
    by_cases ha : a.id = i
    · simp [hg, ha]
    · simp [hg, ha, ih]

theorem find_entries_map_entries (st : EditorState) (g : Entry → Entry)
    (hgid : ∀ e, (g e).id = e.id) (hglem : ∀ e, (g e).lem = e.lem)
    (lem : String) (pos : Option String) :
    find_entries { st with entries := st.entries.map g } lem pos
      = (find_entries st lem pos).map g := by
  have hres : (lookupD st.lemmaIdx lem).filterMap
      (fun i => (st.entries.map g).find? (fun e => e.id = i))
      = ((lookupD st.lemmaIdx lem).filterMap
          (fun i => st.entries.find? (fun e => e.id = i))).map g := by
    rw [List.map_filterMap]
    apply List.filterMap_congr
    intro i _
    exact find?_id_map st.entries g hgid i
  cases pos with
  | none => exact hres
  | some p =>
    show ((lookupD st.lemmaIdx lem).filterMap
        (fun i => (st.entries.map g).find? (fun e => e.id = i))).filter
        (fun e => e.lem.partOfSpeech = p)
      = (((lookupD st.lemmaIdx lem).filterMap
          (fun i => st.entries.find? (fun e => e.id = i))).filter
          (fun e => e.lem.partOfSpeech = p)).map g
    rw [hres, List.filter_map]
    congr 1
    apply List.filter_congr
    intro e _
    simp [Function.comp, hglem]

theorem addSenseIfMissing_of_has (st : EditorState) (e : Entry) (sid : String)
    (h : e.senses.any (fun s => s.synset = sid) = true) :
    addSenseIfMissing st e sid = st := by
  unfold addSenseIfMissing
  rw [if_pos h]

theorem addSenseIfMissing_of_not_has (st : EditorState) (e : Entry) (sid : String)
    (h : e.senses.any (fun s => s.synset = sid) = false) :
    addSenseIfMissing st e sid =
      { st with
        entries := st.entries.map (fun e1 => if e1.id = e.id then
            { e1 with senses :=
                e1.senses ++ [make_sense (e.id ++ "-" ++ sid) sid] } else e1),
        senseIdx := keyInsert st.senseIdx (e.id ++ "-" ++ sid) } := by
  unfold addSenseIfMissing
  rw [if_neg (by simp [h])]
  rfl

theorem add_word_to_synset_found (st : EditorState) (sid lem : String)
    (pos : Option String) (eid : String) (h : sid ∈ st.synsetIdx) (e : Entry)
    (hf : (find_entries st lem (some (resolvePos st sid pos))).head? = some e) :
    add_word_to_synset st sid lem pos eid = (none, addSenseIfMissing st e sid) := by
  unfold add_word_to_synset
  rw [if_neg (by simp [List.elem_iff, h]), hf]

theorem add_word_to_synset_notfound (st : EditorState) (sid lem : String)
    (pos : Option String) (eid : String) (h : sid ∈ st.synsetIdx)
    (hf : (find_entries st lem (some (resolvePos st sid pos))).head? = none) :
    add_word_to_synset st sid lem pos eid
      = match create_entry st lem (resolvePos st sid pos) eid with
        | .error err => (some err, st)
        | .ok (st1, e) => (none, addSenseIfMissing st1 e sid) := by
  unfold add_word_to_synset
  rw [if_neg (by simp [List.elem_iff, h]), hf]

theorem create_entry_ok (st : EditorState) (lem pos eid : String)
    (hp : pos ∈ PARTS_OF_SPEECH) :
    create_entry st lem pos eid = .ok
      ({ st with
          entries := st.entries ++
            [{ id := eid, lem := { writtenForm := lem, partOfSpeech := pos },
               senses := [] }],
          entryIdx := keyInsert st.entryIdx eid,
          lemmaIdx := lemmaAppend st.lemmaIdx lem eid },
       { id := eid, lem := { writtenForm := lem, partOfSpeech := pos },
         senses := [] }) := by
  unfold create_entry
  rw [if_pos hp]

theorem find_entries_congr (st1 st2 : EditorState)
    (he : st1.entries = st2.entries) (hl : st1.lemmaIdx = st2.lemmaIdx)
    (lem : String) (pos : Option String) :
    find_entries st1 lem pos = find_entries st2 lem pos := by
  unfold find_entries
  rw [he, hl]

theorem add_word_to_synset_create (st : EditorState) (sid lem : String)
    (pos : Option String) (eid : String) (h : sid ∈ st.synsetIdx)
    (hf : (find_entries st lem (some (resolvePos st sid pos))).head? = none)
    (hp : resolvePos st sid pos ∈ PARTS_OF_SPEECH) :
    add_word_to_synset st sid lem pos eid =
      (none, addSenseIfMissing
        { st with
            entries := st.entries ++
              [{ id := eid,
                 lem := { writtenForm := lem,
                          partOfSpeech := resolvePos st sid pos },
                 senses := [] }],
            entryIdx := keyInsert st.entryIdx eid,
            lemmaIdx := lemmaAppend st.lemmaIdx lem eid }
        { id := eid,
          lem := { writtenForm := lem, partOfSpeech := resolvePos st sid pos },
          senses := [] } sid) := by
  unfold add_word_to_synset
  rw [if_neg (by simp [List.elem_iff, h]), hf, create_entry_ok st lem _ eid hp]

theorem add_word_to_synset_create_invalid (st : EditorState) (sid lem : String)
    (pos : Option String) (eid : String) (h : sid ∈ st.synsetIdx)
    (hf : (find_entries st lem (some (resolvePos st sid pos))).head? = none)
    (hp : resolvePos st sid pos ∉ PARTS_OF_SPEECH) :
    add_word_to_synset st sid lem pos eid
      = (some (.invalidArgument "part of speech for lemma"), st) := by
  unfold add_word_to_synset
  have hc : create_entry st lem (resolvePos st sid pos) eid
      = .error (.invalidArgument "part of speech for lemma") := by
    unfold create_entry
    rw [if_neg hp]
  rw [if_neg (by simp [List.elem_iff, h]), hf, hc]

theorem WF_lookupD (st : EditorState) (hwf : WF st) (f : String) :
    lookupD st.lemmaIdx f
      = (st.entries.filter (fun e => e.lem.writtenForm = f)).map Entry.id := by
  obtain ⟨-, -, -, -, -, -, -, -, -, -, -, hLval, hLcov⟩ := hwf
  cases hfind : st.lemmaIdx.find? (fun p => p.1 = f) with
  | some p =>
    have hmem : p ∈ st.lemmaIdx := List.mem_of_find?_eq_some hfind
    have hkey : p.1 = f := by simpa using List.find?_some hfind
    have : lookupD st.lemmaIdx f = p.2 := by
      unfold lookupD
      rw [hfind]
    rw [this, hLval p hmem, hkey]
  | none =>
    have : lookupD st.lemmaIdx f = [] := by
      unfold lookupD
      rw [hfind]
    rw [this]
    have hnone : ∀ e ∈ st.entries, ¬ (e.lem.writtenForm = f) := by
      intro e he heq
      obtain ⟨p, hp, hpf⟩ := List.mem_map.mp (heq ▸ hLcov e he)
      have : (st.lemmaIdx.find? (fun p => p.1 = f)).isSome :=
        List.find?_isSome.mpr ⟨p, hp, by simp [hpf]⟩
      rw [hfind] at this
      cases this
    rw [List.filter_eq_nil_iff.mpr (by intro a ha; simpa using hnone a ha)]
    rfl

theorem addSenseIfMissing_fresh (st1 : EditorState) (eid lm p sid : String) :
    addSenseIfMissing st1
      { id := eid, lem := { writtenForm := lm, partOfSpeech := p }, senses := [] }
      sid
    = { st1 with
        entries := st1.entries.map (fun e1 => if e1.id = eid then
          { e1 with senses :=
              e1.senses ++ [make_sense (eid ++ "-" ++ sid) sid] } else e1),
        senseIdx := keyInsert st1.senseIdx (eid ++ "-" ++ sid) } := by
  unfold addSenseIfMissing
  rw [if_neg (by simp)]
  rfl

/-- The sense-creation step on a freshly created entry: the new entry is
the only one touched, and it ends up carrying exactly the one new
sense. -/
theorem addSense_on_fresh_entry (st : EditorState) (sid lem p eid : String)
    (heid : eid ∉ st.entries.map Entry.id) :
    addSenseIfMissing
      { st with
          entries := st.entries ++
            [{ id := eid, lem := { writtenForm := lem, partOfSpeech := p },
               senses := [] }],
          entryIdx := keyInsert st.entryIdx eid,
          lemmaIdx := lemmaAppend st.lemmaIdx lem eid }
      { id := eid, lem := { writtenForm := lem, partOfSpeech := p },
        senses := [] } sid
    = { st with
          entries := st.entries ++
            [{ id := eid, lem := { writtenForm := lem, partOfSpeech := p },
               senses := [make_sense (eid ++ "-" ++ sid) sid] }],
          entryIdx := keyInsert st.entryIdx eid,
          senseIdx := keyInsert st.senseIdx (eid ++ "-" ++ sid),
          lemmaIdx := lemmaAppend st.lemmaIdx lem eid } := by
  rw [addSenseIfMissing_fresh]
  congr 1
  rw [List.map_append]
  have h1 : ∀ a ∈ st.entries,
      (fun e1 : Entry => if e1.id = eid then
        { e1 with senses :=
            e1.senses ++ [make_sense (eid ++ "-" ++ sid) sid] } else e1) a
      = (fun a : Entry => a) a := by
    intro a ha
    have : ¬ a.id = eid := fun hh => heid (List.mem_map.mpr ⟨a, ha, hh⟩)
    simp [this]
  rw [List.map_congr_left h1, List.map_id']
  simp

/-- Second call after a sense was appended to the found entry: the entry
is found again (it kept its position and surface form) and now carries a
sense for the synset, so the call changes nothing. -/
theorem add_word_after_addSense (st : EditorState) (e : Entry)
    (sid lem : String) (pos : Option String) (eid : String)
    (hs : sid ∈ st.synsetIdx)
    (hf : (find_entries st lem (some (resolvePos st sid pos))).head? = some e) :
    add_word_to_synset
      { st with
          entries := st.entries.map (fun e1 => if e1.id = e.id then
            { e1 with senses :=
                e1.senses ++ [make_sense (e.id ++ "-" ++ sid) sid] } else e1),
          senseIdx := keyInsert st.senseIdx (e.id ++ "-" ++ sid) }
      sid lem pos eid
    = (none,
      { st with
          entries := st.entries.map (fun e1 => if e1.id = e.id then
            { e1 with senses :=
                e1.senses ++ [make_sense (e.id ++ "-" ++ sid) sid] } else e1),
          senseIdx := keyInsert st.senseIdx (e.id ++ "-" ++ sid) }) := by
  have hgid : ∀ e1 : Entry, ((fun e1 : Entry => if e1.id = e.id then
      { e1 with senses :=
          e1.senses ++ [make_sense (e.id ++ "-" ++ sid) sid] } else e1) e1).id
      = e1.id := by
    intro e1
    by_cases h1 : e1.id = e.id <;> simp [h1]
  have hglem : ∀ e1 : Entry, ((fun e1 : Entry => if e1.id = e.id then
      { e1 with senses :=
          e1.senses ++ [make_sense (e.id ++ "-" ++ sid) sid] } else e1) e1).lem
      = e1.lem := by
    intro e1
    by_cases h1 : e1.id = e.id <;> simp [h1]
  have hres : resolvePos
      { st with
          entries := st.entries.map (fun e1 => if e1.id = e.id then
            { e1 with senses :=
                e1.senses ++ [make_sense (e.id ++ "-" ++ sid) sid] } else e1),
          senseIdx := keyInsert st.senseIdx (e.id ++ "-" ++ sid) } sid pos
      = resolvePos st sid pos := resolvePos_congr _ _ rfl sid pos
  have hfind : find_entries
      { st with
          entries := st.entries.map (fun e1 => if e1.id = e.id then
            { e1 with senses :=
                e1.senses ++ [make_sense (e.id ++ "-" ++ sid) sid] } else e1),
          senseIdx := keyInsert st.senseIdx (e.id ++ "-" ++ sid) }
      lem (some (resolvePos st sid pos))
      = (find_entries st lem (some (resolvePos st sid pos))).map
          (fun e1 => if e1.id = e.id then
            { e1 with senses :=
                e1.senses ++ [make_sense (e.id ++ "-" ++ sid) sid] } else e1) := by
    have h1 := find_entries_congr
      { st with
          entries := st.entries.map (fun e1 => if e1.id = e.id then
            { e1 with senses :=
                e1.senses ++ [make_sense (e.id ++ "-" ++ sid) sid] } else e1),
          senseIdx := keyInsert st.senseIdx (e.id ++ "-" ++ sid) }
      { st with
          entries := st.entries.map (fun e1 => if e1.id = e.id then
            { e1 with senses :=
                e1.senses ++ [make_sense (e.id ++ "-" ++ sid) sid] } else e1) }
      rfl rfl lem (some (resolvePos st sid pos))
    rw [h1]
    exact find_entries_map_entries st _ hgid hglem lem _
  have hhead : (find_entries
      { st with
          entries := st.entries.map (fun e1 => if e1.id = e.id then
            { e1 with senses :=
                e1.senses ++ [make_sense (e.id ++ "-" ++ sid) sid] } else e1),
          senseIdx := keyInsert st.senseIdx (e.id ++ "-" ++ sid) }
      lem (some (resolvePos
        { st with
            entries := st.entries.map (fun e1 => if e1.id = e.id then
              { e1 with senses :=
                  e1.senses ++ [make_sense (e.id ++ "-" ++ sid) sid] } else e1),
            senseIdx := keyInsert st.senseIdx (e.id ++ "-" ++ sid) } sid pos))).head?
      = some ({ e with senses :=
          e.senses ++ [make_sense (e.id ++ "-" ++ sid) sid] }) := by
    rw [hres, hfind, List.head?_map, hf]
    simp
  rw [add_word_to_synset_found
      { st with
          entries := st.entries.map (fun e1 => if e1.id = e.id then
            { e1 with senses :=
                e1.senses ++ [make_sense (e.id ++ "-" ++ sid) sid] } else e1),
          senseIdx := keyInsert st.senseIdx (e.id ++ "-" ++ sid) }
      sid lem pos eid hs _ hhead,
      addSenseIfMissing_of_has]
  simp [make_sense]

/-- Second call after the first created the entry: the new entry is
found via its fresh surface-form bucket entry, and it already carries
the sense for the synset, so the call changes nothing. -/
theorem add_word_after_create (st : EditorState) (sid lem : String)
    (pos : Option String) (eid : String) (hwf : WF st)
    (hs : sid ∈ st.synsetIdx)
    (hf : (find_entries st lem (some (resolvePos st sid pos))).head? = none)
    (heid : eid ∉ st.entries.map Entry.id) :
    add_word_to_synset
      { st with
          entries := st.entries ++
            [{ id := eid,
               lem := { writtenForm := lem, partOfSpeech := resolvePos st sid pos },
               senses := [make_sense (eid ++ "-" ++ sid) sid] }],
          entryIdx := keyInsert st.entryIdx eid,
          senseIdx := keyInsert st.senseIdx (eid ++ "-" ++ sid),
          lemmaIdx := lemmaAppend st.lemmaIdx lem eid }
      sid lem pos eid
    = (none,
      { st with
          entries := st.entries ++
            [{ id := eid,
               lem := { writtenForm := lem, partOfSpeech := resolvePos st sid pos },
               senses := [make_sense (eid ++ "-" ++ sid) sid] }],
          entryIdx := keyInsert st.entryIdx eid,
          senseIdx := keyInsert st.senseIdx (eid ++ "-" ++ sid),
          lemmaIdx := lemmaAppend st.lemmaIdx lem eid }) := by
  have hres : resolvePos
      { st with
          entries := st.entries ++
            [{ id := eid,
               lem := { writtenForm := lem, partOfSpeech := resolvePos st sid pos },
               senses := [make_sense (eid ++ "-" ++ sid) sid] }],
          entryIdx := keyInsert st.entryIdx eid,
          senseIdx := keyInsert st.senseIdx (eid ++ "-" ++ sid),
          lemmaIdx := lemmaAppend st.lemmaIdx lem eid } sid pos
      = resolvePos st sid pos := resolvePos_congr _ _ rfl sid pos
  have hemptyfind : ((lookupD st.lemmaIdx lem).filterMap
        (fun i => st.entries.find? (fun e => e.id = i))).filter
        (fun e => e.lem.partOfSpeech = resolvePos st sid pos) = [] := by
    exact List.head?_eq_none_iff.mp hf
  have hfind : find_entries
      { st with
          entries := st.entries ++
            [{ id := eid,
               lem := { writtenForm := lem, partOfSpeech := resolvePos st sid pos },
               senses := [make_sense (eid ++ "-" ++ sid) sid] }],
          entryIdx := keyInsert st.entryIdx eid,
          senseIdx := keyInsert st.senseIdx (eid ++ "-" ++ sid),
          lemmaIdx := lemmaAppend st.lemmaIdx lem eid }
      lem (some (resolvePos st sid pos))
      = [{ id := eid,
           lem := { writtenForm := lem, partOfSpeech := resolvePos st sid pos },
           senses := [make_sense (eid ++ "-" ++ sid) sid] }] := by
    show ((lookupD (lemmaAppend st.lemmaIdx lem eid) lem).filterMap
        (fun i => (st.entries ++
          [({ id := eid,
              lem := { writtenForm := lem, partOfSpeech := resolvePos st sid pos },
              senses := [make_sense (eid ++ "-" ++ sid) sid] } : Entry)]).find?
          (fun e => e.id = i))).filter
        (fun e => e.lem.partOfSpeech = resolvePos st sid pos)
      = [{ id := eid,
           lem := { writtenForm := lem, partOfSpeech := resolvePos st sid pos },
           senses := [make_sense (eid ++ "-" ++ sid) sid] }]
    rw [lookupD_lemmaAppend_self, List.filterMap_append]
    have hold : (lookupD st.lemmaIdx lem).filterMap
        (fun i => (st.entries ++
          [({ id := eid,
              lem := { writtenForm := lem, partOfSpeech := resolvePos st sid pos },
              senses := [make_sense (eid ++ "-" ++ sid) sid] } : Entry)]).find?
          (fun e => e.id = i))
        = (lookupD st.lemmaIdx lem).filterMap
            (fun i => st.entries.find? (fun e => e.id = i)) := by
      apply List.filterMap_congr
      intro i hi
      rw [List.find?_append]
      have : ∃ e0 ∈ st.entries, e0.id = i := by
        rw [WF_lookupD st hwf lem] at hi
        obtain ⟨e0, he0, he0i⟩ := List.mem_map.mp hi
        exact ⟨e0, (List.mem_filter.mp he0).1, he0i⟩
      obtain ⟨e0, he0, he0i⟩ := this
      have : (st.entries.find? (fun e => e.id = i)).isSome :=
        List.find?_isSome.mpr ⟨e0, he0, by simp [he0i]⟩
      cases hfe : st.entries.find? (fun e => e.id = i) with
      | some x => rfl
      | none => rw [hfe] at this; cases this
    have hnew : ([eid].filterMap
        (fun i => (st.entries ++
          [({ id := eid,
              lem := { writtenForm := lem, partOfSpeech := resolvePos st sid pos },
              senses := [make_sense (eid ++ "-" ++ sid) sid] } : Entry)]).find?
          (fun e => e.id = i)))
        = [{ id := eid,
             lem := { writtenForm := lem, partOfSpeech := resolvePos st sid pos },
             senses := [make_sense (eid ++ "-" ++ sid) sid] }] := by
      have hfe : st.entries.find? (fun e => e.id = eid) = none := by
        rw [List.find?_eq_none]
        intro e0 he0
        simp only [decide_eq_true_eq]
        intro he0e
        exact heid (List.mem_map.mpr ⟨e0, he0, he0e⟩)
      simp [List.find?_append, hfe, List.find?_cons]
    rw [hold, hnew, List.filter_append, hemptyfind]
    simp
  have hhead : (find_entries
      { st with
          entries := st.entries ++
            [{ id := eid,
               lem := { writtenForm := lem, partOfSpeech := resolvePos st sid pos },
               senses := [make_sense (eid ++ "-" ++ sid) sid] }],
          entryIdx := keyInsert st.entryIdx eid,
          senseIdx := keyInsert st.senseIdx (eid ++ "-" ++ sid),
          lemmaIdx := lemmaAppend st.lemmaIdx lem eid }
      lem (some (resolvePos
        { st with
            entries := st.entries ++
              [{ id := eid,
                 lem := { writtenForm := lem, partOfSpeech := resolvePos st sid pos },
                 senses := [make_sense (eid ++ "-" ++ sid) sid] }],
            entryIdx := keyInsert st.entryIdx eid,
            senseIdx := keyInsert st.senseIdx (eid ++ "-" ++ sid),
            lemmaIdx := lemmaAppend st.lemmaIdx lem eid } sid pos))).head?
      = some { id := eid,
               lem := { writtenForm := lem, partOfSpeech := resolvePos st sid pos },
               senses := [make_sense (eid ++ "-" ++ sid) sid] } := by
    rw [hres, hfind]
    rfl
  rw [add_word_to_synset_found
      { st with
          entries := st.entries ++
            [{ id := eid,
               lem := { writtenForm := lem, partOfSpeech := resolvePos st sid pos },
               senses := [make_sense (eid ++ "-" ++ sid) sid] }],
          entryIdx := keyInsert st.entryIdx eid,
          senseIdx := keyInsert st.senseIdx (eid ++ "-" ++ sid),
          lemmaIdx := lemmaAppend st.lemmaIdx lem eid }
      sid lem pos eid hs _ hhead,
      addSenseIfMissing_of_has]
  simp [make_sense]

/-- C6: each fallible Edit Engine operation raises not-found exactly when
the identifier it looks up is absent from its index (for
`add_word_to_synset` the only other possible error is the part-of-speech
validation error, which is not a not-found error), and whenever an
operation raises, the state it leaves behind — document and all four
indexes — is exactly the state it was called in. -/
theorem c6_not_found_atomicity (st : EditorState) (vocab : List String)
    (sid eid senseId targetId relType lem : String)
    (definition : Option String) (addDefinitions addExamples : List String)
    (ili : Option String) (pos : Option String) (newEntryId : String)
    (validate : Bool) :
    (((modify_synset st sid definition addDefinitions addExamples ili).1 ≠ none
        ↔ sid ∉ st.synsetIdx) ∧
     (sid ∉ st.synsetIdx →
        modify_synset st sid definition addDefinitions addExamples ili
          = (some (.notFound sid), st))) ∧
    (((remove_synset st sid).1 ≠ none ↔ sid ∉ st.synsetIdx) ∧
     (sid ∉ st.synsetIdx → remove_synset st sid = (some (.notFound sid), st))) ∧
    (((add_synset_relation vocab st sid targetId relType validate).1 ≠ none
        ↔ sid ∉ st.synsetIdx) ∧
     (sid ∉ st.synsetIdx →
        add_synset_relation vocab st sid targetId relType validate
          = (some (.notFound sid), [], st))) ∧
    (((∃ i, (add_word_to_synset st sid lem pos newEntryId).1
        = some (.notFound i)) ↔ sid ∉ st.synsetIdx) ∧
     ((add_word_to_synset st sid lem pos newEntryId).1 ≠ none →
        (add_word_to_synset st sid lem pos newEntryId).2 = st)) ∧
    (((remove_entry st eid).1 ≠ none ↔ eid ∉ st.entryIdx) ∧
     (eid ∉ st.entryIdx → remove_entry st eid = (some (.notFound eid), st))) ∧
    (((add_sense_relation vocab st senseId targetId relType validate).1 ≠ none
        ↔ senseId ∉ st.senseIdx) ∧
     (senseId ∉ st.senseIdx →
        add_sense_relation vocab st senseId targetId relType validate
          = (some (.notFound senseId), [], st))) := by
  refine ⟨⟨?_, ?_⟩, ⟨?_, ?_⟩, ⟨?_, ?_⟩, ⟨?_, ?_⟩, ⟨?_, ?_⟩, ⟨?_, ?_⟩⟩
  · by_cases h : sid ∈ st.synsetIdx
    · simp [modify_synset_present_none st sid definition addDefinitions addExamples ili h, h]
    · simp [modify_synset_absent st sid definition addDefinitions addExamples ili h, h]
  · intro h
    exact modify_synset_absent st sid definition addDefinitions addExamples ili h
  · by_cases h : sid ∈ st.synsetIdx
    · simp [remove_synset_present_none st sid h, h]
    · simp [remove_synset_absent st sid h, h]
  · intro h
    exact remove_synset_absent st sid h
  · by_cases h : sid ∈ st.synsetIdx
    · simp [add_synset_relation_present_none vocab st sid targetId relType validate h, h]
    · simp [add_synset_relation_absent vocab st sid targetId relType validate h, h]
  · intro h
    exact add_synset_relation_absent vocab st sid targetId relType validate h
  · by_cases h : sid ∈ st.synsetIdx
    · rcases add_word_to_synset_present_cases st sid lem pos newEntryId h with hc | hc
      · simp [hc, h]
      · simp [hc.1, h]
    · simp [add_word_to_synset_absent st sid lem pos newEntryId h, h]
  · by_cases h : sid ∈ st.synsetIdx
    · rcases add_word_to_synset_present_cases st sid lem pos newEntryId h with hc | hc
      · simp [hc]
      · simp [hc.1, hc.2]
    · simp [add_word_to_synset_absent st sid lem pos newEntryId h]
  · by_cases h : eid ∈ st.entryIdx
    · simp [remove_entry_present_none st eid h, h]
    · simp [remove_entry_absent st eid h, h]
  · intro h
    exact remove_entry_absent st eid h
  · by_cases h : senseId ∈ st.senseIdx
    · simp [add_sense_relation_present_none vocab st senseId targetId relType validate h, h]
    · simp [add_sense_relation_absent vocab st senseId targetId relType validate h, h]
  · intro h
    exact add_sense_relation_absent vocab st senseId targetId relType validate h

/-- C6 instance: calling `remove_synset` and `modify_synset` with an
identifier absent from the synset index raises not-found and leaves the
state unchanged. -/
theorem c6_not_found_atomicity_witness :
    remove_synset
      { entries := [], synsets := [{ id := "s1", partOfSpeech := "n" }],
        entryIdx := [], synsetIdx := ["s1"], senseIdx := [], lemmaIdx := [] }
      "nope"
    = (some (.notFound "nope"),
       { entries := [], synsets := [{ id := "s1", partOfSpeech := "n" }],
         entryIdx := [], synsetIdx := ["s1"], senseIdx := [], lemmaIdx := [] }) ∧
    modify_synset
      { entries := [], synsets := [{ id := "s1", partOfSpeech := "n" }],
        entryIdx := [], synsetIdx := ["s1"], senseIdx := [], lemmaIdx := [] }
      "nope" (some "d") [] [] none
    = (some (.notFound "nope"),
       { entries := [], synsets := [{ id := "s1", partOfSpeech := "n" }],
         entryIdx := [], synsetIdx := ["s1"], senseIdx := [], lemmaIdx := [] }) := by
  have h := c6_not_found_atomicity
    { entries := [], synsets := [{ id := "s1", partOfSpeech := "n" }],
      entryIdx := [], synsetIdx := ["s1"], senseIdx := [], lemmaIdx := [] }
    [] "nope" "e" "x" "t" "r" "dog" (some "d") [] [] none none "n1" true
  exact ⟨h.2.1.2 (by decide), h.1.2 (by decide)⟩

/-- Positional characterization of the sense-assembly loop: the element
at 0-based position `k` is the raw sense at `k`, with display number
computed at counter value `i + k`. -/
theorem assembleSenseList_getElem (index : Option String) :
    ∀ (raws : List RawSense) (i k : Nat) (raw : RawSense),
      raws[k]? = some raw →
      (assembleSenseList index i raws)[k]? =
        some { id := raw.id, synset := raw.synset,
               n := senseN raw.entryRank index (i + k) }
  | [], _, _, _, h => by simp at h
  | r :: rest, i, 0, raw, h => by
      simp only [List.getElem?_cons_zero, Option.some.injEq] at h
      subst h
      simp [assembleSenseList]
  | r :: rest, i, k + 1, raw, h => by
      simp only [List.getElem?_cons_succ] at h
      have ih := assembleSenseList_getElem index rest (i + 1) k raw h
      simp only [assembleSenseList, List.getElem?_cons_succ]
      rw [ih]
      have : i + 1 + k = i + (k + 1) := by omega
      rw [this]

/-- C3 is false of the code: with an index marker present and the stored
rank equal to the 1-based position (rank 1 at position 1), the claim
demands a zero display number, but the assembly emits the rank (1),
because the code takes the branch when the marker is present OR the rank
differs from the position. -/
theorem c3_counterexample :
    ¬ ((assembleSenseList (some "dog") 1
        [{ id := "s1", synset := "y1", entryRank := some 1 }]).map SenseDict.n
        = [0]) ∧
    (assembleSenseList (some "dog") 1
        [{ id := "s1", synset := "y1", entryRank := some 1 }]).map SenseDict.n
        = [1] := by
  constructor
  · intro h
    simp [assembleSenseList, senseN] at h
  · simp [assembleSenseList, senseN]

/-- C3, amended: in the bulk-load assembly, a sense's display-order
number is zero unless a rank is stored and EITHER the entry has an index
marker OR the rank differs from the 1-based position, in which case the
number equals the rank. -/
theorem c3_sense_display_number (index : Option String) (raws : List RawSense)
    (k : Nat) (raw : RawSense) (h : raws[k]? = some raw) :
    ∃ sd : SenseDict, (assembleSenseList index 1 raws)[k]? = some sd ∧
      sd.id = raw.id ∧ sd.synset = raw.synset ∧
      sd.n = (match raw.entryRank with
              | none => 0
              | some r => if index ≠ none ∨ r ≠ k + 1 then r else 0) := by
  refine ⟨_, assembleSenseList_getElem index raws 1 k raw h, rfl, rfl, ?_⟩
  show senseN raw.entryRank index (1 + k) = _
  cases hr : raw.entryRank with
  | none => simp [senseN]
  | some r =>
    simp only [senseN]
    rw [Nat.add_comm 1 k]
    by_cases hi : index = none
    · subst hi
      by_cases hrk : r = k + 1
      · subst hrk; simp
      · simp [hrk, bne_iff_ne, Ne, hrk]
    · have hs : index.isSome = true := Option.isSome_iff_ne_none.mpr hi
      simp [hs, hi]

/-- C3 amended-claim instance: with no index marker and stored rank 5 at
position 1, the display number equals the rank. -/
theorem c3_sense_display_number_witness :
    ∃ sd : SenseDict,
      (assembleSenseList none 1
        [{ id := "s1", synset := "y1", entryRank := some 5 }])[0]? = some sd ∧
      sd.n = 5 := by
  obtain ⟨sd, h1, -, -, h4⟩ :=
    c3_sense_display_number none
      [{ id := "s1", synset := "y1", entryRank := some 5 }] 0
      { id := "s1", synset := "y1", entryRank := some 5 } rfl
  refine ⟨sd, h1, ?_⟩
  rw [h4]
  decide

/-- C9: in the bulk-load assembly, a synset carrying a proposed
interlingual-index definition whose confirmed identifier is empty gets
the reserved placeholder `"in"` (a non-empty string); a synset whose
confirmed identifier is non-empty keeps it unchanged. -/
theorem c9_proposed_ili_placeholder (proposedIlis : String → Option String)
    (synsetDefs : String → List Defn) (synsetRels : String → List Rel)
    (synsetExamples : String → List Example) (unlexSynsets : String → Bool)
    (synsetMembers : String → List String) (row : RawSynsetRow) :
    ((proposedIlis row.id).isSome = true → row.ili = "" →
      (assembleSynset proposedIlis synsetDefs synsetRels synsetExamples
          unlexSynsets synsetMembers row).ili = "in" ∧
      (assembleSynset proposedIlis synsetDefs synsetRels synsetExamples
          unlexSynsets synsetMembers row).ili ≠ "") ∧
    (row.ili ≠ "" →
      (assembleSynset proposedIlis synsetDefs synsetRels synsetExamples
          unlexSynsets synsetMembers row).ili = row.ili) := by
  unfold assembleSynset
  constructor
  · intro hp hi
    have hb : ((proposedIlis row.id).isSome && (row.ili == "")) = true := by
      simp [hp, hi]
    simp only [hb, if_true]
    exact ⟨by trivial, by decide⟩
  · intro hi
    have hb : (row.ili == "") = false := beq_eq_false_iff_ne.mpr hi
    simp [hb]

/-- C9 instance: a synset with a proposed interlingual-index definition
and an empty confirmed identifier is assembled with `ili = "in"`. -/
theorem c9_proposed_ili_placeholder_witness :
    (assembleSynset (fun i => if i = "x1" then some "a proposed def" else none)
        (fun _ => []) (fun _ => []) (fun _ => []) (fun _ => false) (fun _ => [])
        { id := "x1", pos := "n", ili := "", lexfile := "" }).ili = "in" := by
  exact ((c9_proposed_ili_placeholder
    (fun i => if i = "x1" then some "a proposed def" else none)
    (fun _ => []) (fun _ => []) (fun _ => []) (fun _ => false) (fun _ => [])
    { id := "x1", pos := "n", ili := "", lexfile := "" }).1 (by simp) rfl).1

/-- C8: `add_synset_relation` with the advisory-validate flag set never
rejects the write: it succeeds, appends exactly the relation
(target, type) to the source synset, leaves every other synset
untouched, and emits a (non-fatal) warning exactly when the relation
type is outside the closed synset-relation vocabulary. -/
theorem c8_advisory_validation (vocab : List String) (st : EditorState)
    (sourceId targetId relType : String)
    (hsrc : st.synsetIdx.contains sourceId = true) :
    (add_synset_relation vocab st sourceId targetId relType true).1 = none ∧
    (∀ s ∈ st.synsets, s.id = sourceId →
      { s with relations :=
          s.relations ++ [{ target := targetId, relType := relType }] }
        ∈ (add_synset_relation vocab st sourceId targetId relType true).2.2.synsets) ∧
    (∀ s ∈ (add_synset_relation vocab st sourceId targetId relType true).2.2.synsets,
      s.id ≠ sourceId → s ∈ st.synsets) ∧
    ((add_synset_relation vocab st sourceId targetId relType true).2.1 ≠ []
      ↔ relType ∉ vocab) := by
  unfold add_synset_relation
  rw [if_neg (by rw [hsrc] ; simp : ¬ (!(st.synsetIdx.contains sourceId)) = true)]
  refine ⟨rfl, ?_, ?_, ?_⟩
  · intro s hs hid
    simp only [updateSynset, make_relation]
    exact List.mem_map.mpr ⟨s, hs, by simp [hid]⟩
  · intro s hs hid
    simp only [updateSynset, make_relation] at hs
    obtain ⟨s0, hs0, heq⟩ := List.mem_map.mp hs
    by_cases h0 : s0.id = sourceId
    · exfalso
      apply hid
      rw [← heq]
      simp [h0]
    · rw [if_neg h0] at heq
      exact heq ▸ hs0
  · simp only [make_relation, Bool.true_and]
    by_cases hv : relType ∈ vocab
    · simp [hv]
    · simp [hv]

/-- C8 instance: adding a relation with a nonstandard type to an
existing synset succeeds, stores the relation, and warns. -/
theorem c8_advisory_validation_witness :
    (add_synset_relation ["hypernym"]
        { entries := [], synsets := [{ id := "s1", partOfSpeech := "n" }],
          entryIdx := [], synsetIdx := ["s1"], senseIdx := [], lemmaIdx := [] }
        "s1" "s2" "odd-rel" true).1 = none ∧
    ({ id := "s1", partOfSpeech := "n",
       relations := [{ target := "s2", relType := "odd-rel" }] } : Synset)
      ∈ (add_synset_relation ["hypernym"]
        { entries := [], synsets := [{ id := "s1", partOfSpeech := "n" }],
          entryIdx := [], synsetIdx := ["s1"], senseIdx := [], lemmaIdx := [] }
        "s1" "s2" "odd-rel" true).2.2.synsets ∧
    (add_synset_relation ["hypernym"]
        { entries := [], synsets := [{ id := "s1", partOfSpeech := "n" }],
          entryIdx := [], synsetIdx := ["s1"], senseIdx := [], lemmaIdx := [] }
        "s1" "s2" "odd-rel" true).2.1 ≠ [] := by
  obtain ⟨h1, h2, h3, h4⟩ := c8_advisory_validation ["hypernym"]
    { entries := [], synsets := [{ id := "s1", partOfSpeech := "n" }],
      entryIdx := [], synsetIdx := ["s1"], senseIdx := [], lemmaIdx := [] }
    "s1" "s2" "odd-rel" (by decide)
  refine ⟨h1, ?_, h4.mpr (by decide)⟩
  exact h2 { id := "s1", partOfSpeech := "n" } (by simp) rfl

/-! ### `create_synset` word-loop machinery -/

theorem entryAddSense_id (sid : String) (e : Entry) :
    (entryAddSense sid e).id = e.id := rfl

theorem entryAddSense_lem (sid : String) (e : Entry) :
    (entryAddSense sid e).lem = e.lem := rfl

theorem mem_foldl_erase_iff (ys l : List String) (a : String) (hnd : l.Nodup) :
    a ∈ ys.foldl (fun ix i => ix.erase i) l ↔ (a ∈ l ∧ a ∉ ys) := by
  constructor
  · intro h
    exact ⟨foldl_erase_subset ys l a h,
      fun hy => not_mem_foldl_erase ys l a hnd hy h⟩
  · intro h
    exact mem_foldl_erase ys l a h.1 h.2

theorem find?_id_of_nodup (l : List Entry) (hnd : (l.map Entry.id).Nodup)
    (e : Entry) (he : e ∈ l) : l.find? (fun x => x.id = e.id) = some e := by
  induction l with
  | nil => cases he
  | cons a rest ih =>
    rw [List.map_cons] at hnd
    obtain ⟨hna, hnd2⟩ := List.nodup_cons.mp hnd
    rw [List.find?_cons]
    rcases List.mem_cons.mp he with rfl | hr
    · simp
    · have hne : ¬ a.id = e.id := by
        intro hh
        apply hna
        rw [hh]
        exact List.mem_map.mpr ⟨e, hr, rfl⟩
      simp only [hne, decide_False]
      exact ih hnd2 hr

theorem resolve_map_id (l sub : List Entry) (hnd : (l.map Entry.id).Nodup)
    (hsub : ∀ e ∈ sub, e ∈ l) :
    (sub.map Entry.id).filterMap (fun i => l.find? (fun x => x.id = i)) = sub := by
  rw [List.filterMap_map]
  have h1 : ∀ e ∈ sub,
      ((fun i => l.find? (fun x => x.id = i)) ∘ Entry.id) e = some e := by
    intro e he
    exact find?_id_of_nodup l hnd e (hsub e he)
  rw [List.filterMap_congr h1, List.filterMap_some]

theorem resolvePos_some_of_ne (st : EditorState) (sid q : String) (h : q ≠ "") :
    resolvePos st sid (some q) = q := by
  unfold resolvePos
  simp [h]

theorem CreateTrace_init (base : EditorState) (sid p : String) (hwfB : WF base) :
    CreateTrace base sid p [] [] base := by
  obtain ⟨-, -, -, -, -, -, -, -, -, -, hndL, -, -⟩ := hwfB
  refine ⟨rfl, rfl, by simp, by simp, List.nodup_nil, by simp, by simp, by simp,
    by simp, ⟨[], by simp, List.nodup_nil, by simp, by simp⟩, by simp, hndL,
    by simp, by simp⟩

theorem CreateTrace_entries_ids (base : EditorState) (sid p : String)
    (M : List String) (news : List Entry) (stc : EditorState)
    (ht : CreateTrace base sid p M news stc) :
    stc.entries.map Entry.id = base.entries.map Entry.id ++ news.map Entry.id := by
  obtain ⟨-, -, h3, -⟩ := ht
  rw [h3, List.map_append, List.map_map]
  congr 1
  apply List.map_congr_left
  intro e _
  by_cases h : e.id ∈ M <;> simp [h, entryAddSense_id]

theorem CreateTrace_entries_nodup (base : EditorState) (sid p : String)
    (M : List String) (news : List Entry) (stc : EditorState)
    (hwfB : WF base) (ht : CreateTrace base sid p M news stc) :
    (stc.entries.map Entry.id).Nodup := by
  have hids := CreateTrace_entries_ids base sid p M news stc ht
  obtain ⟨⟨hndE, -, -⟩, -⟩ := hwfB
  obtain ⟨-, -, -, -, -, -, hnn, hfresh, -⟩ := ht
  rw [hids, List.nodup_append]
  exact ⟨hndE, hnn, fun i hi hni =>
    (by obtain ⟨ne, hne, rfl⟩ := List.mem_map.mp hni; exact hfresh ne hne hi)⟩

theorem CreateTrace_find (base : EditorState) (sid p : String)
    (M : List String) (news : List Entry) (stc : EditorState)
    (hwfB : WF base) (ht : CreateTrace base sid p M news stc) (w : String) :
    find_entries stc w (some p)
      = (find_entries base w (some p)).map
          (fun e => if e.id ∈ M then entryAddSense sid e else e)
        ++ news.filter (fun ne => ne.lem.writtenForm = w) := by
  have hids := CreateTrace_entries_ids base sid p M news stc ht
  have hndids := CreateTrace_entries_nodup base sid p M news stc hwfB ht
  obtain ⟨-, -, h3, -, -, hM, -, hfresh, hnf, -, hlook, -⟩ := ht
  have hgid : ∀ e : Entry,
      ((fun e => if e.id ∈ M then entryAddSense sid e else e) e).id = e.id := by
    intro e
    by_cases h : e.id ∈ M <;> simp [h, entryAddSense_id]
  have hglem : ∀ e : Entry,
      ((fun e => if e.id ∈ M then entryAddSense sid e else e) e).lem = e.lem := by
    intro e
    by_cases h : e.id ∈ M <;> simp [h, entryAddSense_lem]
  show ((lookupD stc.lemmaIdx w).filterMap
      (fun i => stc.entries.find? (fun e => e.id = i))).filter
      (fun e => e.lem.partOfSpeech = p) = _
  rw [hlook w, List.filterMap_append]
  have hpart1 : (lookupD base.lemmaIdx w).filterMap
      (fun i => stc.entries.find? (fun e => e.id = i))
      = ((lookupD base.lemmaIdx w).filterMap
          (fun i => base.entries.find? (fun e => e.id = i))).map
          (fun e => if e.id ∈ M then entryAddSense sid e else e) := by
    rw [List.map_filterMap]
    apply List.filterMap_congr
    intro i hi
    have hib : ∃ e0 ∈ base.entries, e0.id = i := by
      rw [WF_lookupD base hwfB w] at hi
      obtain ⟨e0, he0, he0i⟩ := List.mem_map.mp hi
      exact ⟨e0, (List.mem_filter.mp he0).1, he0i⟩
    obtain ⟨e0, he0, he0i⟩ := hib
    rw [h3, List.find?_append, find?_id_map base.entries _ hgid i]
    have : (base.entries.find? (fun e => e.id = i)).isSome :=
      List.find?_isSome.mpr ⟨e0, he0, by simp [he0i]⟩
    cases hfe : base.entries.find? (fun e => e.id = i) with
    | some x => rfl
    | none => rw [hfe] at this; cases this
  have hpart2 : ((news.filter (fun ne => ne.lem.writtenForm = w)).map
        Entry.id).filterMap (fun i => stc.entries.find? (fun e => e.id = i))
      = news.filter (fun ne => ne.lem.writtenForm = w) := by
    apply resolve_map_id stc.entries _ hndids
    intro e he
    rw [h3]
    exact List.mem_append.mpr (Or.inr ((List.mem_filter.mp he).1))
  rw [hpart1, hpart2, List.filter_append]
  congr 1
  · show _ = ((((lookupD base.lemmaIdx w).filterMap
        (fun i => base.entries.find? (fun e => e.id = i))).filter
        (fun e => e.lem.partOfSpeech = p)).map
        (fun e => if e.id ∈ M then entryAddSense sid e else e))
    rw [List.filter_map]
    congr 1
    apply List.filter_congr
    intro e _
    simp [Function.comp, hglem]
  · apply List.filter_eq_self.mpr
    intro e he
    have := (hnf e (List.mem_filter.mp he).1).1
    simp [this]

theorem string_suffix_cancel (a b sfx : String)
    (h : a ++ "-" ++ sfx = b ++ "-" ++ sfx) : a = b := by
  have hd := congrArg String.data h
  simp only [String.data_append, List.append_assoc] at hd
  exact String.ext (List.append_cancel_right hd)

theorem find_entries_subset (st : EditorState) (lem : String)
    (pos : Option String) : ∀ e ∈ find_entries st lem pos, e ∈ st.entries := by
  intro e he
  cases pos with
  | none =>
    simp only [find_entries] at he
    obtain ⟨i, -, hfind⟩ := List.mem_filterMap.mp he
    exact List.mem_of_find?_eq_some hfind
  | some p =>
    simp only [find_entries] at he
    obtain ⟨i, -, hfind⟩ := List.mem_filterMap.mp (List.mem_filter.mp he).1
    exact List.mem_of_find?_eq_some hfind

/-- One iteration of the `create_synset` word loop preserves the trace
invariant, records the found entry in `M` or the created entry in
`news`, and touches nothing else. -/
theorem add_word_trace_step (base : EditorState) (sid p : String)
    (hwfB : WF base)
    (hnt : ∀ e ∈ base.entries, ∀ s ∈ e.senses, s.synset ≠ sid)
    (hsf : ∀ e ∈ base.entries, e.id ++ "-" ++ sid ∉ base.senseIdx)
    (hsidx : sid ∈ base.synsetIdx)
    (M : List String) (news : List Entry) (stc : EditorState)
    (ht : CreateTrace base sid p M news stc)
    (w : String) (pos : Option String)
    (hpos : resolvePos base sid pos = p) (hp : p ∈ PARTS_OF_SPEECH)
    (eid : String) (heB : eid ∉ base.entries.map Entry.id)
    (heN : eid ∉ news.map Entry.id)
    (hes : eid ++ "-" ++ sid ∉ base.senseIdx) :
    ∃ M1 news1,
      CreateTrace base sid p M1 news1 (add_word_to_synset stc sid w pos eid).2 ∧
      (∀ i ∈ M, i ∈ M1) ∧
      (∀ i ∈ M1, i ∈ M ∨
        ∃ E, (find_entries base w (some p)).head? = some E ∧ E.id = i) ∧
      (∀ E, (find_entries base w (some p)).head? = some E → E.id ∈ M1) ∧
      (∀ ne ∈ news, ne ∈ news1) ∧
      (∀ ne ∈ news1, ne ∈ news ∨ ne.id = eid) := by
  have ht0 := ht
  have hids := CreateTrace_entries_ids base sid p M news stc ht
  have htf := CreateTrace_find base sid p M news stc hwfB ht w
  obtain ⟨h1, h2, h3, h4, h5M, h6M, h7n, h8n, h9n,
    ⟨addedIds, hA1, hA2, hA3, hA4⟩, hlook, hkeysnd, hkeyscov, hkeysnews⟩ := ht
  obtain ⟨⟨hndE, hndS, hndSe⟩, hndEI, hEmem, hEcov, hndSI, hSmem, hScov,
    hndSeI, hSeMem, hSeCov, hndL, hLval, hLcov⟩ := hwfB
  have hres : resolvePos stc sid pos = p := by
    rw [resolvePos_congr stc base h1 sid pos, hpos]
  have hsidx1 : sid ∈ stc.synsetIdx := by rw [h2]; exact hsidx
  cases hfb : (find_entries base w (some p)).head? with
  | some E =>
    have hEfind : E ∈ find_entries base w (some p) := by
      have : find_entries base w (some p) ≠ [] := by
        intro hh
        rw [hh] at hfb
        cases hfb
      cases hfw : find_entries base w (some p) with
      | nil => exact absurd hfw this
      | cons a rest =>
        rw [hfw] at hfb
        simp only [List.head?_cons, Option.some.injEq] at hfb
        rw [hfb] at hfw ⊢
        exact hfw ▸ List.mem_cons_self E rest
    have hEbase : E ∈ base.entries := find_entries_subset base w (some p) E hEfind
    have hstc_head : (find_entries stc w (some (resolvePos stc sid pos))).head?
        = some (if E.id ∈ M then entryAddSense sid E else E) := by
      rw [hres, htf, List.head?_append, List.head?_map, hfb]
      rfl
    by_cases hEM : E.id ∈ M
    · rw [if_pos hEM] at hstc_head
      have hhas : (entryAddSense sid E).senses.any
          (fun s => s.synset = sid) = true := by
        simp [entryAddSense, make_sense]
      rw [add_word_to_synset_found stc sid w pos eid hsidx1 _ hstc_head,
          addSenseIfMissing_of_has stc _ sid hhas]
      refine ⟨M, news, ht0, fun i hi => hi, fun i hi => Or.inl hi, ?_,
        fun ne hn => hn, fun ne hn => Or.inl hn⟩
      intro E2 hE2
      injection hE2 with h2
      rw [← h2]
      exact hEM
    · rw [if_neg hEM] at hstc_head
      have hhasE : E.senses.any (fun s => s.synset = sid) = false := by
        rw [List.any_eq_false]
        intro s hs
        simp only [decide_eq_true_eq]
        exact hnt E hEbase s hs
      rw [add_word_to_synset_found stc sid w pos eid hsidx1 E hstc_head,
          addSenseIfMissing_of_not_has stc E sid hhasE]
      have hnid : E.id ++ "-" ++ sid ∉ stc.senseIdx := by
        rw [hA1]
        intro hmem
        rcases List.mem_append.mp hmem with hmem | hmem
        · exact hsf E hEbase hmem
        · rcases (hA4 _).mp hmem with ⟨i, hi, heq⟩ | ⟨ne, hne, heq⟩
          · exact hEM (string_suffix_cancel E.id i sid heq ▸ hi)
          · exact h8n ne hne
              (string_suffix_cancel E.id ne.id sid heq ▸
                List.mem_map.mpr ⟨E, hEbase, rfl⟩)
      refine ⟨E.id :: M, news, ?_, fun i hi => List.mem_cons.mpr (Or.inr hi), ?_, ?_,
        fun ne hn => hn, fun ne hn => Or.inl hn⟩
      · refine ⟨h1, h2, ?_, h4, List.nodup_cons.mpr ⟨hEM, h5M⟩, ?_, h7n, h8n, h9n,
          ?_, hlook, hkeysnd, hkeyscov, hkeysnews⟩
        · show (stc.entries.map (fun e1 => if e1.id = E.id then
              { e1 with senses :=
                  e1.senses ++ [make_sense (E.id ++ "-" ++ sid) sid] } else e1))
            = _
          rw [h3, List.map_append]
          congr 1
          · rw [List.map_map]
            apply List.map_congr_left
            intro e he
            by_cases heE : e.id = E.id
            · have heqE : e = E := List.inj_on_of_nodup_map hndE he hEbase heE
              subst heqE
              simp only [Function.comp]
              have hc2 : e.id ∈ e.id :: M := List.mem_cons.mpr (Or.inl rfl)
              rw [if_neg hEM, if_pos rfl, if_pos hc2]
              rfl
            · simp only [Function.comp]
              have hgid2 :
                  (if e.id ∈ M then entryAddSense sid e else e).id = e.id := by
                by_cases hh : e.id ∈ M <;> simp [hh, entryAddSense_id]
              have hcond :
                  ¬ (if e.id ∈ M then entryAddSense sid e else e).id = E.id := by
                rw [hgid2]
                exact heE
              rw [if_neg hcond]
              by_cases hh : e.id ∈ M
              · have hc2 : e.id ∈ E.id :: M := List.mem_cons.mpr (Or.inr hh)
                rw [if_pos hh, if_pos hc2]
              · have hcn : ¬ e.id ∈ E.id :: M := by
                  intro hc
                  rcases List.mem_cons.mp hc with hc | hc
                  · exact heE hc
                  · exact hh hc
                rw [if_neg hh, if_neg hcn]
          · have h1n : ∀ a ∈ news, (fun e1 : Entry => if e1.id = E.id then
                { e1 with senses :=
                    e1.senses ++ [make_sense (E.id ++ "-" ++ sid) sid] }
                else e1) a = (fun a : Entry => a) a := by
              intro a ha
              have hna : ¬ a.id = E.id := fun hh =>
                h8n a ha (hh ▸ List.mem_map.mpr ⟨E, hEbase, rfl⟩)
              simp [hna]
            rw [List.map_congr_left h1n, List.map_id']
        · intro i hi
          rcases List.mem_cons.mp hi with rfl | hi
          · exact List.mem_map.mpr ⟨E, hEbase, rfl⟩
          · exact h6M i hi
        · refine ⟨addedIds ++ [E.id ++ "-" ++ sid], ?_, ?_, ?_, ?_⟩
          · show keyInsert stc.senseIdx (E.id ++ "-" ++ sid) = _
            rw [keyInsert_of_not_mem _ _ hnid, hA1, List.append_assoc]
          · rw [List.nodup_append]
            refine ⟨hA2, List.nodup_singleton _, ?_⟩
            intro a ha hae
            rw [List.mem_singleton] at hae
            rw [hae] at ha
            refine hnid ?_
            rw [hA1]
            exact List.mem_append.mpr (Or.inr ha)
          · intro a ha
            rcases List.mem_append.mp ha with ha | ha
            · exact hA3 a ha
            · rw [List.mem_singleton] at ha
              rw [ha]
              exact hsf E hEbase
          · intro a
            constructor
            · intro ha
              rcases List.mem_append.mp ha with ha | ha
              · rcases (hA4 a).mp ha with ⟨i, hi, heq⟩ | hne
                · exact Or.inl ⟨i, List.mem_cons.mpr (Or.inr hi), heq⟩
                · exact Or.inr hne
              · rw [List.mem_singleton] at ha
                exact Or.inl ⟨E.id, List.mem_cons.mpr (Or.inl rfl), ha⟩
            · rintro (⟨i, hi, heq⟩ | hne)
              · rcases List.mem_cons.mp hi with rfl | hi
                · exact List.mem_append.mpr (Or.inr (List.mem_singleton.mpr heq))
                · exact List.mem_append.mpr
                    (Or.inl ((hA4 a).mpr (Or.inl ⟨i, hi, heq⟩)))
              · exact List.mem_append.mpr (Or.inl ((hA4 a).mpr (Or.inr hne)))
      · intro i hi
        rcases List.mem_cons.mp hi with rfl | hi
        · exact Or.inr ⟨E, rfl, rfl⟩
        · exact Or.inl hi
      · intro E2 hE2
        injection hE2 with h2
        rw [← h2]
        exact List.mem_cons.mpr (Or.inl rfl)
  | none =>
    have hfbnil : find_entries base w (some p) = [] :=
      List.head?_eq_none_iff.mp hfb
    cases hnw : news.filter (fun ne => ne.lem.writtenForm = w) with
    | cons ne0 rest =>
      have hne0 : ne0 ∈ news := by
        have : ne0 ∈ news.filter (fun ne => ne.lem.writtenForm = w) := by
          rw [hnw]
          exact List.mem_cons_self ne0 rest
        exact (List.mem_filter.mp this).1
      have hstc_head : (find_entries stc w (some (resolvePos stc sid pos))).head?
          = some ne0 := by
        rw [hres, htf, hfbnil, hnw]
        rfl
      have hhas : ne0.senses.any (fun s => s.synset = sid) = true := by
        rw [(h9n ne0 hne0).2]
        simp [make_sense]
      rw [add_word_to_synset_found stc sid w pos eid hsidx1 ne0 hstc_head,
          addSenseIfMissing_of_has stc ne0 sid hhas]
      refine ⟨M, news, ht0, fun i hi => hi, fun i hi => Or.inl hi, ?_,
        fun ne hn => hn, fun ne hn => Or.inl hn⟩
      intro E2 hE2
      exact Option.noConfusion hE2
    | nil =>
      have hstc_head : (find_entries stc w
          (some (resolvePos stc sid pos))).head? = none := by
        rw [hres, htf, hfbnil, hnw]
        rfl
      have hp1 : resolvePos stc sid pos ∈ PARTS_OF_SPEECH := by
        rw [hres]
        exact hp
      have heid1 : eid ∉ stc.entries.map Entry.id := by
        rw [hids]
        intro hmem
        rcases List.mem_append.mp hmem with hmem | hmem
        · exact heB hmem
        · exact heN hmem
      rw [add_word_to_synset_create stc sid w pos eid hsidx1 hstc_head hp1]
      rw [hres, addSense_on_fresh_entry stc sid w p eid heid1]
      refine ⟨M, news ++
        [{ id := eid, lem := { writtenForm := w, partOfSpeech := p },
           senses := [make_sense (eid ++ "-" ++ sid) sid] }], ?_,
        fun i hi => hi, fun i hi => Or.inl hi, ?_, ?_, ?_⟩
      · have heidI : eid ∉ stc.entryIdx := by
          rw [h4]
          intro hmem
          rcases List.mem_append.mp hmem with hmem | hmem
          · exact heB (hEmem eid hmem)
          · exact heN hmem
        have hnid : eid ++ "-" ++ sid ∉ stc.senseIdx := by
          rw [hA1]
          intro hmem
          rcases List.mem_append.mp hmem with hmem | hmem
          · exact hes hmem
          · rcases (hA4 _).mp hmem with ⟨i, hi, heq⟩ | ⟨ne, hne, heq⟩
            · exact heB (string_suffix_cancel eid i sid heq ▸ h6M i hi)
            · exact heN (string_suffix_cancel eid ne.id sid heq ▸
                List.mem_map.mpr ⟨ne, hne, rfl⟩)
        refine ⟨h1, h2, ?_, ?_, h5M, h6M, ?_, ?_, ?_, ?_, ?_, ?_, ?_, ?_⟩
        · show stc.entries ++ _ = _
          rw [h3, List.append_assoc]
        · show keyInsert stc.entryIdx eid = _
          rw [keyInsert_of_not_mem _ _ heidI, h4, List.append_assoc,
              List.map_append]
          rfl
        · rw [List.map_append, List.nodup_append]
          refine ⟨h7n, by simp, ?_⟩
          intro i hi hie
          simp only [List.map_cons, List.map_nil, List.mem_singleton] at hie
          rw [hie] at hi
          exact heN hi
        · intro ne hne
          rcases List.mem_append.mp hne with hne | hne
          · exact h8n ne hne
          · rw [List.mem_singleton] at hne
            rw [hne]
            exact heB
        · intro ne hne
          rcases List.mem_append.mp hne with hne | hne
          · exact h9n ne hne
          · rw [List.mem_singleton] at hne
            rw [hne]
            exact ⟨rfl, rfl⟩
        · refine ⟨addedIds ++ [eid ++ "-" ++ sid], ?_, ?_, ?_, ?_⟩
          · show keyInsert stc.senseIdx (eid ++ "-" ++ sid) = _
            rw [keyInsert_of_not_mem _ _ hnid, hA1, List.append_assoc]
          · rw [List.nodup_append]
            refine ⟨hA2, List.nodup_singleton _, ?_⟩
            intro a ha hae
            rw [List.mem_singleton] at hae
            rw [hae] at ha
            refine hnid ?_
            rw [hA1]
            exact List.mem_append.mpr (Or.inr ha)
          · intro a ha
            rcases List.mem_append.mp ha with ha | ha
            · exact hA3 a ha
            · rw [List.mem_singleton] at ha
              rw [ha]
              exact hes
          · intro a
            constructor
            · intro ha
              rcases List.mem_append.mp ha with ha | ha
              · rcases (hA4 a).mp ha with hi | ⟨ne, hne, heq⟩
                · exact Or.inl hi
                · exact Or.inr ⟨ne, List.mem_append.mpr (Or.inl hne), heq⟩
              · rw [List.mem_singleton] at ha
                refine Or.inr ⟨({ id := eid,
                                  lem := { writtenForm := w,
                                           partOfSpeech := p },
                                  senses := [make_sense (eid ++ "-" ++ sid)
                                    sid] } : Entry),
                  List.mem_append.mpr (Or.inr ?_), ha⟩
                exact List.mem_singleton.mpr rfl
            · rintro (hi | ⟨ne, hne, heq⟩)
              · exact List.mem_append.mpr (Or.inl ((hA4 a).mpr (Or.inl hi)))
              · rcases List.mem_append.mp hne with hne | hne
                · exact List.mem_append.mpr
                    (Or.inl ((hA4 a).mpr (Or.inr ⟨ne, hne, heq⟩)))
                · rw [List.mem_singleton] at hne
                  rw [hne] at heq
                  exact List.mem_append.mpr (Or.inr (List.mem_singleton.mpr heq))
        · intro f
          show lookupD (lemmaAppend stc.lemmaIdx w eid) f = _
          by_cases hfw : f = w
          · subst hfw
            rw [lookupD_lemmaAppend_self, hlook f, List.filter_append,
                List.map_append, hnw]
            have hone : List.filter (fun ne => decide (ne.lem.writtenForm = f))
                [({ id := eid, lem := { writtenForm := f, partOfSpeech := p },
                    senses := [make_sense (eid ++ "-" ++ sid) sid] } : Entry)]
                = [({ id := eid, lem := { writtenForm := f, partOfSpeech := p },
                      senses := [make_sense (eid ++ "-" ++ sid) sid] } : Entry)] := by
              simp
            rw [hone]
            simp
          · rw [lookupD_lemmaAppend_other _ _ _ _ hfw, hlook f,
                List.filter_append, List.map_append]
            have hnil : List.filter (fun ne => decide (ne.lem.writtenForm = f))
                [({ id := eid, lem := { writtenForm := w, partOfSpeech := p },
                    senses := [make_sense (eid ++ "-" ++ sid) sid] } : Entry)]
                = [] := by
              have hwf : ¬ w = f := fun hh => hfw hh.symm
              simp [hwf]
            rw [hnil]
            simp
        · show ((lemmaAppend stc.lemmaIdx w eid).map Prod.fst).Nodup
          rw [lemmaAppend_keys]
          by_cases hc : containsKey stc.lemmaIdx w = true
          · rw [if_pos hc]
            exact hkeysnd
          · rw [if_neg hc]
            rw [List.nodup_append]
            refine ⟨hkeysnd, List.nodup_singleton _, ?_⟩
            intro a ha hae
            rw [List.mem_singleton] at hae
            rw [hae] at ha
            exact hc ((containsKey_iff _ _).mpr ha)
        · intro k hk
          show k ∈ (lemmaAppend stc.lemmaIdx w eid).map Prod.fst
          rw [lemmaAppend_keys]
          by_cases hc : containsKey stc.lemmaIdx w = true
          · rw [if_pos hc]
            exact hkeyscov k hk
          · rw [if_neg hc]
            exact List.mem_append.mpr (Or.inl (hkeyscov k hk))
        · intro ne hne
          show ne.lem.writtenForm ∈ (lemmaAppend stc.lemmaIdx w eid).map Prod.fst
          rw [lemmaAppend_keys]
          rcases List.mem_append.mp hne with hne | hne
          · by_cases hc : containsKey stc.lemmaIdx w = true
            · rw [if_pos hc]
              exact hkeysnews ne hne
            · rw [if_neg hc]
              exact List.mem_append.mpr (Or.inl (hkeysnews ne hne))
          · rw [List.mem_singleton] at hne
            rw [hne]
            by_cases hc : containsKey stc.lemmaIdx w = true
            · rw [if_pos hc]
              exact (containsKey_iff _ _).mp hc
            · rw [if_neg hc]
              exact List.mem_append.mpr (Or.inr (List.mem_singleton.mpr rfl))
      · intro E2 hE2
        exact Option.noConfusion hE2
      · intro ne hn
        exact List.mem_append.mpr (Or.inl hn)
      · intro ne hn
        rcases List.mem_append.mp hn with hn | hn
        · exact Or.inl hn
        · rw [List.mem_singleton] at hn
          rw [hn]
          exact Or.inr rfl

theorem pos_mem_ne_empty (p : String) (hp : p ∈ PARTS_OF_SPEECH) : p ≠ "" := by
  intro h
  rw [h] at hp
  exact absurd hp (by decide)

/-- Folding the word loop of `create_synset` over any list of
`(word, fresh entry id)` pairs preserves the trace invariant. -/
theorem add_word_trace_fold (base : EditorState) (sid p : String)
    (hwfB : WF base)
    (hnt : ∀ e ∈ base.entries, ∀ s ∈ e.senses, s.synset ≠ sid)
    (hsf : ∀ e ∈ base.entries, e.id ++ "-" ++ sid ∉ base.senseIdx)
    (hsidx : sid ∈ base.synsetIdx)
    (hp : p ∈ PARTS_OF_SPEECH)
    (pairs : List (String × String))
    (M : List String) (news : List Entry) (stc : EditorState)
    (ht : CreateTrace base sid p M news stc)
    (hfreshB : ∀ q ∈ pairs, q.2 ∉ base.entries.map Entry.id)
    (hfreshS : ∀ q ∈ pairs, q.2 ++ "-" ++ sid ∉ base.senseIdx)
    (hfreshN : (pairs.map Prod.snd).Nodup)
    (hnewsP : ∀ ne ∈ news, ne.id ∉ pairs.map Prod.snd) :
    ∃ M1 news1,
      CreateTrace base sid p M1 news1
        (pairs.foldl
          (fun s q => (add_word_to_synset s sid q.1 (some p) q.2).2) stc) ∧
      (∀ ne ∈ news1, ne ∈ news ∨ ne.id ∈ pairs.map Prod.snd) := by
  induction pairs generalizing M news stc with
  | nil =>
    exact ⟨M, news, ht, fun ne hn => Or.inl hn⟩
  | cons q rest ih =>
    have hpos : resolvePos base sid (some p) = p :=
      resolvePos_some_of_ne base sid p (pos_mem_ne_empty p hp)
    have heB : q.2 ∉ base.entries.map Entry.id :=
      hfreshB q (List.mem_cons_self q rest)
    have hes : q.2 ++ "-" ++ sid ∉ base.senseIdx :=
      hfreshS q (List.mem_cons_self q rest)
    have heN : q.2 ∉ news.map Entry.id := by
      intro hmem
      obtain ⟨ne, hne, hid⟩ := List.mem_map.mp hmem
      refine hnewsP ne hne ?_
      rw [List.map_cons]
      exact List.mem_cons.mpr (Or.inl hid)
    obtain ⟨M1, news1, ht1, -, -, -, -, hnews1snd⟩ :=
      add_word_trace_step base sid p hwfB hnt hsf hsidx M news stc ht
        q.1 (some p) hpos hp q.2 heB heN hes
    have hnewsP1 : ∀ ne ∈ news1, ne.id ∉ rest.map Prod.snd := by
      intro ne hne hmem
      rcases hnews1snd ne hne with hne1 | hid
      · refine hnewsP ne hne1 ?_
        rw [List.map_cons]
        exact List.mem_cons.mpr (Or.inr hmem)
      · rw [hid] at hmem
        have hnd := hfreshN
        rw [List.map_cons] at hnd
        exact (List.nodup_cons.mp hnd).1 hmem
    obtain ⟨M2, news2, ht2, hch⟩ := ih M1 news1
      ((add_word_to_synset stc sid q.1 (some p) q.2).2) ht1
      (fun q1 hq1 => hfreshB q1 (List.mem_cons.mpr (Or.inr hq1)))
      (fun q1 hq1 => hfreshS q1 (List.mem_cons.mpr (Or.inr hq1)))
      (by
        have hnd := hfreshN
        rw [List.map_cons] at hnd
        exact (List.nodup_cons.mp hnd).2)
      hnewsP1
    refine ⟨M2, news2, ?_, ?_⟩
    · rw [List.foldl_cons]
      exact ht2
    · intro ne hn
      rcases hch ne hn with hn1 | hn1
      · rcases hnews1snd ne hn1 with h1q | h1q
        · exact Or.inl h1q
        · refine Or.inr ?_
          rw [List.map_cons]
          exact List.mem_cons.mpr (Or.inl h1q)
      · refine Or.inr ?_
        rw [List.map_cons]
        exact List.mem_cons.mpr (Or.inr hn1)

theorem make_synset_ok (id pos : String) (ili : Option String)
    (defs : List Defn) (exs : List Example) (hp : pos ∈ PARTS_OF_SPEECH) :
    make_synset id pos ili defs exs = .ok
      { id := id, partOfSpeech := pos,
        ili := (match ili with | some s => s | none => ""),
        definitions := defs, examples := exs, relations := [] } := by
  unfold make_synset
  rw [if_pos hp]

/-- `create_synset` with a valid part of speech: the synset object is
appended and registered, then the word loop folds `add_word_to_synset`
over the `zip` of words and generated entry ids. -/
theorem create_synset_eq (st : EditorState) (pos : String)
    (definition : Option String) (definitions examples words : List String)
    (ili : Option String) (synsetId : String) (entryIds : List String)
    (S : Synset)
    (hS : make_synset synsetId pos ili
        ((match definition with
          | some d => [make_definition d]
          | none => []) ++ definitions.map make_definition)
        (examples.map make_example) = .ok S) :
    create_synset st pos definition definitions examples words ili synsetId
        entryIds
      = .ok ((words.zip entryIds).foldl
          (fun s q => (add_word_to_synset s synsetId q.1 (some pos) q.2).2)
          { st with
              synsets := st.synsets ++ [S],
              synsetIdx := keyInsert st.synsetIdx synsetId }, S) := by
  simp only [create_synset]
  rw [hS]

/-- Appending a synset with a fresh identifier and registering it in the
synset index preserves well-formedness. -/
theorem WF_add_fresh_synset (st : EditorState) (S : Synset)
    (hwf : WF st) (hfresh : S.id ∉ st.synsets.map Synset.id) :
    WF { st with
          synsets := st.synsets ++ [S],
          synsetIdx := keyInsert st.synsetIdx S.id } := by
  obtain ⟨⟨hndE, hndS, hndSe⟩, hndEI, hEmem, hEcov, hndSI, hSmem, hScov,
    hndSeI, hSeMem, hSeCov, hndL, hLval, hLcov⟩ := hwf
  refine ⟨⟨hndE, ?_, hndSe⟩, hndEI, hEmem, hEcov, ?_, ?_, ?_, hndSeI, hSeMem,
    hSeCov, hndL, hLval, hLcov⟩
  · show ((st.synsets ++ [S]).map Synset.id).Nodup
    rw [List.map_append, List.nodup_append]
    refine ⟨hndS, by simp, ?_⟩
    intro a ha hae
    simp only [List.map_cons, List.map_nil, List.mem_singleton] at hae
    rw [hae] at ha
    exact hfresh ha
  · show (keyInsert st.synsetIdx S.id).Nodup
    exact keyInsert_nodup _ _ hndSI
  · intro i hi
    rw [mem_keyInsert] at hi
    show i ∈ (st.synsets ++ [S]).map Synset.id
    rw [List.map_append]
    rcases hi with hi | hi
    · exact List.mem_append.mpr (Or.inl (hSmem i hi))
    · refine List.mem_append.mpr (Or.inr ?_)
      rw [hi]
      simp
  · intro s hs
    rcases List.mem_append.mp hs with hs | hs
    · show s.id ∈ keyInsert st.synsetIdx S.id
      rw [mem_keyInsert]
      exact Or.inl (hScov s hs)
    · rw [List.mem_singleton] at hs
      show s.id ∈ keyInsert st.synsetIdx S.id
      rw [mem_keyInsert]
      exact Or.inr (by rw [hs])

theorem strip_gM_eq (l : List Entry) (sid : String) (M1 : List String)
    (hnt : ∀ e ∈ l, ∀ s ∈ e.senses, s.synset ≠ sid) :
    (l.map (fun e => if e.id ∈ M1 then entryAddSense sid e else e)).map
      (fun e => { e with senses := e.senses.filter (fun s => s.synset ≠ sid) })
      = l := by
  rw [List.map_map]
  have h1 : ∀ e ∈ l,
      ((fun e : Entry =>
          { e with senses := e.senses.filter (fun s => s.synset ≠ sid) }) ∘
        (fun e => if e.id ∈ M1 then entryAddSense sid e else e)) e
        = (fun a : Entry => a) e := by
    intro e he
    simp only [Function.comp]
    have hfs : e.senses.filter (fun s => s.synset ≠ sid) = e.senses :=
      List.filter_eq_self.mpr (fun s hs => by simpa using hnt e he s hs)
    by_cases hh : e.id ∈ M1
    · rw [if_pos hh]
      have h2 : (entryAddSense sid e).senses.filter
          (fun s => s.synset ≠ sid) = e.senses := by
        show (e.senses ++ [make_sense (e.id ++ "-" ++ sid) sid]).filter
            (fun s => s.synset ≠ sid) = e.senses
        rw [List.filter_append, hfs]
        simp [make_sense]
      rw [h2]
      rfl
    · rw [if_neg hh, hfs]
  rw [List.map_congr_left h1, List.map_id']

theorem flatMap_strip_map (l : List Entry) (sid : String) (M1 : List String)
    (hnt : ∀ e ∈ l, ∀ s ∈ e.senses, s.synset ≠ sid) :
    (l.map (fun e => if e.id ∈ M1 then entryAddSense sid e else e)).flatMap
      (fun e => (e.senses.filter (fun s => s.synset = sid)).map Sense.id)
      = (l.filter (fun e => e.id ∈ M1)).map
          (fun e => e.id ++ "-" ++ sid) := by
  induction l with
  | nil => rfl
  | cons a l ih =>
    have hnta : ∀ s ∈ a.senses, s.synset ≠ sid := hnt a (List.mem_cons_self a l)
    have hfa : a.senses.filter (fun s => s.synset = sid) = [] :=
      List.filter_eq_nil_iff.mpr (fun s hs => by simpa using hnta s hs)
    have hrest : ∀ e ∈ l, ∀ s ∈ e.senses, s.synset ≠ sid :=
      fun e he => hnt e (List.mem_cons.mpr (Or.inr he))
    by_cases hh : a.id ∈ M1
    · have hhead : ((if a.id ∈ M1 then entryAddSense sid a else a).senses.filter
          (fun s => s.synset = sid)).map Sense.id = [a.id ++ "-" ++ sid] := by
        rw [if_pos hh]
        show ((a.senses ++ [make_sense (a.id ++ "-" ++ sid) sid]).filter
            (fun s => s.synset = sid)).map Sense.id = _
        rw [List.filter_append, hfa]
        simp [make_sense]
      rw [List.map_cons, List.flatMap_cons, hhead, ih hrest]
      have hfc : (a :: l).filter (fun e => e.id ∈ M1)
          = a :: l.filter (fun e => e.id ∈ M1) := by
        rw [List.filter_cons, if_pos (by simpa using hh)]
      rw [hfc, List.map_cons]
      rfl
    · have hhead : ((if a.id ∈ M1 then entryAddSense sid a else a).senses.filter
          (fun s => s.synset = sid)).map Sense.id = [] := by
        rw [if_neg hh, hfa]
        rfl
      rw [List.map_cons, List.flatMap_cons, hhead, ih hrest]
      have hfc : (a :: l).filter (fun e => e.id ∈ M1)
          = l.filter (fun e => e.id ∈ M1) := by
        rw [List.filter_cons, if_neg (by simpa using hh)]
      rw [hfc]
      rfl

theorem flatMap_singleton_of (l : List Entry) (f : Entry → List String)
    (g : Entry → String) (h : ∀ x ∈ l, f x = [g x]) :
    l.flatMap f = l.map g := by
  induction l with
  | nil => rfl
  | cons a l ih =>
    rw [List.flatMap_cons, h a (List.mem_cons_self a l), List.map_cons,
        ih (fun x hx => h x (List.mem_cons.mpr (Or.inr hx)))]
    rfl

theorem filter_append_not_contains (A B : List String)
    (hd : ∀ i ∈ A, i ∉ B) :
    (A ++ B).filter (fun i => !(B.contains i)) = A := by
  rw [List.filter_append]
  have h1 : A.filter (fun i => !(B.contains i)) = A :=
    List.filter_eq_self.mpr (fun a ha => by
      simp [List.elem_iff]
      exact hd a ha)
  have h2 : B.filter (fun i => !(B.contains i)) = [] :=
    List.filter_eq_nil_iff.mpr (fun a ha => by
      simp [List.elem_iff, ha])
  rw [h1, h2, List.append_nil]

theorem map_snd_zip_sublist (l1 l2 : List String) :
    ((l1.zip l2).map Prod.snd).Sublist l2 := by
  induction l1 generalizing l2 with
  | nil => simp
  | cons a l1 ih =>
    cases l2 with
    | nil => simp
    | cons b l2 =>
      rw [List.zip_cons_cons, List.map_cons]
      exact List.Sublist.cons₂ b (ih l2)

/-- Full round trip: `create_synset` (valid part of speech, fresh
identifiers) followed by `remove_synset` on the new synset restores the
entry sequence, the synset sequence and the three id-keyed indexes
exactly, and restores the contents of every surface-form bucket. -/
theorem create_remove_roundtrip (st : EditorState) (pos : String)
    (definition : Option String) (definitions examples words : List String)
    (ili : Option String) (sid : String) (entryIds : List String)
    (st2 : EditorState) (S : Synset)
    (hwf : WF st)
    (hp : pos ∈ PARTS_OF_SPEECH)
    (hfreshS : sid ∉ st.synsets.map Synset.id)
    (hnt : ∀ e ∈ st.entries, ∀ s ∈ e.senses, s.synset ≠ sid)
    (hsf : ∀ e ∈ st.entries, e.id ++ "-" ++ sid ∉ st.senseIdx)
    (hne : ∀ e ∈ st.entries, e.senses ≠ [])
    (heids1 : entryIds.Nodup)
    (heids2 : ∀ eid ∈ entryIds, eid ∉ st.entries.map Entry.id)
    (heids3 : ∀ eid ∈ entryIds, eid ++ "-" ++ sid ∉ st.senseIdx)
    (hok : create_synset st pos definition definitions examples words ili sid
        entryIds = .ok (st2, S)) :
    (remove_synset st2 sid).1 = none ∧
    (remove_synset st2 sid).2.entries = st.entries ∧
    (remove_synset st2 sid).2.synsets = st.synsets ∧
    (remove_synset st2 sid).2.entryIdx = st.entryIdx ∧
    (remove_synset st2 sid).2.synsetIdx = st.synsetIdx ∧
    (remove_synset st2 sid).2.senseIdx = st.senseIdx ∧
    (∀ f, lookupD (remove_synset st2 sid).2.lemmaIdx f
      = lookupD st.lemmaIdx f) := by
  have hwf0 := hwf
  obtain ⟨⟨hndE, hndS, hndSe⟩, hndEI, hEmem, hEcov, hndSI, hSmem, hScov,
    hndSeI, hSeMem, hSeCov, hndL, hLval, hLcov⟩ := hwf0
  have hsid0 : sid ∉ st.synsetIdx := fun hmem => hfreshS (hSmem sid hmem)
  have hcs := create_synset_eq st pos definition definitions examples words
    ili sid entryIds _ (make_synset_ok sid pos ili _ _ hp)
  rw [hcs] at hok
  have hpair := Except.ok.inj hok
  rw [Prod.mk.injEq] at hpair
  obtain ⟨hst2, hSrec⟩ := hpair
  rw [hSrec] at hst2
  have hSid : S.id = sid := by rw [← hSrec]
  subst hst2
  have hKI : keyInsert st.synsetIdx sid = st.synsetIdx ++ [sid] :=
    keyInsert_of_not_mem _ _ hsid0
  set B : EditorState := { st with
      synsets := st.synsets ++ [S],
      synsetIdx := keyInsert st.synsetIdx sid } with hB
  have hwfB : WF B := by
    have h := WF_add_fresh_synset st S hwf (by rw [hSid]; exact hfreshS)
    rw [hSid] at h
    exact h
  have hsidxB : sid ∈ B.synsetIdx := by
    show sid ∈ keyInsert st.synsetIdx sid
    rw [hKI]
    exact List.mem_append.mpr (Or.inr (List.mem_singleton.mpr rfl))
  obtain ⟨M1, news1, ht, -⟩ := add_word_trace_fold B sid pos hwfB hnt hsf
    hsidxB hp (words.zip entryIds) [] [] B (CreateTrace_init B sid pos hwfB)
    (fun q hq => heids2 q.2 (List.of_mem_zip hq).2)
    (fun q hq => heids3 q.2 (List.of_mem_zip hq).2)
    (List.Nodup.sublist (map_snd_zip_sublist words entryIds) heids1)
    (fun ne hne1 => absurd hne1 (List.not_mem_nil ne))
  set stf2 : EditorState := (words.zip entryIds).foldl
    (fun s q => (add_word_to_synset s sid q.1 (some pos) q.2).2) B with hstf2
  obtain ⟨h1, h2, h3, h4, h5M, h6M, h7n, h8n, h9n,
    ⟨addedIds, hA1, hA2, hA3, hA4⟩, hlook, -, -, -⟩ := ht
  have hBe : B.entries = st.entries := rfl
  have hBsx : B.synsets = st.synsets ++ [S] := rfl
  have hBsi : B.synsetIdx = st.synsetIdx ++ [sid] := hKI
  have hBei : B.entryIdx = st.entryIdx := rfl
  have hBse : B.senseIdx = st.senseIdx := rfl
  have hBli : B.lemmaIdx = st.lemmaIdx := rfl
  rw [hBe] at h3 h6M h8n
  rw [hBsx] at h1
  rw [hBsi] at h2
  rw [hBei] at h4
  rw [hBse] at hA1 hA3
  rw [hBli] at hlook
  have hs2 : sid ∈ stf2.synsetIdx := by
    rw [h2]
    exact List.mem_append.mpr (Or.inr (List.mem_singleton.mpr rfl))
  have hnsen : ∀ ne ∈ news1,
      ne.senses.filter (fun s => s.synset ≠ sid) = [] := by
    intro ne hne1
    rw [(h9n ne hne1).2]
    simp [make_sense]
  have hnsen2 : ∀ ne ∈ news1,
      ne.senses.filter (fun s => s.synset = sid)
        = [make_sense (ne.id ++ "-" ++ sid) sid] := by
    intro ne hne1
    rw [(h9n ne hne1).2]
    simp [make_sense]
  have hremoved : (stf2.entries.map (fun e =>
      { e with senses := e.senses.filter (fun s => s.synset ≠ sid) })).filter
      (fun e => e.senses.isEmpty)
      = news1.map (fun e =>
        { e with senses := e.senses.filter (fun s => s.synset ≠ sid) }) := by
    rw [h3, List.map_append, strip_gM_eq st.entries sid M1 hnt,
        List.filter_append]
    have hs0 : st.entries.filter (fun e => e.senses.isEmpty) = [] :=
      List.filter_eq_nil_iff.mpr (fun e he => by
        simp [List.isEmpty_iff]
        exact hne e he)
    have hsel : (news1.map (fun e =>
        { e with senses := e.senses.filter (fun s => s.synset ≠ sid) })).filter
        (fun e => e.senses.isEmpty)
        = news1.map (fun e =>
          { e with senses := e.senses.filter (fun s => s.synset ≠ sid) }) :=
      List.filter_eq_self.mpr (fun x hx => by
        obtain ⟨ne, hne1, hxe⟩ := List.mem_map.mp hx
        have hsen : x.senses = [] := by
          rw [← hxe]
          show ne.senses.filter (fun s => s.synset ≠ sid) = []
          exact hnsen ne hne1
        simp [hsen])
    rw [hs0, hsel, List.nil_append]
  have hkept : (stf2.entries.map (fun e =>
      { e with senses := e.senses.filter (fun s => s.synset ≠ sid) })).filter
      (fun e => !e.senses.isEmpty) = st.entries := by
    rw [h3, List.map_append, strip_gM_eq st.entries sid M1 hnt,
        List.filter_append]
    have hstf : st.entries.filter (fun e => !e.senses.isEmpty) = st.entries :=
      List.filter_eq_self.mpr (fun e he => by
        simp [List.isEmpty_iff]
        exact hne e he)
    have hnf : (news1.map (fun e =>
        { e with senses := e.senses.filter (fun s => s.synset ≠ sid) })).filter
        (fun e => !e.senses.isEmpty) = [] :=
      List.filter_eq_nil_iff.mpr (fun x hx => by
        obtain ⟨ne, hne1, hxe⟩ := List.mem_map.mp hx
        have hsen : x.senses = [] := by
          rw [← hxe]
          show ne.senses.filter (fun s => s.synset ≠ sid) = []
          exact hnsen ne hne1
        simp [hsen])
    rw [hstf, hnf, List.append_nil]
  refine ⟨remove_synset_present_none stf2 sid hs2, ?_, ?_, ?_, ?_, ?_, ?_⟩
  · rw [remove_synset_entries_eq stf2 sid hs2, hkept]
  · rw [remove_synset_synsets_eq stf2 sid hs2, h1, List.filter_append]
    have hsf1 : st.synsets.filter (fun s => s.id ≠ sid) = st.synsets :=
      List.filter_eq_self.mpr (fun s hsmem => by
        simp only [decide_eq_true_eq]
        intro hcontra
        exact hfreshS (hcontra ▸ List.mem_map.mpr ⟨s, hsmem, rfl⟩))
    have hsf2 : ([S] : List Synset).filter (fun s => s.id ≠ sid) = [] := by
      simp [hSid]
    rw [hsf1, hsf2, List.append_nil]
  · rw [remove_synset_entryIdx_eq stf2 sid hs2, hremoved, foldl_erase_entries,
        List.map_map]
    have hid : news1.map (Entry.id ∘ (fun e =>
        { e with senses := e.senses.filter (fun s => s.synset ≠ sid) }))
        = news1.map Entry.id :=
      List.map_congr_left (fun ne _ => rfl)
    rw [hid, h4]
    refine foldl_erase_perm_append st.entryIdx (news1.map Entry.id) _
      (List.Perm.refl _) ?_
    rw [List.nodup_append]
    refine ⟨hndEI, h7n, ?_⟩
    intro a ha hmem
    obtain ⟨ne, hne1, hnid⟩ := List.mem_map.mp hmem
    exact h8n ne hne1 (hnid ▸ hEmem a ha)
  · rw [remove_synset_synsetIdx_eq stf2 sid hs2, h2,
        List.erase_append_right _ hsid0, List.erase_cons_head,
        List.append_nil]
  · rw [remove_synset_senseIdx_eq stf2 sid hs2, h3, List.flatMap_append,
        flatMap_strip_map st.entries sid M1 hnt]
    have hBpart : news1.flatMap (fun e =>
        (e.senses.filter (fun s => s.synset = sid)).map Sense.id)
        = news1.map (fun ne => ne.id ++ "-" ++ sid) :=
      flatMap_singleton_of news1 _ _ (fun ne hne1 => by
        rw [hnsen2 ne hne1]
        rfl)
    rw [hBpart, hA1]
    have hndMids : ((st.entries.filter (fun e => e.id ∈ M1)).map
        (fun e => e.id ++ "-" ++ sid)).Nodup := by
      refine List.Nodup.map_on ?_
        (List.Nodup.filter _ (List.Nodup.of_map Entry.id hndE))
      intro x hx y hy hxy
      exact List.inj_on_of_nodup_map hndE (List.mem_of_mem_filter hx)
        (List.mem_of_mem_filter hy) (string_suffix_cancel _ _ _ hxy)
    have hndNids : (news1.map (fun ne => ne.id ++ "-" ++ sid)).Nodup := by
      have hmm : news1.map (fun ne => ne.id ++ "-" ++ sid)
          = (news1.map Entry.id).map (fun i => i ++ "-" ++ sid) := by
        rw [List.map_map]
        exact List.map_congr_left (fun ne _ => rfl)
      rw [hmm]
      exact List.Nodup.map (fun a b hab => string_suffix_cancel a b sid hab) h7n
    have hdisj : ∀ a ∈ (st.entries.filter (fun e => e.id ∈ M1)).map
        (fun e => e.id ++ "-" ++ sid),
        a ∉ news1.map (fun ne => ne.id ++ "-" ++ sid) := by
      intro a ha hmem
      obtain ⟨e, he, hae⟩ := List.mem_map.mp ha
      obtain ⟨ne, hne1, hane⟩ := List.mem_map.mp hmem
      have hidq : e.id = ne.id := string_suffix_cancel _ _ _ (by rw [hae, hane])
      exact h8n ne hne1 (hidq ▸ List.mem_map.mpr
        ⟨e, List.mem_of_mem_filter he, rfl⟩)
    have hndMB : (((st.entries.filter (fun e => e.id ∈ M1)).map
        (fun e => e.id ++ "-" ++ sid)) ++ news1.map
        (fun ne => ne.id ++ "-" ++ sid)).Nodup := by
      rw [List.nodup_append]
      exact ⟨hndMids, hndNids, hdisj⟩
    have hmemiff : ∀ a, (a ∈ ((st.entries.filter (fun e => e.id ∈ M1)).map
          (fun e => e.id ++ "-" ++ sid)) ++ news1.map
          (fun ne => ne.id ++ "-" ++ sid)) ↔ a ∈ addedIds := by
      intro a
      rw [List.mem_append, hA4 a]
      constructor
      · rintro (ha | ha)
        · obtain ⟨e, he, hae⟩ := List.mem_map.mp ha
          refine Or.inl ⟨e.id, ?_, hae.symm⟩
          simpa using (List.mem_filter.mp he).2
        · obtain ⟨ne, hne1, hane⟩ := List.mem_map.mp ha
          exact Or.inr ⟨ne, hne1, hane.symm⟩
      · rintro (⟨i, hi, hai⟩ | ⟨ne, hne1, hane⟩)
        · obtain ⟨e, he, hei⟩ := List.mem_map.mp (h6M i hi)
          refine Or.inl (List.mem_map.mpr ⟨e, ?_, ?_⟩)
          · rw [List.mem_filter]
            refine ⟨he, ?_⟩
            rw [hei]
            exact decide_eq_true hi
          · rw [hei, ← hai]
        · exact Or.inr (List.mem_map.mpr ⟨ne, hne1, hane.symm⟩)
    refine foldl_erase_perm_append st.senseIdx addedIds _
      (List.perm_of_nodup_nodup_toFinset_eq hndMB hA2 ?_) ?_
    · ext a
      simp only [List.mem_toFinset]
      exact hmemiff a
    · rw [List.nodup_append]
      exact ⟨hndSeI, hA2, fun a ha hmem => hA3 a hmem ha⟩
  · intro f
    rw [remove_synset_lemmaIdx_eq stf2 sid hs2, hremoved,
        lookupD_foldl_lemmaRemoveId, hlook f]
    have hfm : ∀ (l : List Entry), ((l.map (fun e =>
        { e with senses := e.senses.filter (fun s => s.synset ≠ sid) })).filter
        (fun r => r.lem.writtenForm = f)).map Entry.id
        = (l.filter (fun r => r.lem.writtenForm = f)).map Entry.id := by
      intro l
      induction l with
      | nil => rfl
      | cons a l ihl =>
        rw [List.map_cons, List.filter_cons, List.filter_cons]
        by_cases hh : a.lem.writtenForm = f
        · rw [if_pos (by simpa using hh), if_pos (by simpa using hh),
              List.map_cons, List.map_cons, ihl]
        · rw [if_neg (by simpa using hh), if_neg (by simpa using hh), ihl]
    rw [hfm news1]
    refine filter_append_not_contains _ _ ?_
    intro i hi hmem
    rw [WF_lookupD st hwf f] at hi
    obtain ⟨e, he, hei⟩ := List.mem_map.mp hi
    obtain ⟨ne, hne1, hnei⟩ := List.mem_map.mp hmem
    exact h8n ne (List.mem_of_mem_filter hne1)
      (List.mem_map.mpr ⟨e, List.mem_of_mem_filter he, hei.trans hnei.symm⟩)

/-- C2 is false of the code as stated: on the empty document, creating a
synset for the single fresh word "dog" and then removing that synset
leaves a residual empty binding `("dog", [])` in the surface-form index
(`lemmaRemoveId` filters the bucket but never deletes the key), so the
contents of all four indexes are not restored exactly. -/
theorem c2_counterexample :
    (match create_synset
        { entries := [], synsets := [], entryIdx := [],
          synsetIdx := [], senseIdx := [], lemmaIdx := [] }
        "n" none [] [] ["dog"] none "s1" ["e1"] with
     | .ok p => (remove_synset p.1 "s1").2.lemmaIdx
     | .error _ => []) = [("dog", [])] ∧
    [("dog", [])] ≠ ([] : List (String × List String)) := by
  constructor
  · decide
  · decide

/-- C2, amended: on a well-formed document in which no entry has an
empty sense list, `create_synset` followed by `remove_synset` on the
returned identifier (all generated identifiers fresh) restores the entry
sequence (hence the entry count, and every pre-existing entry with all
its other senses — only the newly added sense is stripped), the synset
sequence and count, and the three id-keyed indexes exactly; the
surface-form index is restored up to residual empty bindings: every
bucket's contents are restored, but keys introduced for the supplied
words survive with an empty bucket. -/
theorem c2_create_remove_restores (st : EditorState) (pos : String)
    (definition : Option String) (definitions examples words : List String)
    (ili : Option String) (sid : String) (entryIds : List String)
    (st2 : EditorState) (S : Synset)
    (hwf : WF st)
    (hp : pos ∈ PARTS_OF_SPEECH)
    (hfreshS : sid ∉ st.synsets.map Synset.id)
    (hnt : ∀ e ∈ st.entries, ∀ s ∈ e.senses, s.synset ≠ sid)
    (hsf : ∀ e ∈ st.entries, e.id ++ "-" ++ sid ∉ st.senseIdx)
    (hne : ∀ e ∈ st.entries, e.senses ≠ [])
    (heids1 : entryIds.Nodup)
    (heids2 : ∀ eid ∈ entryIds, eid ∉ st.entries.map Entry.id)
    (heids3 : ∀ eid ∈ entryIds, eid ++ "-" ++ sid ∉ st.senseIdx)
    (hok : create_synset st pos definition definitions examples words ili sid
        entryIds = .ok (st2, S)) :
    (remove_synset st2 sid).1 = none ∧
    (remove_synset st2 sid).2.entries = st.entries ∧
    (remove_synset st2 sid).2.entries.length = st.entries.length ∧
    (remove_synset st2 sid).2.synsets = st.synsets ∧
    (remove_synset st2 sid).2.synsets.length = st.synsets.length ∧
    (remove_synset st2 sid).2.entryIdx = st.entryIdx ∧
    (remove_synset st2 sid).2.synsetIdx = st.synsetIdx ∧
    (remove_synset st2 sid).2.senseIdx = st.senseIdx ∧
    (∀ f, lookupD (remove_synset st2 sid).2.lemmaIdx f
      = lookupD st.lemmaIdx f) := by
  obtain ⟨ha, hb, hc, hd, he, hf, hg⟩ := create_remove_roundtrip st pos
    definition definitions examples words ili sid entryIds st2 S hwf hp
    hfreshS hnt hsf hne heids1 heids2 heids3 hok
  exact ⟨ha, hb, by rw [hb], hc, by rw [hc], hd, he, hf, hg⟩

/-- C2 amended-claim instance: a one-entry, one-synset document; the
round trip through a new synset for the fresh word "dog" restores the
entries and the sense index exactly. -/
theorem c2_create_remove_restores_witness :
    (remove_synset
        { entries := [{ id := "e0",
                        lem := { writtenForm := "cat", partOfSpeech := "n" },
                        senses := [{ id := "e0-s0", synset := "s0",
                                     relations := [] }] },
                      { id := "e1",
                        lem := { writtenForm := "dog", partOfSpeech := "n" },
                        senses := [{ id := "e1-s1", synset := "s1",
                                     relations := [] }] }],
          synsets := [{ id := "s0", partOfSpeech := "n", ili := "",
                        definitions := [], examples := [], relations := [] },
                      { id := "s1", partOfSpeech := "n", ili := "",
                        definitions := [], examples := [], relations := [] }],
          entryIdx := ["e0", "e1"], synsetIdx := ["s0", "s1"],
          senseIdx := ["e0-s0", "e1-s1"],
          lemmaIdx := [("cat", ["e0"]), ("dog", ["e1"])] } "s1").2.entries
      = [{ id := "e0", lem := { writtenForm := "cat", partOfSpeech := "n" },
           senses := [{ id := "e0-s0", synset := "s0", relations := [] }] }] ∧
    (remove_synset
        { entries := [{ id := "e0",
                        lem := { writtenForm := "cat", partOfSpeech := "n" },
                        senses := [{ id := "e0-s0", synset := "s0",
                                     relations := [] }] },
                      { id := "e1",
                        lem := { writtenForm := "dog", partOfSpeech := "n" },
                        senses := [{ id := "e1-s1", synset := "s1",
                                     relations := [] }] }],
          synsets := [{ id := "s0", partOfSpeech := "n", ili := "",
                        definitions := [], examples := [], relations := [] },
                      { id := "s1", partOfSpeech := "n", ili := "",
                        definitions := [], examples := [], relations := [] }],
          entryIdx := ["e0", "e1"], synsetIdx := ["s0", "s1"],
          senseIdx := ["e0-s0", "e1-s1"],
          lemmaIdx := [("cat", ["e0"]), ("dog", ["e1"])] } "s1").2.senseIdx
      = ["e0-s0"] := by
  have h := c2_create_remove_restores
    { entries := [{ id := "e0",
                    lem := { writtenForm := "cat", partOfSpeech := "n" },
                    senses := [{ id := "e0-s0", synset := "s0",
                                 relations := [] }] }],
      synsets := [{ id := "s0", partOfSpeech := "n", ili := "",
                    definitions := [], examples := [], relations := [] }],
      entryIdx := ["e0"], synsetIdx := ["s0"], senseIdx := ["e0-s0"],
      lemmaIdx := [("cat", ["e0"])] }
    "n" none [] [] ["dog"] none "s1" ["e1"]
    { entries := [{ id := "e0",
                    lem := { writtenForm := "cat", partOfSpeech := "n" },
                    senses := [{ id := "e0-s0", synset := "s0",
                                 relations := [] }] },
                  { id := "e1",
                    lem := { writtenForm := "dog", partOfSpeech := "n" },
                    senses := [{ id := "e1-s1", synset := "s1",
                                 relations := [] }] }],
      synsets := [{ id := "s0", partOfSpeech := "n", ili := "",
                    definitions := [], examples := [], relations := [] },
                  { id := "s1", partOfSpeech := "n", ili := "",
                    definitions := [], examples := [], relations := [] }],
      entryIdx := ["e0", "e1"], synsetIdx := ["s0", "s1"],
      senseIdx := ["e0-s0", "e1-s1"],
      lemmaIdx := [("cat", ["e0"]), ("dog", ["e1"])] }
    { id := "s1", partOfSpeech := "n", ili := "", definitions := [],
      examples := [], relations := [] }
    (by decide) (by decide) (by decide) (by decide) (by decide) (by decide)
    (by decide) (by decide) (by decide) (by rfl)
  exact ⟨h.2.1, h.2.2.2.2.2.2.2.1⟩

theorem lookupD_of_mem_nodup (ix : List (String × List String))
    (hnd : (ix.map Prod.fst).Nodup) (p : String × List String) (hp : p ∈ ix) :
    lookupD ix p.1 = p.2 := by
  induction ix with
  | nil => cases hp
  | cons q rest ih =>
    rw [List.map_cons, List.nodup_cons] at hnd
    rw [lookupD_cons]
    rcases List.mem_cons.mp hp with rfl | hp
    · rw [if_pos rfl]
    · have hne : ¬ q.1 = p.1 := by
        intro hq
        exact hnd.1 (hq ▸ List.mem_map.mpr ⟨p, hp, rfl⟩)
      rw [if_neg hne]
      exact ih hnd.2 hp

theorem foldl_lemmaRemoveId_keys (rs : List Entry) :
    ∀ ix : List (String × List String),
      (rs.foldl (fun ix r => lemmaRemoveId ix r.lem.writtenForm r.id) ix).map
        Prod.fst = ix.map Prod.fst := by
  induction rs with
  | nil => intro ix; rfl
  | cons r rest ih =>
    intro ix
    rw [List.foldl_cons, ih, lemmaRemoveId_keys]

theorem flatMap_sublist_of (l : List Entry) (f g : Entry → List Sense)
    (h : ∀ x ∈ l, (f x).Sublist (g x)) :
    (l.flatMap f).Sublist (l.flatMap g) := by
  induction l with
  | nil => exact List.Sublist.refl _
  | cons a l ih =>
    rw [List.flatMap_cons, List.flatMap_cons]
    exact List.Sublist.append (h a (List.mem_cons_self a l))
      (ih (fun x hx => h x (List.mem_cons.mpr (Or.inr hx))))

theorem flatMap_sublist (l1 l2 : List Entry) (f : Entry → List Sense)
    (h : l1.Sublist l2) : (l1.flatMap f).Sublist (l2.flatMap f) := by
  induction h with
  | slnil => exact List.Sublist.refl _
  | cons a h ih =>
    rw [List.flatMap_cons]
    exact ih.trans (List.sublist_append_right _ _)
  | cons₂ a h ih =>
    rw [List.flatMap_cons, List.flatMap_cons]
    exact List.Sublist.append (List.Sublist.refl _) ih

theorem flatMap_map_senses (l : List Entry) (h : Sense → Sense) :
    (l.map (fun e => { e with senses := e.senses.map h })).flatMap Entry.senses
      = (l.flatMap Entry.senses).map h := by
  induction l with
  | nil => rfl
  | cons a l ih =>
    rw [List.map_cons, List.flatMap_cons, List.flatMap_cons, List.map_append,
        ih]

theorem flatMap_upd_perm (l : List Entry) (eid : String) (ns : Sense)
    (hnd : (l.map Entry.id).Nodup) :
    ((l.map (fun e1 => if e1.id = eid then
        { e1 with senses := e1.senses ++ [ns] } else e1)).flatMap
      Entry.senses).Perm
      (if eid ∈ l.map Entry.id then l.flatMap Entry.senses ++ [ns]
       else l.flatMap Entry.senses) := by
  induction l with
  | nil => simp
  | cons a l ih =>
    rw [List.map_cons, List.nodup_cons] at hnd
    simp only [List.map_cons, List.flatMap_cons]
    by_cases hh : a.id = eid
    · rw [if_pos hh]
      have hlid : l.map (fun e1 : Entry => if e1.id = eid then
          { e1 with senses := e1.senses ++ [ns] } else e1) = l := by
        have h1 : ∀ e ∈ l, (fun e1 : Entry => if e1.id = eid then
            { e1 with senses := e1.senses ++ [ns] } else e1) e
            = (fun x : Entry => x) e := by
          intro e hel
          have hne : ¬ e.id = eid := by
            intro hc
            refine hnd.1 ?_
            rw [hh, ← hc]
            exact List.mem_map.mpr ⟨e, hel, rfl⟩
          simp [hne]
        rw [List.map_congr_left h1, List.map_id']
      rw [hlid]
      have hmem : eid ∈ a.id :: l.map Entry.id := List.mem_cons.mpr
        (Or.inl hh.symm)
      rw [if_pos hmem]
      show List.Perm ((a.senses ++ [ns]) ++ l.flatMap Entry.senses)
        ((a.senses ++ l.flatMap Entry.senses) ++ [ns])
      simp only [List.append_assoc]
      exact List.Perm.append_left _ List.perm_append_comm
    · rw [if_neg hh]
      by_cases hmem : eid ∈ l.map Entry.id
      · have hc : eid ∈ a.id :: l.map Entry.id := List.mem_cons.mpr (Or.inr hmem)
        rw [if_pos hc]
        have hperm := ih hnd.2
        rw [if_pos hmem] at hperm
        refine (List.Perm.append_left a.senses hperm).trans ?_
        simp only [List.append_assoc]
        exact List.Perm.refl _
      · have hc : ¬ eid ∈ a.id :: l.map Entry.id := by
          intro hcc
          rcases List.mem_cons.mp hcc with hcc | hcc
          · exact hh hcc.symm
          · exact hmem hcc
        rw [if_neg hc]
        have hperm := ih hnd.2
        rw [if_neg hmem] at hperm
        exact List.Perm.append_left a.senses hperm

theorem WF_map_synsets (st : EditorState) (g : Synset → Synset)
    (hg : ∀ s, (g s).id = s.id) (hwf : WF st) :
    WF { st with synsets := st.synsets.map g } := by
  obtain ⟨⟨hndE, hndS, hndSe⟩, hndEI, hEmem, hEcov, hndSI, hSmem, hScov,
    hndSeI, hSeMem, hSeCov, hndL, hLval, hLcov⟩ := hwf
  have hids : (st.synsets.map g).map Synset.id = st.synsets.map Synset.id := by
    rw [List.map_map]
    exact List.map_congr_left (fun s _ => hg s)
  refine ⟨⟨hndE, ?_, hndSe⟩, hndEI, hEmem, hEcov, hndSI, ?_, ?_, hndSeI,
    hSeMem, hSeCov, hndL, hLval, hLcov⟩
  · show ((st.synsets.map g).map Synset.id).Nodup
    rw [hids]
    exact hndS
  · intro i hi
    show i ∈ (st.synsets.map g).map Synset.id
    rw [hids]
    exact hSmem i hi
  · intro s hs
    obtain ⟨s0, hs0, hgs⟩ := List.mem_map.mp hs
    show s.id ∈ st.synsetIdx
    rw [← hgs, hg s0]
    exact hScov s0 hs0

theorem WF_updateSynset (st : EditorState) (sid : String) (f : Synset → Synset)
    (hf : ∀ s, (f s).id = s.id) (hwf : WF st) : WF (updateSynset st sid f) :=
  WF_map_synsets st _ (fun s => by
    show (if s.id = sid then f s else s).id = s.id
    by_cases hh : s.id = sid
    · rw [if_pos hh]
      exact hf s
    · rw [if_neg hh]) hwf

theorem WF_modify_synset (st : EditorState) (sid : String) (d : Option String)
    (ds exs : List String) (ili : Option String) (hwf : WF st) :
    WF (modify_synset st sid d ds exs ili).2 := by
  by_cases hc : sid ∈ st.synsetIdx
  · cases d <;> cases ili <;> cases hds : ds.isEmpty <;>
      cases hexs : exs.isEmpty <;>
      · simp only [modify_synset, if_neg (by simp [List.elem_iff, hc] :
          ¬ (!(st.synsetIdx.contains sid)) = true), hds, hexs,
          Bool.false_eq_true, if_false, if_true]
        repeat'
          first
          | exact hwf
          | refine WF_updateSynset _ _ _ (fun s => rfl) ?_
  · rw [modify_synset_absent st sid d ds exs ili hc]
    exact hwf

theorem WF_add_synset_relation (vocab : List String) (st : EditorState)
    (src tgt rty : String) (v : Bool) (hwf : WF st) :
    WF (add_synset_relation vocab st src tgt rty v).2.2 := by
  by_cases hc : src ∈ st.synsetIdx
  · unfold add_synset_relation
    rw [if_neg (by simp [List.elem_iff, hc])]
    exact WF_updateSynset _ _ _ (fun s => rfl) hwf
  · rw [add_synset_relation_absent vocab st src tgt rty v hc]
    exact hwf

theorem filter_map_id_of_preserve (l : List Entry) (g : Entry → Entry)
    (hgid : ∀ e, (g e).id = e.id) (hgf : ∀ e, (g e).lem = e.lem) (k : String) :
    ((l.map g).filter (fun e => e.lem.writtenForm = k)).map Entry.id
      = (l.filter (fun e => e.lem.writtenForm = k)).map Entry.id := by
  induction l with
  | nil => rfl
  | cons a l ih =>
    rw [List.map_cons, List.filter_cons, List.filter_cons]
    by_cases hh : a.lem.writtenForm = k
    · rw [if_pos (by simp [hgf a, hh]), if_pos (by simpa using hh),
          List.map_cons, List.map_cons, ih, hgid a]
    · rw [if_neg (by simp [hgf a, hh]), if_neg (by simpa using hh), ih]

/-- The surface-form index keeps exact bucket contents after
`lemmaAppend` registers the fresh entry `E` (form `w`, id `eid`). -/
theorem lemmaAppend_mirror (st : EditorState) (hwf : WF st) (w eid : String)
    (E : Entry) (hEw : E.lem.writtenForm = w) (hEid : E.id = eid) :
    ∀ pr ∈ lemmaAppend st.lemmaIdx w eid,
      pr.2 = ((st.entries ++ [E]).filter
        (fun e => e.lem.writtenForm = pr.1)).map Entry.id := by
  obtain ⟨⟨-, -, -⟩, -, -, -, -, -, -, -, -, -, -, hLval, hLcov⟩ := hwf
  intro pr hpr
  unfold lemmaAppend at hpr
  by_cases hc : containsKey st.lemmaIdx w = true
  · rw [if_pos hc] at hpr
    obtain ⟨p0, hp0, hupd⟩ := List.mem_map.mp hpr
    by_cases hpw : p0.1 = w
    · rw [if_pos hpw] at hupd
      have h1 : pr.1 = p0.1 := by rw [← hupd]
      have h2 : pr.2 = p0.2 ++ [eid] := by rw [← hupd]
      rw [h2, hLval p0 hp0, h1, hpw, List.filter_append]
      simp [hEw, hEid]
    · rw [if_neg hpw] at hupd
      rw [← hupd, hLval p0 hp0, List.filter_append]
      have hEf : ([E] : List Entry).filter
          (fun e => e.lem.writtenForm = p0.1) = [] := by
        rw [List.filter_eq_nil_iff]
        intro x hx
        rw [List.mem_singleton] at hx
        rw [hx]
        simp only [hEw, decide_eq_true_eq]
        exact fun hcc => hpw hcc.symm
      rw [hEf]
      simp
  · rw [if_neg hc] at hpr
    rcases List.mem_append.mp hpr with hpr | hpr
    · have hprw : pr.1 ≠ w := by
        intro hcc
        refine hc ?_
        rw [containsKey_iff]
        exact hcc ▸ List.mem_map.mpr ⟨pr, hpr, rfl⟩
      rw [List.filter_append]
      have hEf : ([E] : List Entry).filter
          (fun e => e.lem.writtenForm = pr.1) = [] := by
        rw [List.filter_eq_nil_iff]
        intro x hx
        rw [List.mem_singleton] at hx
        rw [hx]
        simp only [hEw, decide_eq_true_eq]
        exact fun hcc => hprw hcc.symm
      rw [hEf, hLval pr hpr]
      simp
    · rw [List.mem_singleton] at hpr
      subst hpr
      show [eid] = ((st.entries ++ [E]).filter
        (fun e => e.lem.writtenForm = w)).map Entry.id
      have hstf : st.entries.filter (fun e => e.lem.writtenForm = w) = [] := by
        rw [List.filter_eq_nil_iff]
        intro e he
        simp only [decide_eq_true_eq]
        intro hcc
        refine hc ?_
        rw [containsKey_iff]
        exact hcc ▸ hLcov e he
      rw [List.filter_append, hstf]
      simp [hEw, hEid]

/-- Appending a fresh entry (as `create_entry` does, and as the
creation branch of `add_word_to_synset` does together with its one new
sense) preserves well-formedness. -/
theorem WF_append_entry (st : EditorState) (E : Entry) (six : List String)
    (hwf : WF st) (heid : E.id ∉ st.entries.map Entry.id)
    (hsix : six = st.senseIdx ++ E.senses.map Sense.id)
    (hsen : ∀ s ∈ E.senses, s.id ∉ st.senseIdx)
    (hsnd : (E.senses.map Sense.id).Nodup) :
    WF { st with
      entries := st.entries ++ [E],
      entryIdx := keyInsert st.entryIdx E.id,
      senseIdx := six,
      lemmaIdx := lemmaAppend st.lemmaIdx E.lem.writtenForm E.id } := by
  have hwf0 := hwf
  obtain ⟨⟨hndE, hndS, hndSe⟩, hndEI, hEmem, hEcov, hndSI, hSmem, hScov,
    hndSeI, hSeMem, hSeCov, hndL, hLval, hLcov⟩ := hwf0
  subst hsix
  have heidI : E.id ∉ st.entryIdx := fun h => heid (hEmem E.id h)
  have hAS : (st.entries ++ [E]).flatMap Entry.senses
      = st.entries.flatMap Entry.senses ++ E.senses := by
    rw [List.flatMap_append]
    simp
  have hsid2 : ∀ i ∈ E.senses.map Sense.id, i ∉ st.senseIdx := by
    intro i hi
    obtain ⟨s, hs, hsi⟩ := List.mem_map.mp hi
    rw [← hsi]
    exact hsen s hs
  have hallsub : ∀ i ∈ (st.entries.flatMap Entry.senses).map Sense.id,
      i ∈ st.senseIdx := by
    intro i hi
    obtain ⟨s, hs, hsi⟩ := List.mem_map.mp hi
    rw [← hsi]
    exact hSeCov s hs
  refine ⟨⟨?_, hndS, ?_⟩, ?_, ?_, ?_, hndSI, hSmem, hScov, ?_, ?_, ?_, ?_,
    ?_, ?_⟩
  · show ((st.entries ++ [E]).map Entry.id).Nodup
    rw [List.map_append, List.nodup_append]
    refine ⟨hndE, by simp, ?_⟩
    intro a ha hae
    simp only [List.map_cons, List.map_nil, List.mem_singleton] at hae
    rw [hae] at ha
    exact heid ha
  · show (((st.entries ++ [E]).flatMap Entry.senses).map Sense.id).Nodup
    rw [hAS, List.map_append, List.nodup_append]
    refine ⟨hndSe, hsnd, ?_⟩
    intro a ha hae
    exact hsid2 a hae (hallsub a ha)
  · show (keyInsert st.entryIdx E.id).Nodup
    exact keyInsert_nodup _ _ hndEI
  · intro i hi
    replace hi : i ∈ keyInsert st.entryIdx E.id := hi
    rw [mem_keyInsert] at hi
    show i ∈ (st.entries ++ [E]).map Entry.id
    rw [List.map_append]
    rcases hi with hi | hi
    · exact List.mem_append.mpr (Or.inl (hEmem i hi))
    · refine List.mem_append.mpr (Or.inr ?_)
      rw [hi]
      simp
  · intro e he
    replace he : e ∈ st.entries ++ [E] := he
    show e.id ∈ keyInsert st.entryIdx E.id
    rw [mem_keyInsert]
    rcases List.mem_append.mp he with he | he
    · exact Or.inl (hEcov e he)
    · rw [List.mem_singleton] at he
      rw [he]
      exact Or.inr rfl
  · show (st.senseIdx ++ E.senses.map Sense.id).Nodup
    rw [List.nodup_append]
    exact ⟨hndSeI, hsnd, fun a ha hae => hsid2 a hae ha⟩
  · intro i hi
    replace hi : i ∈ st.senseIdx ++ E.senses.map Sense.id := hi
    show i ∈ ((st.entries ++ [E]).flatMap Entry.senses).map Sense.id
    rw [hAS, List.map_append]
    rcases List.mem_append.mp hi with hi | hi
    · exact List.mem_append.mpr (Or.inl (hSeMem i hi))
    · exact List.mem_append.mpr (Or.inr hi)
  · intro s hs
    replace hs : s ∈ (st.entries ++ [E]).flatMap Entry.senses := hs
    rw [hAS] at hs
    show s.id ∈ st.senseIdx ++ E.senses.map Sense.id
    rcases List.mem_append.mp hs with hs | hs
    · exact List.mem_append.mpr (Or.inl (hSeCov s hs))
    · exact List.mem_append.mpr (Or.inr (List.mem_map.mpr ⟨s, hs, rfl⟩))
  · show ((lemmaAppend st.lemmaIdx E.lem.writtenForm E.id).map Prod.fst).Nodup
    rw [lemmaAppend_keys]
    by_cases hck : containsKey st.lemmaIdx E.lem.writtenForm = true
    · rw [if_pos hck]
      exact hndL
    · rw [if_neg hck]
      rw [List.nodup_append]
      refine ⟨hndL, List.nodup_singleton _, ?_⟩
      intro a ha hae
      rw [List.mem_singleton] at hae
      rw [hae] at ha
      exact hck ((containsKey_iff _ _).mpr ha)
  · intro pr hpr
    replace hpr : pr ∈ lemmaAppend st.lemmaIdx E.lem.writtenForm E.id := hpr
    show pr.2 = ((st.entries ++ [E]).filter
      (fun e => e.lem.writtenForm = pr.1)).map Entry.id
    exact lemmaAppend_mirror st hwf E.lem.writtenForm E.id E rfl rfl pr hpr
  · intro e he
    replace he : e ∈ st.entries ++ [E] := he
    show e.lem.writtenForm ∈
      (lemmaAppend st.lemmaIdx E.lem.writtenForm E.id).map Prod.fst
    rw [lemmaAppend_keys]
    rcases List.mem_append.mp he with he | he
    · by_cases hck : containsKey st.lemmaIdx E.lem.writtenForm = true
      · rw [if_pos hck]
        exact hLcov e he
      · rw [if_neg hck]
        exact List.mem_append.mpr (Or.inl (hLcov e he))
    · rw [List.mem_singleton] at he
      rw [he]
      by_cases hck : containsKey st.lemmaIdx E.lem.writtenForm = true
      · rw [if_pos hck]
        exact (containsKey_iff _ _).mp hck
      · rw [if_neg hck]
        exact List.mem_append.mpr (Or.inr (List.mem_singleton.mpr rfl))

/-- Appending a fresh-id sense to an existing entry (as the found branch
of `add_word_to_synset` does) preserves well-formedness. -/
theorem WF_addSense_found (st : EditorState) (E : Entry) (sid : String)
    (hwf : WF st) (hE : E ∈ st.entries)
    (hnid : E.id ++ "-" ++ sid ∉ st.senseIdx) :
    WF { st with
      entries := st.entries.map (fun e1 => if e1.id = E.id then
        { e1 with senses :=
            e1.senses ++ [make_sense (E.id ++ "-" ++ sid) sid] } else e1),
      senseIdx := keyInsert st.senseIdx (E.id ++ "-" ++ sid) } := by
  have hwf0 := hwf
  obtain ⟨⟨hndE, hndS, hndSe⟩, hndEI, hEmem, hEcov, hndSI, hSmem, hScov,
    hndSeI, hSeMem, hSeCov, hndL, hLval, hLcov⟩ := hwf0
  have hKIs : keyInsert st.senseIdx (E.id ++ "-" ++ sid)
      = st.senseIdx ++ [E.id ++ "-" ++ sid] := keyInsert_of_not_mem _ _ hnid
  have hEidmem : E.id ∈ st.entries.map Entry.id := List.mem_map.mpr ⟨E, hE, rfl⟩
  have hperm := flatMap_upd_perm st.entries E.id
    (make_sense (E.id ++ "-" ++ sid) sid) hndE
  rw [if_pos hEidmem] at hperm
  have hpermIds := hperm.map Sense.id
  have hmsid : List.map Sense.id [make_sense (E.id ++ "-" ++ sid) sid]
      = [E.id ++ "-" ++ sid] := rfl
  rw [List.map_append, hmsid] at hpermIds
  have hgid : ∀ e : Entry, ((fun e1 : Entry => if e1.id = E.id then
      { e1 with senses :=
          e1.senses ++ [make_sense (E.id ++ "-" ++ sid) sid] } else e1) e).id
      = e.id := by
    intro e
    show (if e.id = E.id then
      { e with senses :=
          e.senses ++ [make_sense (E.id ++ "-" ++ sid) sid] } else e).id
      = e.id
    by_cases hh : e.id = E.id
    · rw [if_pos hh]
    · rw [if_neg hh]
  have hglem : ∀ e : Entry, ((fun e1 : Entry => if e1.id = E.id then
      { e1 with senses :=
          e1.senses ++ [make_sense (E.id ++ "-" ++ sid) sid] } else e1) e).lem
      = e.lem := by
    intro e
    show (if e.id = E.id then
      { e with senses :=
          e.senses ++ [make_sense (E.id ++ "-" ++ sid) sid] } else e).lem
      = e.lem
    by_cases hh : e.id = E.id
    · rw [if_pos hh]
    · rw [if_neg hh]
  have hids : (st.entries.map (fun e1 => if e1.id = E.id then
      { e1 with senses :=
          e1.senses ++ [make_sense (E.id ++ "-" ++ sid) sid] } else e1)).map
      Entry.id = st.entries.map Entry.id := by
    rw [List.map_map]
    exact List.map_congr_left (fun e _ => hgid e)
  have hnidAll : E.id ++ "-" ++ sid
      ∉ (st.entries.flatMap Entry.senses).map Sense.id := by
    intro hmem
    obtain ⟨s, hs, hsi⟩ := List.mem_map.mp hmem
    exact hnid (hsi ▸ hSeCov s hs)
  refine ⟨⟨?_, hndS, ?_⟩, hndEI, ?_, ?_, hndSI, hSmem, hScov, ?_, ?_, ?_,
    hndL, ?_, ?_⟩
  · show ((st.entries.map (fun e1 => if e1.id = E.id then
      { e1 with senses :=
          e1.senses ++ [make_sense (E.id ++ "-" ++ sid) sid] } else e1)).map
      Entry.id).Nodup
    rw [hids]
    exact hndE
  · show (((st.entries.map (fun e1 => if e1.id = E.id then
      { e1 with senses :=
          e1.senses ++ [make_sense (E.id ++ "-" ++ sid) sid] } else e1)).flatMap
      Entry.senses).map Sense.id).Nodup
    refine (List.Perm.nodup_iff hpermIds).mpr ?_
    rw [List.nodup_append]
    refine ⟨hndSe, List.nodup_singleton _, ?_⟩
    intro a ha hae
    rw [List.mem_singleton] at hae
    rw [hae] at ha
    exact hnidAll ha
  · intro i hi
    replace hi : i ∈ st.entryIdx := hi
    show i ∈ (st.entries.map (fun e1 => if e1.id = E.id then
      { e1 with senses :=
          e1.senses ++ [make_sense (E.id ++ "-" ++ sid) sid] } else e1)).map
      Entry.id
    rw [hids]
    exact hEmem i hi
  · intro e he
    replace he : e ∈ st.entries.map (fun e1 => if e1.id = E.id then
      { e1 with senses :=
          e1.senses ++ [make_sense (E.id ++ "-" ++ sid) sid] } else e1) := he
    obtain ⟨e0, he0, heq⟩ := List.mem_map.mp he
    show e.id ∈ st.entryIdx
    rw [← heq, hgid e0]
    exact hEcov e0 he0
  · show (keyInsert st.senseIdx (E.id ++ "-" ++ sid)).Nodup
    exact keyInsert_nodup _ _ hndSeI
  · intro i hi
    replace hi : i ∈ keyInsert st.senseIdx (E.id ++ "-" ++ sid) := hi
    rw [hKIs] at hi
    show i ∈ ((st.entries.map (fun e1 => if e1.id = E.id then
      { e1 with senses :=
          e1.senses ++ [make_sense (E.id ++ "-" ++ sid) sid] } else e1)).flatMap
      Entry.senses).map Sense.id
    rw [List.Perm.mem_iff hpermIds]
    rcases List.mem_append.mp hi with hi | hi
    · exact List.mem_append.mpr (Or.inl (hSeMem i hi))
    · exact List.mem_append.mpr (Or.inr hi)
  · intro s hs
    replace hs : s ∈ (st.entries.map (fun e1 => if e1.id = E.id then
      { e1 with senses :=
          e1.senses ++ [make_sense (E.id ++ "-" ++ sid) sid] } else e1)).flatMap
      Entry.senses := hs
    have hs2 := (List.Perm.mem_iff hperm).mp hs
    show s.id ∈ keyInsert st.senseIdx (E.id ++ "-" ++ sid)
    rw [hKIs]
    rcases List.mem_append.mp hs2 with hs2 | hs2
    · exact List.mem_append.mpr (Or.inl (hSeCov s hs2))
    · rw [List.mem_singleton] at hs2
      refine List.mem_append.mpr (Or.inr ?_)
      rw [hs2]
      exact List.mem_singleton.mpr rfl
  · intro pr hpr
    replace hpr : pr ∈ st.lemmaIdx := hpr
    show pr.2 = ((st.entries.map (fun e1 => if e1.id = E.id then
      { e1 with senses :=
          e1.senses ++ [make_sense (E.id ++ "-" ++ sid) sid] } else e1)).filter
      (fun e => e.lem.writtenForm = pr.1)).map Entry.id
    rw [filter_map_id_of_preserve st.entries _ hgid hglem pr.1]
    exact hLval pr hpr
  · intro e he
    replace he : e ∈ st.entries.map (fun e1 => if e1.id = E.id then
      { e1 with senses :=
          e1.senses ++ [make_sense (E.id ++ "-" ++ sid) sid] } else e1) := he
    obtain ⟨e0, he0, heq⟩ := List.mem_map.mp he
    show e.lem.writtenForm ∈ st.lemmaIdx.map Prod.fst
    rw [← heq, hglem e0]
    exact hLcov e0 he0

/-- An id-preserving in-place rewrite of every sense (as
`add_sense_relation` performs through `updateSense`) preserves
well-formedness. -/
theorem WF_map_senses (st : EditorState) (h : Sense → Sense)
    (hid : ∀ s, (h s).id = s.id) (hwf : WF st) :
    WF { st with entries := st.entries.map (fun e =>
      { e with senses := e.senses.map h }) } := by
  obtain ⟨⟨hndE, hndS, hndSe⟩, hndEI, hEmem, hEcov, hndSI, hSmem, hScov,
    hndSeI, hSeMem, hSeCov, hndL, hLval, hLcov⟩ := hwf
  have hgid : ∀ e : Entry,
      ((fun e : Entry => { e with senses := e.senses.map h }) e).id = e.id :=
    fun e => rfl
  have hglem : ∀ e : Entry,
      ((fun e : Entry => { e with senses := e.senses.map h }) e).lem = e.lem :=
    fun e => rfl
  have hids : (st.entries.map (fun e =>
      { e with senses := e.senses.map h })).map Entry.id
      = st.entries.map Entry.id := by
    rw [List.map_map]
    exact List.map_congr_left (fun e _ => rfl)
  have hASids : ((st.entries.map (fun e =>
      { e with senses := e.senses.map h })).flatMap Entry.senses).map Sense.id
      = (st.entries.flatMap Entry.senses).map Sense.id := by
    rw [flatMap_map_senses, List.map_map]
    exact List.map_congr_left (fun s _ => hid s)
  refine ⟨⟨?_, hndS, ?_⟩, hndEI, ?_, ?_, hndSI, hSmem, hScov, hndSeI, ?_, ?_,
    hndL, ?_, ?_⟩
  · show ((st.entries.map (fun e =>
      { e with senses := e.senses.map h })).map Entry.id).Nodup
    rw [hids]
    exact hndE
  · show (((st.entries.map (fun e =>
      { e with senses := e.senses.map h })).flatMap Entry.senses).map
      Sense.id).Nodup
    rw [hASids]
    exact hndSe
  · intro i hi
    replace hi : i ∈ st.entryIdx := hi
    show i ∈ (st.entries.map (fun e =>
      { e with senses := e.senses.map h })).map Entry.id
    rw [hids]
    exact hEmem i hi
  · intro e he
    replace he : e ∈ st.entries.map (fun e =>
      { e with senses := e.senses.map h }) := he
    obtain ⟨e0, he0, heq⟩ := List.mem_map.mp he
    show e.id ∈ st.entryIdx
    rw [← heq]
    exact hEcov e0 he0
  · intro i hi
    replace hi : i ∈ st.senseIdx := hi
    show i ∈ ((st.entries.map (fun e =>
      { e with senses := e.senses.map h })).flatMap Entry.senses).map Sense.id
    rw [hASids]
    exact hSeMem i hi
  · intro s hs
    replace hs : s ∈ (st.entries.map (fun e =>
      { e with senses := e.senses.map h })).flatMap Entry.senses := hs
    rw [flatMap_map_senses] at hs
    obtain ⟨s0, hs0, hseq⟩ := List.mem_map.mp hs
    show s.id ∈ st.senseIdx
    rw [← hseq, hid s0]
    exact hSeCov s0 hs0
  · intro pr hpr
    replace hpr : pr ∈ st.lemmaIdx := hpr
    show pr.2 = ((st.entries.map (fun e =>
      { e with senses := e.senses.map h })).filter
      (fun e => e.lem.writtenForm = pr.1)).map Entry.id
    rw [filter_map_id_of_preserve st.entries _ hgid hglem pr.1]
    exact hLval pr hpr
  · intro e he
    replace he : e ∈ st.entries.map (fun e =>
      { e with senses := e.senses.map h }) := he
    obtain ⟨e0, he0, heq⟩ := List.mem_map.mp he
    show e.lem.writtenForm ∈ st.lemmaIdx.map Prod.fst
    rw [← heq]
    exact hLcov e0 he0

theorem WF_add_sense_relation (vocab : List String) (st : EditorState)
    (src tgt rty : String) (v : Bool) (hwf : WF st) :
    WF (add_sense_relation vocab st src tgt rty v).2.2 := by
  by_cases hc : src ∈ st.senseIdx
  · unfold add_sense_relation
    rw [if_neg (by simp [List.elem_iff, hc])]
    exact WF_map_senses st
      (fun s => if s.id = src then
        { s with relations := s.relations ++
            [(make_relation tgt rty v vocab).1] } else s)
      (fun s => by
        show (if s.id = src then
          { s with relations := s.relations ++
              [(make_relation tgt rty v vocab).1] } else s).id = s.id
        by_cases hh : s.id = src
        · rw [if_pos hh]
        · rw [if_neg hh]) hwf
  · rw [add_sense_relation_absent vocab st src tgt rty v hc]
    exact hwf

theorem mem_of_head?_eq (l : List Entry) (a : Entry) (h : l.head? = some a) :
    a ∈ l := by
  cases l with
  | nil => cases h
  | cons x xs =>
    injection h with h2
    rw [← h2]
    exact List.mem_cons_self x xs

/-- One `add_word_to_synset` call preserves well-formedness, given that
the generated identifiers are fresh for the current state. -/
theorem WF_add_word (st : EditorState) (sid w : String) (pos : Option String)
    (eid : String) (hwf : WF st)
    (heid : eid ∉ st.entries.map Entry.id)
    (hes : eid ++ "-" ++ sid ∉ st.senseIdx)
    (hcond : ∀ e ∈ st.entries, (∀ s ∈ e.senses, s.synset ≠ sid) →
      e.id ++ "-" ++ sid ∉ st.senseIdx) :
    WF (add_word_to_synset st sid w pos eid).2 := by
  by_cases hsx : sid ∈ st.synsetIdx
  · cases hfind : (find_entries st w (some (resolvePos st sid pos))).head? with
    | some E =>
      have hEst : E ∈ st.entries :=
        find_entries_subset st w _ E (mem_of_head?_eq _ E hfind)
      rw [add_word_to_synset_found st sid w pos eid hsx E hfind]
      cases hhas : E.senses.any (fun s => s.synset = sid) with
      | true =>
        rw [addSenseIfMissing_of_has st E sid hhas]
        exact hwf
      | false =>
        rw [addSenseIfMissing_of_not_has st E sid hhas]
        refine WF_addSense_found st E sid hwf hEst ?_
        refine hcond E hEst ?_
        intro s hs
        have hns := List.any_eq_false.mp hhas s hs
        simpa using hns
    | none =>
      by_cases hp : resolvePos st sid pos ∈ PARTS_OF_SPEECH
      · rw [add_word_to_synset_create st sid w pos eid hsx hfind hp,
            addSense_on_fresh_entry st sid w (resolvePos st sid pos) eid heid]
        refine WF_append_entry st
          { id := eid,
            lem := { writtenForm := w, partOfSpeech := resolvePos st sid pos },
            senses := [make_sense (eid ++ "-" ++ sid) sid] }
          (keyInsert st.senseIdx (eid ++ "-" ++ sid)) hwf heid
          (keyInsert_of_not_mem _ _ hes) ?_ ?_
        · intro s hs
          replace hs : s ∈ [make_sense (eid ++ "-" ++ sid) sid] := hs
          rw [List.mem_singleton] at hs
          rw [hs]
          exact hes
        · exact List.nodup_singleton _
      · rw [add_word_to_synset_create_invalid st sid w pos eid hsx hfind hp]
        exact hwf
  · rw [add_word_to_synset_absent st sid w pos eid hsx]
    exact hwf

/-- The word loop of `create_synset` preserves well-formedness along the
trace invariant. -/
theorem add_word_fold_wf (base : EditorState) (sid p : String)
    (hwfB : WF base)
    (hnt : ∀ e ∈ base.entries, ∀ s ∈ e.senses, s.synset ≠ sid)
    (hsf : ∀ e ∈ base.entries, e.id ++ "-" ++ sid ∉ base.senseIdx)
    (hsidx : sid ∈ base.synsetIdx)
    (hp : p ∈ PARTS_OF_SPEECH)
    (pairs : List (String × String))
    (M : List String) (news : List Entry) (stc : EditorState)
    (ht : CreateTrace base sid p M news stc) (hwfc : WF stc)
    (hfreshB : ∀ q ∈ pairs, q.2 ∉ base.entries.map Entry.id)
    (hfreshS : ∀ q ∈ pairs, q.2 ++ "-" ++ sid ∉ base.senseIdx)
    (hfreshN : (pairs.map Prod.snd).Nodup)
    (hnewsP : ∀ ne ∈ news, ne.id ∉ pairs.map Prod.snd) :
    WF (pairs.foldl
      (fun s q => (add_word_to_synset s sid q.1 (some p) q.2).2) stc) := by
  induction pairs generalizing M news stc with
  | nil => exact hwfc
  | cons q rest ih =>
    have ht0 := ht
    have hids := CreateTrace_entries_ids base sid p M news stc ht
    obtain ⟨h1, h2, h3, h4, h5M, h6M, h7n, h8n, h9n,
      ⟨addedIds, hA1, hA2, hA3, hA4⟩, hlook, -, -, -⟩ := ht
    have hpos : resolvePos base sid (some p) = p :=
      resolvePos_some_of_ne base sid p (pos_mem_ne_empty p hp)
    have heB : q.2 ∉ base.entries.map Entry.id :=
      hfreshB q (List.mem_cons_self q rest)
    have hesB : q.2 ++ "-" ++ sid ∉ base.senseIdx :=
      hfreshS q (List.mem_cons_self q rest)
    have heN : q.2 ∉ news.map Entry.id := by
      intro hmem
      obtain ⟨ne, hne, hid⟩ := List.mem_map.mp hmem
      refine hnewsP ne hne ?_
      rw [List.map_cons]
      exact List.mem_cons.mpr (Or.inl hid)
    have heid1 : q.2 ∉ stc.entries.map Entry.id := by
      rw [hids]
      intro hmem
      rcases List.mem_append.mp hmem with hmem | hmem
      · exact heB hmem
      · exact heN hmem
    have hes1 : q.2 ++ "-" ++ sid ∉ stc.senseIdx := by
      rw [hA1]
      intro hmem
      rcases List.mem_append.mp hmem with hmem | hmem
      · exact hesB hmem
      · rcases (hA4 _).mp hmem with ⟨i, hi, heq⟩ | ⟨ne, hne, heq⟩
        · exact heB (string_suffix_cancel q.2 i sid heq ▸ h6M i hi)
        · exact heN (string_suffix_cancel q.2 ne.id sid heq ▸
            List.mem_map.mpr ⟨ne, hne, rfl⟩)
    have hcond1 : ∀ e ∈ stc.entries, (∀ s ∈ e.senses, s.synset ≠ sid) →
        e.id ++ "-" ++ sid ∉ stc.senseIdx := by
      intro e he hens
      rw [h3] at he
      rcases List.mem_append.mp he with he | he
      · obtain ⟨b, hb, hbe⟩ := List.mem_map.mp he
        by_cases hbM : b.id ∈ M
        · exfalso
          have hms : make_sense (b.id ++ "-" ++ sid) sid ∈ e.senses := by
            rw [← hbe, if_pos hbM]
            show make_sense (b.id ++ "-" ++ sid) sid ∈
              b.senses ++ [make_sense (b.id ++ "-" ++ sid) sid]
            exact List.mem_append.mpr (Or.inr (List.mem_singleton.mpr rfl))
          exact hens _ hms rfl
        · have hbe2 : e = b := by rw [← hbe, if_neg hbM]
          rw [hbe2, hA1]
          intro hmem
          rcases List.mem_append.mp hmem with hmem | hmem
          · exact hsf b hb hmem
          · rcases (hA4 _).mp hmem with ⟨i, hi, heq⟩ | ⟨ne, hne, heq⟩
            · exact hbM (string_suffix_cancel b.id i sid heq ▸ hi)
            · exact h8n ne hne (string_suffix_cancel b.id ne.id sid heq ▸
                List.mem_map.mpr ⟨b, hb, rfl⟩)
      · exfalso
        refine hens (make_sense (e.id ++ "-" ++ sid) sid) ?_ rfl
        rw [(h9n e he).2]
        exact List.mem_singleton.mpr rfl
    have hwf1 : WF (add_word_to_synset stc sid q.1 (some p) q.2).2 :=
      WF_add_word stc sid q.1 (some p) q.2 hwfc heid1 hes1 hcond1
    obtain ⟨M1, news1, ht1, -, -, -, -, hnews1snd⟩ :=
      add_word_trace_step base sid p hwfB hnt hsf hsidx M news stc ht0
        q.1 (some p) hpos hp q.2 heB heN hesB
    have hnewsP1 : ∀ ne ∈ news1, ne.id ∉ rest.map Prod.snd := by
      intro ne hne hmem
      rcases hnews1snd ne hne with hne1 | hid
      · refine hnewsP ne hne1 ?_
        rw [List.map_cons]
        exact List.mem_cons.mpr (Or.inr hmem)
      · rw [hid] at hmem
        have hnd := hfreshN
        rw [List.map_cons] at hnd
        exact (List.nodup_cons.mp hnd).1 hmem
    rw [List.foldl_cons]
    exact ih M1 news1 _ ht1 hwf1
      (fun q1 hq1 => hfreshB q1 (List.mem_cons.mpr (Or.inr hq1)))
      (fun q1 hq1 => hfreshS q1 (List.mem_cons.mpr (Or.inr hq1)))
      (by
        have hnd := hfreshN
        rw [List.map_cons] at hnd
        exact (List.nodup_cons.mp hnd).2)
      hnewsP1

theorem create_synset_invalid (st : EditorState) (pos : String)
    (definition : Option String) (definitions examples words : List String)
    (ili : Option String) (sid : String) (eids : List String)
    (hp : pos ∉ PARTS_OF_SPEECH) :
    create_synset st pos definition definitions examples words ili sid eids
      = .error (.invalidArgument "part of speech for synset") := by
  simp only [create_synset]
  have hms : make_synset sid pos ili
      ((match definition with
        | some d => [make_definition d]
        | none => []) ++ definitions.map make_definition)
      (examples.map make_example)
      = .error (.invalidArgument "part of speech for synset") := by
    unfold make_synset
    rw [if_neg hp]
  rw [hms]

/-- The state `create_synset` produces on the success path is
well-formed. -/
theorem WF_create_synset_ok (st : EditorState) (pos : String) (S : Synset)
    (words : List String) (eids : List String) (sid : String)
    (hwf : WF st) (hp : pos ∈ PARTS_OF_SPEECH)
    (hSid : S.id = sid)
    (hfS : sid ∉ st.synsets.map Synset.id)
    (hnt : ∀ e ∈ st.entries, ∀ s ∈ e.senses, s.synset ≠ sid)
    (hsf : ∀ e ∈ st.entries, e.id ++ "-" ++ sid ∉ st.senseIdx)
    (hnd : eids.Nodup)
    (hfB : ∀ eid ∈ eids, eid ∉ st.entries.map Entry.id)
    (hfsx : ∀ eid ∈ eids, eid ++ "-" ++ sid ∉ st.senseIdx) :
    WF ((words.zip eids).foldl
      (fun s q => (add_word_to_synset s sid q.1 (some pos) q.2).2)
      { st with synsets := st.synsets ++ [S],
                synsetIdx := keyInsert st.synsetIdx sid }) := by
  have hwf0 := hwf
  obtain ⟨⟨-, -, -⟩, -, -, -, -, hSmem, -, -, -, -, -, -, -⟩ := hwf0
  have hsid0 : sid ∉ st.synsetIdx := fun hmem => hfS (hSmem sid hmem)
  have hwfB : WF { st with
      synsets := st.synsets ++ [S],
      synsetIdx := keyInsert st.synsetIdx sid } := by
    have h := WF_add_fresh_synset st S hwf (by rw [hSid]; exact hfS)
    rw [hSid] at h
    exact h
  refine add_word_fold_wf _ sid pos hwfB hnt hsf ?_ hp (words.zip eids)
    [] [] _ (CreateTrace_init _ sid pos hwfB) hwfB
    (fun q hq => hfB q.2 (List.of_mem_zip hq).2)
    (fun q hq => hfsx q.2 (List.of_mem_zip hq).2)
    (List.Nodup.sublist (map_snd_zip_sublist words eids) hnd)
    (fun ne hne => absurd hne (List.not_mem_nil ne))
  show sid ∈ keyInsert st.synsetIdx sid
  rw [keyInsert_of_not_mem _ _ hsid0]
  exact List.mem_append.mpr (Or.inr (List.mem_singleton.mpr rfl))

theorem filter_map_strip (l : List Entry) (g : Entry → Entry)
    (hgid : ∀ e, (g e).id = e.id) (P : Entry → Bool) :
    ((l.map g).filter P).map Entry.id
      = (l.filter (fun e => P (g e))).map Entry.id := by
  induction l with
  | nil => rfl
  | cons a l ih =>
    simp only [List.map_cons, List.filter_cons]
    by_cases hp : P (g a) = true
    · rw [if_pos hp, List.map_cons, if_pos hp, List.map_cons, ih, hgid a]
    · rw [if_neg hp, if_neg hp, ih]

theorem flatMap_of_map (l : List Entry) (g : Entry → Entry)
    (f : Entry → List Sense) :
    (l.map g).flatMap f = l.flatMap (fun e => f (g e)) := by
  induction l with
  | nil => rfl
  | cons a l ih => rw [List.map_cons, List.flatMap_cons, List.flatMap_cons, ih]

/-- Filtering a bucket by "not one of the pruned ids" is the same as
keeping the entries the prune kept, provided `R` holds exactly the ids
of the bucket's pruned entries. -/
theorem filter_not_contains_eq (l : List Entry) (Q P : Entry → Bool)
    (R : List String)
    (hR : ∀ e ∈ l, (e.id ∈ R ↔ (Q e = true ∧ P e = false))) :
    ((l.filter Q).map Entry.id).filter (fun i => !(R.contains i))
      = (l.filter (fun e => Q e && P e)).map Entry.id := by
  induction l with
  | nil => rfl
  | cons a l ih =>
    have hRa := hR a (List.mem_cons_self a l)
    have hRl : ∀ e ∈ l, (e.id ∈ R ↔ (Q e = true ∧ P e = false)) :=
      fun e he => hR e (List.mem_cons.mpr (Or.inr he))
    simp only [List.filter_cons]
    by_cases hQ : Q a = true
    · rw [if_pos hQ]
      by_cases hP : P a = true
      · have hna : a.id ∉ R := by
          intro hmem
          have hPf := (hRa.mp hmem).2
          rw [hP] at hPf
          cases hPf
        have hQP : (Q a && P a) = true := by rw [hQ, hP]; rfl
        rw [if_pos hQP, List.map_cons, List.map_cons, List.filter_cons,
            if_pos (by simp [List.elem_iff, hna] :
              (!(R.contains a.id)) = true), ih hRl]
      · have hPf : P a = false := by
          cases hPP : P a with
          | true => exact absurd hPP hP
          | false => rfl
        have hmem : a.id ∈ R := hRa.mpr ⟨hQ, hPf⟩
        have hQP : (Q a && P a) = false := by rw [hPf, Bool.and_false]
        rw [if_neg (by rw [hQP]; exact Bool.false_ne_true), List.map_cons,
            List.filter_cons,
            if_neg (by simp [List.elem_iff, hmem] :
              ¬ (!(R.contains a.id)) = true)]
        exact ih hRl
    · have hQf : Q a = false := by
        cases hQQ : Q a with
        | true => exact absurd hQQ hQ
        | false => rfl
      have hQP : (Q a && P a) = false := by rw [hQf, Bool.false_and]
      rw [if_neg hQ, if_neg (by rw [hQP]; exact Bool.false_ne_true)]
      exact ih hRl

/-- `remove_synset` preserves well-formedness: the filtered sequences
and the incrementally popped indexes still mirror one another. -/
theorem WF_remove_synset (st : EditorState) (sid : String) (hwf : WF st) :
    WF (remove_synset st sid).2 := by
  by_cases hs : sid ∈ st.synsetIdx
  case neg => rw [remove_synset_absent st sid hs]; exact hwf
  case pos =>
  have hwf0 := hwf
  obtain ⟨⟨hndE, hndS, hndSe⟩, hndEI, hEmem, hEcov, hndSI, hSmem, hScov,
    hndSeI, hSeMem, hSeCov, hndL, hLval, hLcov⟩ := hwf0
  have hidsMS : ((st.entries.map (fun e =>
      { e with senses := e.senses.filter (fun s => s.synset ≠ sid) })).map
      Entry.id) = st.entries.map Entry.id := by
    rw [List.map_map]
    exact List.map_congr_left (fun e _ => rfl)
  have hRemChar : ∀ e ∈ st.entries,
      (e.id ∈ (((st.entries.map (fun e =>
        { e with senses := e.senses.filter (fun s => s.synset ≠ sid) })).filter
        (fun e => e.senses.isEmpty)).map Entry.id)
       ↔ (e.senses.filter (fun s => s.synset ≠ sid)).isEmpty = true) := by
    intro e he
    constructor
    · intro hmem
      obtain ⟨r, hr, hrid⟩ := List.mem_map.mp hmem
      obtain ⟨hr1, hr2⟩ := List.mem_filter.mp hr
      obtain ⟨e1, he1, hre⟩ := List.mem_map.mp hr1
      have he1e : e1 = e := List.inj_on_of_nodup_map hndE he1 he
        (by rw [← hrid, ← hre])
      rw [he1e] at hre
      rw [← hre] at hr2
      exact hr2
    · intro hie
      refine List.mem_map.mpr ⟨(fun e : Entry =>
        { e with senses := e.senses.filter (fun s => s.synset ≠ sid) }) e,
        ?_, rfl⟩
      exact List.mem_filter.mpr ⟨List.mem_map.mpr ⟨e, he, rfl⟩, hie⟩
  refine ⟨⟨?_, ?_, ?_⟩, ?_, ?_, ?_, ?_, ?_, ?_, ?_, ?_, ?_, ?_, ?_, ?_⟩
  · rw [remove_synset_entries_eq st sid hs]
    refine List.Nodup.sublist
      (List.Sublist.map Entry.id (List.filter_sublist _)) ?_
    rw [hidsMS]
    exact hndE
  · rw [remove_synset_synsets_eq st sid hs]
    exact List.Nodup.sublist
      (List.Sublist.map Synset.id (List.filter_sublist _)) hndS
  · show ((((remove_synset st sid).2.entries.flatMap Entry.senses)).map
      Sense.id).Nodup
    rw [remove_synset_entries_eq st sid hs]
    refine List.Nodup.sublist (List.Sublist.map Sense.id ?_) hndSe
    refine List.Sublist.trans
      (flatMap_sublist _ _ Entry.senses (List.filter_sublist _)) ?_
    rw [flatMap_of_map]
    exact flatMap_sublist_of st.entries _ _
      (fun e he => List.filter_sublist _)
  · rw [remove_synset_entryIdx_eq st sid hs, foldl_erase_entries]
    exact nodup_foldl_erase _ _ hndEI
  · intro i hi
    rw [remove_synset_entryIdx_eq st sid hs, foldl_erase_entries] at hi
    have hi2 := (mem_foldl_erase_iff _ _ i hndEI).mp hi
    obtain ⟨e, he, hei⟩ := List.mem_map.mp (hEmem i hi2.1)
    rw [remove_synset_entries_eq st sid hs]
    have hne : (e.senses.filter (fun s => s.synset ≠ sid)).isEmpty = false := by
      cases hb : (e.senses.filter (fun s => s.synset ≠ sid)).isEmpty with
      | false => rfl
      | true =>
        exfalso
        refine hi2.2 ?_
        rw [← hei]
        exact (hRemChar e he).mpr hb
    refine List.mem_map.mpr ⟨(fun e : Entry =>
      { e with senses := e.senses.filter (fun s => s.synset ≠ sid) }) e,
      ?_, hei⟩
    refine List.mem_filter.mpr ⟨List.mem_map.mpr ⟨e, he, rfl⟩, ?_⟩
    show (!(e.senses.filter (fun s => s.synset ≠ sid)).isEmpty) = true
    rw [hne]
    rfl
  · intro e' he'
    rw [remove_synset_entries_eq st sid hs] at he'
    rw [remove_synset_entryIdx_eq st sid hs, foldl_erase_entries]
    obtain ⟨he1, hp1⟩ := List.mem_filter.mp he'
    obtain ⟨e0, he0, hre⟩ := List.mem_map.mp he1
    refine mem_foldl_erase _ _ _ ?_ ?_
    · rw [← hre]
      show e0.id ∈ st.entryIdx
      exact hEcov e0 he0
    · rw [← hre]
      intro hmem
      replace hmem : e0.id ∈ (((st.entries.map (fun e =>
        { e with senses := e.senses.filter (fun s => s.synset ≠ sid) })).filter
        (fun e => e.senses.isEmpty)).map Entry.id) := hmem
      have hie := (hRemChar e0 he0).mp hmem
      rw [← hre] at hp1
      replace hp1 : (!(e0.senses.filter (fun s => s.synset ≠ sid)).isEmpty)
          = true := hp1
      rw [hie] at hp1
      simp at hp1
  · rw [remove_synset_synsetIdx_eq st sid hs]
    exact hndSI.erase sid
  · intro i hi
    rw [remove_synset_synsetIdx_eq st sid hs] at hi
    have hi2 := (List.Nodup.mem_erase_iff hndSI).mp hi
    obtain ⟨s, hsm, hsi⟩ := List.mem_map.mp (hSmem i hi2.2)
    rw [remove_synset_synsets_eq st sid hs]
    refine List.mem_map.mpr ⟨s, ?_, hsi⟩
    refine List.mem_filter.mpr ⟨hsm, ?_⟩
    simp only [decide_eq_true_eq]
    rw [hsi]
    exact hi2.1
  · intro s hsm
    rw [remove_synset_synsets_eq st sid hs] at hsm
    rw [remove_synset_synsetIdx_eq st sid hs]
    obtain ⟨hs1, hs2⟩ := List.mem_filter.mp hsm
    rw [List.Nodup.mem_erase_iff hndSI]
    refine ⟨?_, hScov s hs1⟩
    simpa using hs2
  · rw [remove_synset_senseIdx_eq st sid hs]
    exact nodup_foldl_erase _ _ hndSeI
  · intro i hi
    rw [remove_synset_senseIdx_eq st sid hs] at hi
    have hi2 := (mem_foldl_erase_iff _ _ i hndSeI).mp hi
    obtain ⟨s, hsall, hsi⟩ := List.mem_map.mp (hSeMem i hi2.1)
    replace hsall : s ∈ st.entries.flatMap Entry.senses := hsall
    obtain ⟨e, he, hse⟩ := List.mem_flatMap.mp hsall
    have hsyn : s.synset ≠ sid := by
      intro hcontra
      refine hi2.2 ?_
      rw [← hsi]
      exact List.mem_flatMap.mpr ⟨e, he,
        List.mem_map.mpr ⟨s, List.mem_filter.mpr ⟨hse, by simp [hcontra]⟩, rfl⟩⟩
    show i ∈ ((remove_synset st sid).2.entries.flatMap Entry.senses).map Sense.id
    rw [remove_synset_entries_eq st sid hs]
    have hsmem2 : s ∈ e.senses.filter (fun s => s.synset ≠ sid) :=
      List.mem_filter.mpr ⟨hse, by simp [hsyn]⟩
    have hnemp : (!(e.senses.filter (fun s => s.synset ≠ sid)).isEmpty)
        = true := by
      have hnn : e.senses.filter (fun s => s.synset ≠ sid) ≠ [] :=
        List.ne_nil_of_mem hsmem2
      cases hb : (e.senses.filter (fun s => s.synset ≠ sid)).isEmpty with
      | false => rfl
      | true => exact absurd (List.isEmpty_iff.mp hb) hnn
    refine List.mem_map.mpr ⟨s, ?_, hsi⟩
    refine List.mem_flatMap.mpr ⟨(fun e : Entry =>
      { e with senses := e.senses.filter (fun s => s.synset ≠ sid) }) e,
      ?_, hsmem2⟩
    exact List.mem_filter.mpr ⟨List.mem_map.mpr ⟨e, he, rfl⟩, hnemp⟩
  · intro s hsall
    replace hsall : s ∈ (remove_synset st sid).2.entries.flatMap Entry.senses :=
      hsall
    rw [remove_synset_entries_eq st sid hs] at hsall
    rw [remove_synset_senseIdx_eq st sid hs]
    obtain ⟨e', he', hse'⟩ := List.mem_flatMap.mp hsall
    obtain ⟨he1, -⟩ := List.mem_filter.mp he'
    obtain ⟨e0, he0, hre⟩ := List.mem_map.mp he1
    rw [← hre] at hse'
    replace hse' : s ∈ e0.senses.filter (fun s => s.synset ≠ sid) := hse'
    obtain ⟨hs0, hsyn0⟩ := List.mem_filter.mp hse'
    have hsall0 : s ∈ st.entries.flatMap Entry.senses :=
      List.mem_flatMap.mpr ⟨e0, he0, hs0⟩
    refine mem_foldl_erase _ _ _ (hSeCov s hsall0) ?_
    intro hmem
    obtain ⟨e1, he1b, hmem1⟩ := List.mem_flatMap.mp hmem
    obtain ⟨t, ht1, hti⟩ := List.mem_map.mp hmem1
    obtain ⟨ht2, ht3⟩ := List.mem_filter.mp ht1
    have htall : t ∈ st.entries.flatMap Entry.senses :=
      List.mem_flatMap.mpr ⟨e1, he1b, ht2⟩
    have hts : t = s := List.inj_on_of_nodup_map hndSe htall hsall0 hti
    rw [hts] at ht3
    simp only [decide_eq_true_eq] at ht3 hsyn0
    exact hsyn0 ht3
  · rw [remove_synset_lemmaIdx_eq st sid hs, foldl_lemmaRemoveId_keys]
    exact hndL
  · intro pr hpr
    rw [remove_synset_lemmaIdx_eq st sid hs] at hpr
    have hkeysnd : (((((st.entries.map (fun e =>
        { e with senses := e.senses.filter (fun s => s.synset ≠ sid) })).filter
        (fun e => e.senses.isEmpty))).foldl
        (fun ix e => lemmaRemoveId ix e.lem.writtenForm e.id)
        st.lemmaIdx).map Prod.fst).Nodup := by
      rw [foldl_lemmaRemoveId_keys]
      exact hndL
    have hpr2 := lookupD_of_mem_nodup _ hkeysnd pr hpr
    rw [← hpr2, lookupD_foldl_lemmaRemoveId, WF_lookupD st hwf pr.1]
    rw [remove_synset_entries_eq st sid hs]
    rw [filter_not_contains_eq st.entries
      (fun e => e.lem.writtenForm = pr.1)
      (fun e => !(e.senses.filter (fun s => s.synset ≠ sid)).isEmpty)
      _ ?_]
    · rw [List.filter_filter, filter_map_strip st.entries
        (fun e => { e with senses := e.senses.filter (fun s => s.synset ≠ sid) })
        (fun e => rfl)]
    · intro e he
      constructor
      · intro hmem
        obtain ⟨r, hr, hrid⟩ := List.mem_map.mp hmem
        obtain ⟨hrA, hrB⟩ := List.mem_filter.mp hr
        obtain ⟨hrC, hrD⟩ := List.mem_filter.mp hrA
        obtain ⟨e1, he1, hre⟩ := List.mem_map.mp hrC
        have he1e : e1 = e := List.inj_on_of_nodup_map hndE he1 he
          (by rw [← hrid, ← hre])
        rw [he1e] at hre
        constructor
        · show decide (e.lem.writtenForm = pr.1) = true
          rw [← hre] at hrB
          exact hrB
        · show (!(e.senses.filter (fun s => s.synset ≠ sid)).isEmpty) = false
          rw [← hre] at hrD
          replace hrD : (e.senses.filter (fun s => s.synset ≠ sid)).isEmpty
              = true := hrD
          rw [hrD]
          rfl
      · intro hqp
        obtain ⟨h1, h2⟩ := hqp
        replace h2 : (!(e.senses.filter (fun s => s.synset ≠ sid)).isEmpty)
            = false := h2
        have hX : (e.senses.filter (fun s => s.synset ≠ sid)).isEmpty = true := by
          cases hb : (e.senses.filter (fun s => s.synset ≠ sid)).isEmpty with
          | true => rfl
          | false =>
            rw [hb] at h2
            simp at h2
        refine List.mem_map.mpr ⟨(fun e : Entry =>
          { e with senses := e.senses.filter (fun s => s.synset ≠ sid) }) e,
          ?_, rfl⟩
        refine List.mem_filter.mpr
          ⟨List.mem_filter.mpr ⟨List.mem_map.mpr ⟨e, he, rfl⟩, hX⟩, ?_⟩
        show decide (e.lem.writtenForm = pr.1) = true
        exact h1
  · intro e' he'
    rw [remove_synset_entries_eq st sid hs] at he'
    show e'.lem.writtenForm ∈ ((remove_synset st sid).2.lemmaIdx).map Prod.fst
    rw [remove_synset_lemmaIdx_eq st sid hs, foldl_lemmaRemoveId_keys]
    obtain ⟨he1, -⟩ := List.mem_filter.mp he'
    obtain ⟨e0, he0, hre⟩ := List.mem_map.mp he1
    rw [← hre]
    show e0.lem.writtenForm ∈ st.lemmaIdx.map Prod.fst
    exact hLcov e0 he0

/-- With globally unique sense identifiers, a sense id determines the
entry bearing it: two entries holding equal sense ids are the same id. -/
theorem flatMap_id_nodup_disjoint (l : List Entry)
    (hnd : ((l.flatMap Entry.senses).map Sense.id).Nodup) :
    ∀ e1 ∈ l, ∀ e2 ∈ l, ∀ s1 ∈ e1.senses, ∀ s2 ∈ e2.senses,
      s1.id = s2.id → e1.id = e2.id := by
  induction l with
  | nil => intro e1 h; cases h
  | cons a l ih =>
    intro e1 he1 e2 he2 s1 hs1 s2 hs2 hid
    rw [List.flatMap_cons, List.map_append, List.nodup_append] at hnd
    obtain ⟨hndA, hndL, hdisj⟩ := hnd
    rcases List.mem_cons.mp he1 with rfl | he1m
    · rcases List.mem_cons.mp he2 with rfl | he2m
      · rfl
      · exfalso
        refine hdisj (List.mem_map.mpr ⟨s1, hs1, rfl⟩) ?_
        rw [hid]
        exact List.mem_map.mpr ⟨s2, List.mem_flatMap.mpr ⟨e2, he2m, hs2⟩, rfl⟩
    · rcases List.mem_cons.mp he2 with rfl | he2m
      · exfalso
        refine hdisj (List.mem_map.mpr ⟨s2, hs2, rfl⟩) ?_
        rw [← hid]
        exact List.mem_map.mpr ⟨s1, List.mem_flatMap.mpr ⟨e1, he1m, hs1⟩, rfl⟩
      · exact ih hndL e1 he1m e2 he2m s1 hs1 s2 hs2 hid

/-- `remove_entry` preserves well-formedness. -/
theorem WF_remove_entry (st : EditorState) (eid : String) (hwf : WF st) :
    WF (remove_entry st eid).2 := by
  by_cases hc : eid ∈ st.entryIdx
  case neg => rw [remove_entry_absent st eid hc]; exact hwf
  case pos =>
  have hwf0 := hwf
  obtain ⟨⟨hndE, hndS, hndSe⟩, hndEI, hEmem, hEcov, hndSI, hSmem, hScov,
    hndSeI, hSeMem, hSeCov, hndL, hLval, hLcov⟩ := hwf0
  cases hfind : st.entries.find? (fun e => e.id = eid) with
  | none =>
    exfalso
    obtain ⟨e, he, hei⟩ := List.mem_map.mp (hEmem eid hc)
    have hne := List.find?_eq_none.mp hfind e he
    simp [hei] at hne
  | some entry =>
    have hentrymem : entry ∈ st.entries := List.mem_of_find?_eq_some hfind
    have hentryid : entry.id = eid := by simpa using List.find?_some hfind
    have hst : (remove_entry st eid).2 = { st with
        entries := st.entries.filter (fun e => e.id ≠ eid),
        entryIdx := st.entryIdx.erase eid,
        senseIdx := (entry.senses.map Sense.id).foldl
          (fun ix i => ix.erase i) st.senseIdx,
        lemmaIdx := lemmaRemoveId st.lemmaIdx entry.lem.writtenForm eid } := by
      unfold remove_entry
      rw [if_neg (by simp [List.elem_iff, hc]), hfind]
    rw [hst]
    refine ⟨⟨?_, ?_, ?_⟩, ?_, ?_, ?_, ?_, ?_, ?_, ?_, ?_, ?_, ?_, ?_, ?_⟩
    · show ((st.entries.filter (fun e => e.id ≠ eid)).map Entry.id).Nodup
      exact List.Nodup.sublist
        (List.Sublist.map Entry.id (List.filter_sublist _)) hndE
    · exact hndS
    · show ((((st.entries.filter (fun e => e.id ≠ eid)).flatMap
        Entry.senses)).map Sense.id).Nodup
      exact List.Nodup.sublist (List.Sublist.map Sense.id
        (flatMap_sublist _ _ Entry.senses (List.filter_sublist _))) hndSe
    · show (st.entryIdx.erase eid).Nodup
      exact hndEI.erase eid
    · intro i hi
      replace hi : i ∈ st.entryIdx.erase eid := hi
      have hi2 := (List.Nodup.mem_erase_iff hndEI).mp hi
      obtain ⟨e, he, heiq⟩ := List.mem_map.mp (hEmem i hi2.2)
      show i ∈ (st.entries.filter (fun e => e.id ≠ eid)).map Entry.id
      refine List.mem_map.mpr ⟨e, ?_, heiq⟩
      refine List.mem_filter.mpr ⟨he, ?_⟩
      simp only [decide_eq_true_eq]
      rw [heiq]
      exact hi2.1
    · intro e' he'
      replace he' : e' ∈ st.entries.filter (fun e => e.id ≠ eid) := he'
      obtain ⟨he1, hp1⟩ := List.mem_filter.mp he'
      show e'.id ∈ st.entryIdx.erase eid
      rw [List.Nodup.mem_erase_iff hndEI]
      refine ⟨?_, hEcov e' he1⟩
      simpa using hp1
    · exact hndSI
    · exact hSmem
    · exact hScov
    · show ((entry.senses.map Sense.id).foldl
        (fun ix i => ix.erase i) st.senseIdx).Nodup
      exact nodup_foldl_erase _ _ hndSeI
    · intro i hi
      replace hi : i ∈ (entry.senses.map Sense.id).foldl
        (fun ix i => ix.erase i) st.senseIdx := hi
      have hi2 := (mem_foldl_erase_iff _ _ i hndSeI).mp hi
      obtain ⟨s, hsall, hsi⟩ := List.mem_map.mp (hSeMem i hi2.1)
      replace hsall : s ∈ st.entries.flatMap Entry.senses := hsall
      obtain ⟨e, he, hse⟩ := List.mem_flatMap.mp hsall
      have hene : e.id ≠ eid := by
        intro heq
        have hee : e = entry := List.inj_on_of_nodup_map hndE he hentrymem
          (by rw [heq, hentryid])
        refine hi2.2 ?_
        rw [← hsi]
        refine List.mem_map.mpr ⟨s, ?_, rfl⟩
        rw [← hee]
        exact hse
      show i ∈ ((st.entries.filter (fun e => e.id ≠ eid)).flatMap
        Entry.senses).map Sense.id
      refine List.mem_map.mpr ⟨s, ?_, hsi⟩
      refine List.mem_flatMap.mpr ⟨e, ?_, hse⟩
      exact List.mem_filter.mpr ⟨he, by simp [hene]⟩
    · intro s hsall
      replace hsall : s ∈ (st.entries.filter (fun e => e.id ≠ eid)).flatMap
        Entry.senses := hsall
      obtain ⟨e, he, hse⟩ := List.mem_flatMap.mp hsall
      obtain ⟨heA, heB⟩ := List.mem_filter.mp he
      have hsall0 : s ∈ st.entries.flatMap Entry.senses :=
        List.mem_flatMap.mpr ⟨e, heA, hse⟩
      show s.id ∈ (entry.senses.map Sense.id).foldl
        (fun ix i => ix.erase i) st.senseIdx
      refine mem_foldl_erase _ _ _ (hSeCov s hsall0) ?_
      intro hmem
      obtain ⟨t, ht, hti⟩ := List.mem_map.mp hmem
      have htall : t ∈ st.entries.flatMap Entry.senses :=
        List.mem_flatMap.mpr ⟨entry, hentrymem, ht⟩
      have hts : t = s := List.inj_on_of_nodup_map hndSe htall hsall0 hti
      rw [hts] at ht
      have heq : e.id = entry.id :=
        flatMap_id_nodup_disjoint st.entries hndSe e heA entry hentrymem
          s hse s ht rfl
      rw [hentryid] at heq
      simp [heq] at heB
    · show ((lemmaRemoveId st.lemmaIdx entry.lem.writtenForm eid).map
        Prod.fst).Nodup
      rw [lemmaRemoveId_keys]
      exact hndL
    · intro pr hpr
      replace hpr : pr ∈ lemmaRemoveId st.lemmaIdx entry.lem.writtenForm eid :=
        hpr
      have hkeysnd : ((lemmaRemoveId st.lemmaIdx entry.lem.writtenForm eid).map
          Prod.fst).Nodup := by
        rw [lemmaRemoveId_keys]
        exact hndL
      have hpr2 := lookupD_of_mem_nodup _ hkeysnd pr hpr
      show pr.2 = ((st.entries.filter (fun e => e.id ≠ eid)).filter
        (fun e => e.lem.writtenForm = pr.1)).map Entry.id
      rw [← hpr2, lookupD_lemmaRemoveId, WF_lookupD st hwf pr.1]
      rw [List.filter_comm]
      by_cases hfk : pr.1 = entry.lem.writtenForm
      · rw [if_pos hfk, List.filter_map]
        rfl
      · have hkeep : ∀ a ∈ st.entries.filter
            (fun e => e.lem.writtenForm = pr.1), decide (a.id ≠ eid) = true := by
          intro a ha
          obtain ⟨haE, haF⟩ := List.mem_filter.mp ha
          simp only [decide_eq_true_eq]
          intro heq
          have hae : a = entry := List.inj_on_of_nodup_map hndE haE hentrymem
            (by rw [heq, hentryid])
          refine hfk ?_
          simp only [decide_eq_true_eq] at haF
          rw [← haF, hae]
        rw [if_neg hfk, List.filter_eq_self.mpr hkeep]
    · intro e' he'
      replace he' : e' ∈ st.entries.filter (fun e => e.id ≠ eid) := he'
      obtain ⟨he1, -⟩ := List.mem_filter.mp he'
      show e'.lem.writtenForm ∈ (lemmaRemoveId st.lemmaIdx
        entry.lem.writtenForm eid).map Prod.fst
      rw [lemmaRemoveId_keys]
      exact hLcov e' he1

/-- One Edit Engine call preserves well-formedness, given fresh
generated identifiers. -/
theorem WF_applyOp (st : EditorState) (op : Op) (hwf : WF st)
    (hok : OpOK st op) : WF (applyOp st op) := by
  cases op with
  | createSynsetOp pos d ds exs ws ili sid eids =>
    obtain ⟨hfS, hnt, hnd, hfB, hfsx, hsf⟩ := hok
    simp only [applyOp]
    by_cases hp : pos ∈ PARTS_OF_SPEECH
    · rw [create_synset_eq st pos d ds exs ws ili sid eids _
        (make_synset_ok sid pos ili _ _ hp)]
      exact WF_create_synset_ok st pos _ ws eids sid hwf hp rfl hfS hnt hsf
        hnd hfB hfsx
    · rw [create_synset_invalid st pos d ds exs ws ili sid eids hp]
      exact hwf
  | modifySynsetOp sid d ds exs ili =>
    exact WF_modify_synset st sid d ds exs ili hwf
  | removeSynsetOp sid => exact WF_remove_synset st sid hwf
  | addSynsetRelationOp vocab src tgt rty v =>
    exact WF_add_synset_relation vocab st src tgt rty v hwf
  | createEntryOp lem pos eid =>
    simp only [applyOp]
    by_cases hp : pos ∈ PARTS_OF_SPEECH
    · rw [create_entry_ok st lem pos eid hp]
      exact WF_append_entry st
        { id := eid, lem := { writtenForm := lem, partOfSpeech := pos },
          senses := [] } st.senseIdx hwf hok (List.append_nil _).symm
        (fun s hs => absurd hs (List.not_mem_nil s)) List.nodup_nil
    · have hq : create_entry st lem pos eid
          = .error (.invalidArgument "part of speech for lemma") := by
        unfold create_entry
        rw [if_neg hp]
      rw [hq]
      exact hwf
  | addWordToSynsetOp sid w pos eid =>
    obtain ⟨heid, hes, hcond⟩ := hok
    exact WF_add_word st sid w pos eid hwf heid hes hcond
  | removeEntryOp eid => exact WF_remove_entry st eid hwf
  | addSenseRelationOp vocab src tgt rty v =>
    exact WF_add_sense_relation vocab st src tgt rty v hwf

/-- A whole sequence of Edit Engine calls preserves well-formedness. -/
theorem WF_applyOps (st : EditorState) (ops : List Op) (hwf : WF st)
    (hok : OpsOK st ops) : WF (applyOps st ops) := by
  induction ops generalizing st with
  | nil => exact hwf
  | cons op ops ih =>
    obtain ⟨h1, h2⟩ := hok
    exact ih (applyOp st op) (WF_applyOp st op hwf h1) h2

/-- C4: calling `add_word_to_synset` twice with identical arguments on a
synset present in the index leaves the document after the second call
equal to the document after the first call: the second call creates no
new entry and no new sense (entry count and total sense count are
unchanged).  `eid` is the identifier the call would generate for a new
entry; its freshness models uuid collision resistance. -/
theorem c4_add_word_to_synset_idempotent (st : EditorState) (sid lem : String)
    (pos : Option String) (eid : String) (hwf : WF st)
    (hs : sid ∈ st.synsetIdx) (heid : eid ∉ st.entries.map Entry.id) :
    (add_word_to_synset (add_word_to_synset st sid lem pos eid).2
        sid lem pos eid).2
      = (add_word_to_synset st sid lem pos eid).2 ∧
    ((add_word_to_synset (add_word_to_synset st sid lem pos eid).2
        sid lem pos eid).2).allSenses.length
      = ((add_word_to_synset st sid lem pos eid).2).allSenses.length ∧
    ((add_word_to_synset (add_word_to_synset st sid lem pos eid).2
        sid lem pos eid).2).entries.length
      = ((add_word_to_synset st sid lem pos eid).2).entries.length := by
  have hmain : (add_word_to_synset (add_word_to_synset st sid lem pos eid).2
      sid lem pos eid).2 = (add_word_to_synset st sid lem pos eid).2 := by
    cases hf : (find_entries st lem (some (resolvePos st sid pos))).head? with
    | some e =>
      by_cases hhas : e.senses.any (fun s => s.synset = sid) = true
      · have hcall1 : (add_word_to_synset st sid lem pos eid).2 = st := by
          rw [add_word_to_synset_found st sid lem pos eid hs e hf,
              addSenseIfMissing_of_has st e sid hhas]
        rw [hcall1, hcall1]
      · have hhasf : e.senses.any (fun s => s.synset = sid) = false := by
          revert hhas
          cases e.senses.any (fun s => s.synset = sid) <;> simp
        have hcall1 : (add_word_to_synset st sid lem pos eid).2
            = { st with
                entries := st.entries.map (fun e1 => if e1.id = e.id then
                  { e1 with senses :=
                      e1.senses ++ [make_sense (e.id ++ "-" ++ sid) sid] } else e1),
                senseIdx := keyInsert st.senseIdx (e.id ++ "-" ++ sid) } := by
          rw [add_word_to_synset_found st sid lem pos eid hs e hf,
              addSenseIfMissing_of_not_has st e sid hhasf]
        rw [hcall1, add_word_after_addSense st e sid lem pos eid hs hf]
    | none =>
      by_cases hp : resolvePos st sid pos ∈ PARTS_OF_SPEECH
      · have hcall1 : (add_word_to_synset st sid lem pos eid).2
            = { st with
                entries := st.entries ++
                  [{ id := eid,
                     lem := { writtenForm := lem,
                              partOfSpeech := resolvePos st sid pos },
                     senses := [make_sense (eid ++ "-" ++ sid) sid] }],
                entryIdx := keyInsert st.entryIdx eid,
                senseIdx := keyInsert st.senseIdx (eid ++ "-" ++ sid),
                lemmaIdx := lemmaAppend st.lemmaIdx lem eid } := by
          rw [add_word_to_synset_create st sid lem pos eid hs hf hp,
              addSense_on_fresh_entry st sid lem (resolvePos st sid pos) eid heid]
        rw [hcall1, add_word_after_create st sid lem pos eid hwf hs hf heid]
      · have hcall1 : (add_word_to_synset st sid lem pos eid).2 = st := by
          rw [add_word_to_synset_create_invalid st sid lem pos eid hs hf hp]
        rw [hcall1, hcall1]
  exact ⟨hmain, by rw [hmain], by rw [hmain]⟩

/-- C4 instance: adding the word "dog" to synset S1 twice in a row
yields the same state as adding it once. -/
theorem c4_add_word_to_synset_idempotent_witness :
    (add_word_to_synset
      (add_word_to_synset
        { entries := [], synsets := [{ id := "S1", partOfSpeech := "n" }],
          entryIdx := [], synsetIdx := ["S1"], senseIdx := [], lemmaIdx := [] }
        "S1" "dog" (some "n") "e1").2
      "S1" "dog" (some "n") "e1").2
    = (add_word_to_synset
        { entries := [], synsets := [{ id := "S1", partOfSpeech := "n" }],
          entryIdx := [], synsetIdx := ["S1"], senseIdx := [], lemmaIdx := [] }
        "S1" "dog" (some "n") "e1").2 :=
  (c4_add_word_to_synset_idempotent
    { entries := [], synsets := [{ id := "S1", partOfSpeech := "n" }],
      entryIdx := [], synsetIdx := ["S1"], senseIdx := [], lemmaIdx := [] }
    "S1" "dog" (some "n") "e1" (by decide) (by decide) (by decide)).1

/-- C7: after any sequence of Edit Engine operations (create_synset,
modify_synset, remove_synset, add_synset_relation, create_entry,
add_word_to_synset, remove_entry, add_sense_relation) run from a
well-formed document with fresh generated identifiers, the four lookup
structures exactly mirror the document: the entry, synset and sense
indexes hold exactly the identifiers of the corresponding document
objects, and the surface-form index maps each written form borne by an
entry to the sequence of entries bearing it, in insertion order. -/
theorem c7_indexes_mirror (st : EditorState) (ops : List Op) (hwf : WF st)
    (hok : OpsOK st ops) : IndexesMirror (applyOps st ops) :=
  (WF_applyOps st ops hwf hok).2

/-- C7 instance: from the empty document, a sequence exercising all
eight operations ends in a state whose indexes mirror the document. -/
theorem c7_indexes_mirror_witness :
    WF ({ entries := [], synsets := [], entryIdx := [], synsetIdx := [],
          senseIdx := [], lemmaIdx := [] } : EditorState) ∧
    OpsOK { entries := [], synsets := [], entryIdx := [], synsetIdx := [],
            senseIdx := [], lemmaIdx := [] }
      [Op.createSynsetOp "n" (some "a canine") [] [] ["dog"] none "s1" ["e1"],
       Op.addWordToSynsetOp "s1" "cat" none "e2",
       Op.addSenseRelationOp ["antonym"] "e2-s1" "x1" "antonym" true,
       Op.modifySynsetOp "s1" none [] ["it barks"] none,
       Op.createEntryOp "fox" "n" "e3",
       Op.addSynsetRelationOp ["hypernym"] "s1" "x2" "hypernym" true,
       Op.removeEntryOp "e2",
       Op.removeSynsetOp "s1"] ∧
    IndexesMirror (applyOps
      { entries := [], synsets := [], entryIdx := [], synsetIdx := [],
        senseIdx := [], lemmaIdx := [] }
      [Op.createSynsetOp "n" (some "a canine") [] [] ["dog"] none "s1" ["e1"],
       Op.addWordToSynsetOp "s1" "cat" none "e2",
       Op.addSenseRelationOp ["antonym"] "e2-s1" "x1" "antonym" true,
       Op.modifySynsetOp "s1" none [] ["it barks"] none,
       Op.createEntryOp "fox" "n" "e3",
       Op.addSynsetRelationOp ["hypernym"] "s1" "x2" "hypernym" true,
       Op.removeEntryOp "e2",
       Op.removeSynsetOp "s1"]) :=
  ⟨by decide, by decide, c7_indexes_mirror _ _ (by decide) (by decide)⟩

end WnEdit
